import Mathlib

/-!
# task-manage: the encrypted, locked, backed-up persistence layer

A shallow embedding of `task-api/storage` (crypto.go, file_manager.go,
encrypted_storage.go), of `task-api/config` (config.go) and of the start of
main.go, together with theorems about it.

Modelling conventions.

* Byte slices are lists of bytes. Go strings are Lean strings. File names of
  the program are ASCII, every character standing for one byte; for the
  encryption key, which the user supplies, Go `len` is the number of bytes of
  the UTF-8 encoding.
* The directory tree under `dataDir` is a finite map from relative paths to
  files. A relative path is kept in resolved form: the directory it lies in
  (`dataDir` itself or `dataDir/backups`) and the entry name. Entry names are
  plain names: path separators inside a name are not interpreted.
  Subdirectories of `dataDir/backups` are not part of the map; `ListBackups`,
  whose result is stated in terms of directory entries, gets their names from
  the environment.
* Functions of the Go standard library and of `golang.org/x/crypto` are
  parameters, collected in `Lib`; what the proofs use of them is `Lib.Lawful`.
* Everything the environment decides is an explicit argument of the operation
  that consults it: clock readings, the bytes of the random generator, and the
  failure of each system call. Time is a number of nanoseconds since the Unix
  epoch; what `AddDate` makes of a clock reading is a function the environment
  supplies, since it steps calendar days in the local time zone.
* A Go function returning `(value, error)` returns `Except Error value`; code
  working on the file manager returns the new state next to it.
-/

namespace TaskManage

/-! ## Basic types -/

abbrev Byte := Fin 256

abbrev Time := Int

/-- One second, in nanoseconds. -/
def second : Int := 1000000000

/-- One day of 24 hours, in nanoseconds. -/
def day : Int := 86400 * second

/-- Go error values: `errors.New`, `fmt.Errorf` with `%w`, `os.ErrNotExist`,
an error reported by a system or library call, and a run-time panic. -/
inductive Error where
  | msg (text : String)
  | wrap (text : String) (cause : Error)
  | notExist
  | sys (call : String)
  | panic (text : String)
  deriving DecidableEq, Repr

/-- The message of the panic a call ended in, if it ended in one. A panic is
not an error value: it unwinds through the callers, running their deferred
calls, instead of being handled by them. -/
def panicOf {α : Type} : Except Error α → Option String
  | .error (.panic text) => some text
  | _ => none

/-- Go slice expression `xs[lo:hi]`. -/
def slice (xs : List Byte) (lo hi : Nat) : List Byte :=
  (xs.drop lo).take (hi - lo)

/-! ## Library functions -/

/-- The library functions the storage layer calls: `pbkdf2.Key` (password, salt,
iterations, key length; the hash is fixed to SHA-256), `aes.NewCipher` and
`cipher.NewGCM` (whether they succeed for a key), `gcm.Seal` and `gcm.Open` (key,
nonce, text; no additional data), `json.Unmarshal` into an empty interface
(whether it succeeds) and `time.Format` with layout `20060102_150405`. -/
structure Lib where
  pbkdf2Key : List Byte → List Byte → Nat → Nat → List Byte
  aesNewCipher : List Byte → Bool
  newGCM : List Byte → Bool
  gcmSeal : List Byte → List Byte → List Byte → List Byte
  gcmOpen : List Byte → List Byte → List Byte → Option (List Byte)
  jsonValid : List Byte → Bool
  timeFormat : Time → String

def SaltSize : Nat := 16

def IVSize : Nat := 12

def TagSize : Nat := 16

def KeySize : Nat := 32

def PBKDF2Iters : Nat := 100000

/-- The documented contract of the library functions: `pbkdf2.Key` returns a
key of the requested length, AES accepts 32-byte keys and GCM the AES block,
opening a sealed text under the same 32-byte key and 12-byte nonce returns the
plaintext, and sealing adds the 16-byte tag. -/
structure Lib.Lawful (L : Lib) : Prop where
  pbkdf2_length : ∀ pw salt iters n, (L.pbkdf2Key pw salt iters n).length = n
  aes_ok : ∀ key, key.length = KeySize → L.aesNewCipher key = true
  gcm_ok : ∀ key, key.length = KeySize → L.newGCM key = true
  open_seal : ∀ key nonce p, key.length = KeySize → nonce.length = IVSize →
    L.gcmOpen key nonce (L.gcmSeal key nonce p) = some p
  seal_length : ∀ key nonce p, key.length = KeySize → nonce.length = IVSize →
    (L.gcmSeal key nonce p).length = p.length + TagSize

/-! ## crypto.go -/

structure CryptoService where
  password : List Byte

def NewCryptoService (password : List Byte) : CryptoService :=
  { password := password }

def CryptoService.deriveKey (L : Lib) (c : CryptoService) (salt : List Byte) : List Byte :=
  L.pbkdf2Key c.password salt PBKDF2Iters KeySize

/-- Outcome of one `rand.Read` call: `none` when the generator reports an
error, otherwise the supply of random bytes that fills the buffer. -/
abbrev RandRead := Option (Nat → Byte)

def CryptoService.generateSalt (r : RandRead) : Except Error (List Byte) :=
  match r with
  | none => .error (.msg "failed to generate salt")
  | some g => .ok ((List.range SaltSize).map g)

def CryptoService.generateIV (r : RandRead) : Except Error (List Byte) :=
  match r with
  | none => .error (.msg "failed to generate IV")
  | some g => .ok ((List.range IVSize).map g)

/-- The two draws of the random generator made by one `Encrypt` call. -/
structure EncryptEnv where
  salt : RandRead
  iv : RandRead

def CryptoService.Encrypt (L : Lib) (c : CryptoService) (env : EncryptEnv)
    (plaintext : List Byte) : Except Error (List Byte) :=
  if plaintext.length = 0 then .error (.msg "plaintext cannot be empty") else
  match CryptoService.generateSalt env.salt with
  | .error err => .error err
  | .ok salt =>
    let key := c.deriveKey L salt
    if L.aesNewCipher key = false then .error (.msg "failed to create AES cipher") else
    if L.newGCM key = false then .error (.msg "failed to create GCM cipher") else
    match CryptoService.generateIV env.iv with
    | .error err => .error err
    | .ok iv =>
      let ciphertext := L.gcmSeal key iv plaintext
      .ok (salt ++ iv ++ ciphertext)

def CryptoService.Decrypt (L : Lib) (c : CryptoService) (encrypted : List Byte) :
    Except Error (List Byte) :=
  if encrypted.length < SaltSize + IVSize + TagSize then
    .error (.msg "encrypted data too short")
  else
    let salt := slice encrypted 0 SaltSize
    let iv := slice encrypted SaltSize (SaltSize + IVSize)
    let ciphertext := encrypted.drop (SaltSize + IVSize)
    let key := c.deriveKey L salt
    if L.aesNewCipher key = false then .error (.msg "failed to create AES cipher") else
    if L.newGCM key = false then .error (.msg "failed to create GCM cipher") else
    match L.gcmOpen key iv ciphertext with
    | none => .error (.msg "decryption failed: invalid data or wrong password")
    | some plaintext => .ok plaintext

def CryptoService.ValidatePassword (L : Lib) (c : CryptoService) (encryptedData : List Byte) :
    Except Error Unit :=
  if encryptedData.length = 0 then .ok () else
  match c.Decrypt L encryptedData with
  | .error err => .error err
  | .ok _ => .ok ()

/-! ## file_manager.go -/

/-- A path relative to `dataDir`: an entry of `dataDir` itself, or an entry of
`dataDir/backups`. -/
inductive RelPath where
  | data (name : String)
  | backup (name : String)
  deriving DecidableEq, Repr

/-- A regular file: its bytes and its modification time. -/
structure File where
  data : List Byte
  modTime : Time
  deriving DecidableEq, Repr

abbrev Files := AList (fun _ : RelPath => File)

/-- The file manager together with the directory tree it manages: whether
`dataDir` and `dataDir/backups` exist, the regular files below `dataDir`, and
whether the lock handle `fileLock` is set (not nil). -/
structure FileManager where
  dataDirExists : Bool
  backupDirExists : Bool
  files : Files
  fileLock : Bool

/-- Name of the lock file, `filepath.Join(dataDir, ".lock")`. -/
def lockFileName : String := ".lock"

/-- A file manager over the directory tree found at `dataDir`; the lock handle
starts out nil. -/
def NewFileManager (dataDirExists backupDirExists : Bool) (files : Files) : FileManager :=
  { dataDirExists := dataDirExists, backupDirExists := backupDirExists, files := files,
    fileLock := false }

/-- Whether each of the two `os.MkdirAll` calls of `ensureDataDir` fails. -/
structure MkdirEnv where
  dataDirFails : Bool
  backupDirFails : Bool

/-- The states `ensureDataDir` passes through, one after each successful
`os.MkdirAll`, and its result. -/
def FileManager.ensureDataDirRun (fm : FileManager) (e : MkdirEnv) :
    List FileManager × Except Error Unit :=
  if e.dataDirFails then
    ([], .error (.wrap "failed to create data directory" (.sys "mkdir")))
  else
    let fm1 := { fm with dataDirExists := true }
    if e.backupDirFails then
      ([fm1], .error (.wrap "failed to create backup directory" (.sys "mkdir")))
    else
      ([fm1, { fm1 with backupDirExists := true }], .ok ())

def FileManager.ensureDataDir (fm : FileManager) (e : MkdirEnv) :
    FileManager × Except Error Unit :=
  ((fm.ensureDataDirRun e).1.getLastD fm, (fm.ensureDataDirRun e).2)

/-- Result of one `syscall.Flock` attempt with `LOCK_EX|LOCK_NB`. -/
inductive FlockResult where
  | acquired
  | wouldBlock
  | failed
  deriving DecidableEq, Repr

/-- The retry loop of `acquireLockWithTimeout`. Each element of the trace is
one evaluation of the loop condition: the clock reading of `time.Now()` and the
result of the `Flock` attempt made if that reading is before the deadline. A
trace that ends stands for the clock having passed the deadline. -/
def acquireLoop (deadline : Time) : List (Time × FlockResult) → Except Error Unit
  | [] => .error (.msg "timeout acquiring file lock")
  | (now, r) :: rest =>
    if now < deadline then
      match r with
      | .acquired => .ok ()
      | .failed => .error (.wrap "failed to acquire file lock" (.sys "flock"))
      | .wouldBlock => acquireLoop deadline rest
    else .error (.msg "timeout acquiring file lock")

def acquireLockWithTimeout (start : Time) (attempts : List (Time × FlockResult))
    (timeout : Int) : Except Error Unit :=
  acquireLoop (start + timeout) attempts

/-- What the environment decides during one `Lock` call. -/
structure LockEnv where
  mkdir : MkdirEnv
  openFails : Bool
  lockFileTime : Time
  start : Time
  attempts : List (Time × FlockResult)

def FileManager.Lock (fm : FileManager) (e : LockEnv) : FileManager × Except Error Unit :=
  match fm.ensureDataDir e.mkdir with
  | (fm1, .error err) => (fm1, .error err)
  | (fm1, .ok _) =>
    if fm1.fileLock then (fm1, .ok ()) else
    if e.openFails then (fm1, .error (.wrap "failed to open lock file" (.sys "open"))) else
    let fm2 : FileManager :=
      match fm1.files.lookup (.data lockFileName) with
      | some _ => fm1
      | none => { fm1 with files := fm1.files.insert (.data lockFileName) ⟨[], e.lockFileTime⟩ }
    match acquireLockWithTimeout e.start e.attempts (5 * second) with
    | .error err => (fm2, .error err)
    | .ok _ => ({ fm2 with fileLock := true }, .ok ())

/-- Whether `Flock` with `LOCK_UN` and the `Close` of the lock file fail. -/
structure UnlockEnv where
  flockFails : Bool
  closeFails : Bool

def FileManager.Unlock (fm : FileManager) (e : UnlockEnv) : FileManager × Except Error Unit :=
  if fm.fileLock = false then (fm, .ok ()) else
  if e.flockFails then
    ({ fm with fileLock := false }, .error (.wrap "failed to release file lock" (.sys "flock")))
  else
    ({ fm with fileLock := false }, if e.closeFails then .error (.sys "close") else .ok ())

/-- The path string, relative to `dataDir`. -/
def RelPath.path : RelPath → String
  | .data name => name
  | .backup name => "backups/" ++ name

/-- The path string of a relative path is empty. -/
def RelPath.isEmpty : RelPath → Bool
  | .data name => name = ""
  | .backup _ => false

def FileManager.ReadFile (fm : FileManager) (filename : RelPath) (readFails : Bool) :
    Except Error (List Byte) :=
  if filename.isEmpty then .error (.msg "filename cannot be empty") else
  match fm.files.lookup filename with
  | none => .error .notExist
  | some f =>
    if readFails then .error (.wrap ("failed to read file " ++ filename.path) (.sys "read"))
    else .ok f.data

/-- Outcome of one `os.WriteFile` call: every byte written; the file could not
be opened or created, so nothing changes; or the file was opened and truncated,
the first `n` bytes were written, and the call then failed. -/
inductive WriteResult where
  | ok
  | openFailed
  | short (n : Nat)
  deriving DecidableEq, Repr

/-- What the environment decides during one `WriteFile` call; `time` is the
modification time stamped on the temporary file. -/
structure WriteEnv where
  mkdir : MkdirEnv
  tmpWrite : WriteResult
  renameFails : Bool
  removeFails : Bool
  time : Time

/-- The states `WriteFile` passes through, one after each step that changes
the directory tree (the two `MkdirAll`, the truncating open of the temporary
file, the write to it, the rename or the removal), and its result. -/
def FileManager.WriteFileRun (fm : FileManager) (filename : String) (data : List Byte)
    (e : WriteEnv) : List FileManager × Except Error Unit :=
  if filename = "" then ([], .error (.msg "filename cannot be empty")) else
  match fm.ensureDataDir e.mkdir with
  | (_, .error err) => ((fm.ensureDataDirRun e.mkdir).1, .error err)
  | (fm1, .ok _) =>
    let dirs := (fm.ensureDataDirRun e.mkdir).1
    let filePath := RelPath.data filename
    let tempPath := RelPath.data (filename ++ ".tmp")
    let opened := { fm1 with files := fm1.files.insert tempPath ⟨[], e.time⟩ }
    match e.tmpWrite with
    | .openFailed =>
      (dirs, .error (.wrap "failed to write temporary file" (.sys "open")))
    | .short n =>
      (dirs ++ [opened, { fm1 with files := fm1.files.insert tempPath ⟨data.take n, e.time⟩ }],
        .error (.wrap "failed to write temporary file" (.sys "write")))
    | .ok =>
      let written := { fm1 with files := fm1.files.insert tempPath ⟨data, e.time⟩ }
      if e.renameFails then
        let cleaned :=
          if e.removeFails then written
          else { written with files := written.files.erase tempPath }
        (dirs ++ [opened, written, cleaned],
          .error (.wrap "failed to rename temporary file" (.sys "rename")))
      else
        (dirs ++ [opened, written,
            { written with files := (written.files.erase tempPath).insert filePath ⟨data, e.time⟩ }],
          .ok ())

def FileManager.WriteFile (fm : FileManager) (filename : String) (data : List Byte)
    (e : WriteEnv) : FileManager × Except Error Unit :=
  ((fm.WriteFileRun filename data e).1.getLastD fm, (fm.WriteFileRun filename data e).2)

/-- What the environment decides during one `CreateBackup` call: the reading of
`time.Now()`, whether reading the source fails, the outcome of writing the
backup file and the modification time stamped on it. -/
structure BackupEnv where
  now : Time
  readFails : Bool
  write : WriteResult
  time : Time

/-- Go `fmt.Sprintf("%s_backup_%s.enc", filename[:len(filename)-4], timestamp)`,
for a file name of at least 4 bytes. -/
def backupFileName (filename timestamp : String) : String :=
  String.mk (filename.data.take (filename.length - 4)) ++ "_backup_" ++ timestamp ++ ".enc"

def FileManager.CreateBackup (L : Lib) (fm : FileManager) (filename : String)
    (e : BackupEnv) : FileManager × Except Error String :=
  if filename = "" then (fm, .error (.msg "filename cannot be empty")) else
  match fm.files.lookup (.data filename) with
  | none => (fm, .error (.msg "source file does not exist"))
  | some source =>
    let timestamp := L.timeFormat e.now
    if filename.length < 4 then (fm, .error (.panic "slice bounds out of range")) else
    let backupName := backupFileName filename timestamp
    let backupPath := RelPath.backup backupName
    if e.readFails then (fm, .error (.wrap "failed to read source file" (.sys "read"))) else
    if fm.backupDirExists = false then
      (fm, .error (.wrap "failed to write backup file" .notExist))
    else
      match e.write with
      | .openFailed => (fm, .error (.wrap "failed to write backup file" (.sys "open")))
      | .short n =>
        ({ fm with files := fm.files.insert backupPath ⟨source.data.take n, e.time⟩ },
          .error (.wrap "failed to write backup file" (.sys "write")))
      | .ok =>
        ({ fm with files := fm.files.insert backupPath ⟨source.data, e.time⟩ }, .ok backupName)

/-- Go `filepath.Ext` on the reversed path: scan from the end for a dot, stop
at a path separator. -/
def extScan : List Char → List Char → List Char
  | [], _ => []
  | c :: rest, acc =>
    if c = '/' then [] else if c = '.' then c :: acc else extScan rest (c :: acc)

def Ext (path : String) : String :=
  String.mk (extScan path.data.reverse [])

/-- The names of the regular files `os.ReadDir` returns for `dataDir/backups`,
sorted by name. The tree of the model holds regular files only; the loop of
`DeleteOldBackups` skips every directory. -/
def FileManager.readDirBackups (fm : FileManager) : List String :=
  (fm.files.keys.filterMap (fun p => match p with
    | .backup name => some name
    | .data _ => none)).insertionSort (fun a b => a.data ≤ b.data)

/-- One `os.DirEntry`: its name and whether it is a directory. -/
structure DirEntry where
  name : String
  isDir : Bool
  deriving DecidableEq, Repr

/-- What the environment decides during one `ListBackups` call: whether
`os.ReadDir` fails, and the names of the subdirectories of `dataDir/backups`,
which the program neither creates nor changes. -/
structure ListEnv where
  readDirFails : Bool
  subdirs : List String

/-- The entries `os.ReadDir` returns for `dataDir/backups`, regular files and
directories, sorted by name. -/
def FileManager.readDirEntries (fm : FileManager) (subdirs : List String) : List DirEntry :=
  (fm.readDirBackups.map (fun n => DirEntry.mk n false) ++
    subdirs.map (fun n => DirEntry.mk n true)).insertionSort
      (fun a b => a.name.data ≤ b.name.data)

def FileManager.ListBackups (fm : FileManager) (e : ListEnv) : Except Error (List String) :=
  if fm.backupDirExists = false then .ok [] else
  if e.readDirFails then .error (.wrap "failed to read backup directory" (.sys "readdir")) else
  .ok (((fm.readDirEntries e.subdirs).filter
    (fun entry => !entry.isDir && decide (Ext entry.name = ".enc"))).map DirEntry.name)

/-- What the environment decides during one `DeleteOldBackups` call: the
reading of `time.Now()`; the instant `t.AddDate(0, 0, days)` returns, a
function of the Go library that steps calendar days in the local time zone of
the process and computes on 64-bit words; whether `os.ReadDir` fails; and for
each entry whether `entry.Info()` and `os.Remove` fail. -/
structure SweepEnv where
  now : Time
  addDate : Time → Int → Time
  readDirFails : Bool
  infoFails : String → Bool
  removeFails : String → Bool

/-- One iteration of the loop of `DeleteOldBackups`, on the entry `name`. -/
def sweepEntry (e : SweepEnv) (cutoffTime : Time) (files : Files) (name : String) : Files :=
  if Ext name ≠ ".enc" then files else
  if e.infoFails name then files else
  match files.lookup (.backup name) with
  | none => files
  | some info =>
    if info.modTime < cutoffTime then
      if e.removeFails name then files else files.erase (.backup name)
    else files

/-- The argument `retentionDays` is a Go `int`; the only arithmetic of the code
on it is the negation, which does not overflow for the positive values that
pass the first test. -/
def FileManager.DeleteOldBackups (fm : FileManager) (retentionDays : Int) (e : SweepEnv) :
    FileManager × Except Error Unit :=
  if retentionDays ≤ 0 then (fm, .error (.msg "retention days must be positive")) else
  let cutoffTime := e.addDate e.now (-retentionDays)
  if fm.backupDirExists = false then (fm, .ok ()) else
  if e.readDirFails then
    (fm, .error (.wrap "failed to read backup directory" (.sys "readdir")))
  else
    ({ fm with files := fm.readDirBackups.foldl (sweepEntry e cutoffTime) fm.files }, .ok ())

def FileManager.FileExists (fm : FileManager) (filename : String) : Bool :=
  if filename = "" then false else (fm.files.lookup (.data filename)).isSome

/-! ## encrypted_storage.go -/

def DefaultDataFile : String := "tasks.enc"

def DefaultRetentionDays : Int := 30

structure EncryptedStorage where
  fileManager : FileManager
  cryptoService : CryptoService
  dataFile : String
  retentionDays : Int

def NewEncryptedStorage (fileManager : FileManager) (encryptionKey : List Byte) :
    EncryptedStorage :=
  { fileManager := fileManager
    cryptoService := NewCryptoService encryptionKey
    dataFile := DefaultDataFile
    retentionDays := DefaultRetentionDays }

def EncryptedStorage.SetRetentionDays (es : EncryptedStorage) (days : Int) : EncryptedStorage :=
  if days > 0 then { es with retentionDays := days } else es

/-- What the environment decides during one `LoadData` call. -/
structure LoadEnv where
  lock : LockEnv
  readFails : Bool
  unlock : UnlockEnv

/-- The bytes of the Go string `[]`. -/
def emptyJSONArray : List Byte := [91, 93]

def EncryptedStorage.LoadData (L : Lib) (es : EncryptedStorage) (e : LoadEnv) :
    EncryptedStorage × Except Error (List Byte) :=
  match es.fileManager.Lock e.lock with
  | (fm1, .error err) =>
    ({ es with fileManager := fm1 }, .error (.wrap "failed to acquire lock" err))
  | (fm1, .ok _) =>
    let result : Except Error (List Byte) :=
      if fm1.FileExists es.dataFile = false then .ok emptyJSONArray else
      match fm1.ReadFile (.data es.dataFile) e.readFails with
      | .error err => .error (.wrap "failed to read encrypted data" err)
      | .ok encryptedData =>
        match es.cryptoService.Decrypt L encryptedData with
        | .error err => .error (.wrap "failed to decrypt data" err)
        | .ok decryptedData => .ok decryptedData
    ({ es with fileManager := (fm1.Unlock e.unlock).1 }, result)

/-- What the environment decides during one `SaveData` call. -/
structure SaveEnv where
  lock : LockEnv
  backup : BackupEnv
  encrypt : EncryptEnv
  write : WriteEnv
  sweep : SweepEnv
  unlock : UnlockEnv

def EncryptedStorage.SaveData (L : Lib) (es : EncryptedStorage) (e : SaveEnv)
    (data : List Byte) : EncryptedStorage × Except Error Unit :=
  if data.length = 0 then (es, .error (.msg "data cannot be empty")) else
  if L.jsonValid data = false then (es, .error (.wrap "invalid JSON data" (.sys "json"))) else
  match es.fileManager.Lock e.lock with
  | (fm1, .error err) =>
    ({ es with fileManager := fm1 }, .error (.wrap "failed to acquire lock" err))
  | (fm1, .ok _) =>
    let backedUp : FileManager × Except Error String :=
      if fm1.FileExists es.dataFile then fm1.CreateBackup L es.dataFile e.backup
      else (fm1, .ok "")
    let fm2 := backedUp.1
    let locked : FileManager × Except Error Unit :=
      match panicOf backedUp.2 with
      | some text => (fm2, .error (.panic text))
      | none =>
        match es.cryptoService.Encrypt L e.encrypt data with
        | .error err => (fm2, .error (.wrap "failed to encrypt data" err))
        | .ok encryptedData =>
          match fm2.WriteFile es.dataFile encryptedData e.write with
          | (fm3, .error err) => (fm3, .error (.wrap "failed to write encrypted data" err))
          | (fm3, .ok _) => ((fm3.DeleteOldBackups es.retentionDays e.sweep).1, .ok ())
    ({ es with fileManager := (locked.1.Unlock e.unlock).1 }, locked.2)

/-- What the environment decides during one `CreateManualBackup` call. -/
structure ManualBackupEnv where
  lock : LockEnv
  backup : BackupEnv
  unlock : UnlockEnv

def EncryptedStorage.CreateManualBackup (L : Lib) (es : EncryptedStorage)
    (e : ManualBackupEnv) : EncryptedStorage × Except Error String :=
  match es.fileManager.Lock e.lock with
  | (fm1, .error err) =>
    ({ es with fileManager := fm1 }, .error (.wrap "failed to acquire lock" err))
  | (fm1, .ok _) =>
    let locked : FileManager × Except Error String :=
      if fm1.FileExists es.dataFile = false then
        (fm1, .error (.msg "no data file exists to backup"))
      else
        let backedUp := fm1.CreateBackup L es.dataFile e.backup
        match panicOf backedUp.2 with
        | some text => (backedUp.1, .error (.panic text))
        | none =>
          match backedUp.2 with
          | .error err => (backedUp.1, .error (.wrap "failed to create manual backup" err))
          | .ok backupName => (backedUp.1, .ok backupName)
    ({ es with fileManager := (locked.1.Unlock e.unlock).1 }, locked.2)

def EncryptedStorage.ListBackups (es : EncryptedStorage) (e : ListEnv) :
    Except Error (List String) :=
  es.fileManager.ListBackups e

/-- What the environment decides during one `RestoreFromBackup` call. -/
structure RestoreEnv where
  lock : LockEnv
  readFails : Bool
  backup : BackupEnv
  write : WriteEnv
  unlock : UnlockEnv

/-- The backup is read at the entry `backupName` of `backups`: the file at
`filepath.Join("backups", backupName)` for a plain name `backupName`. -/
def EncryptedStorage.RestoreFromBackup (L : Lib) (es : EncryptedStorage) (e : RestoreEnv)
    (backupName : String) : EncryptedStorage × Except Error Unit :=
  if backupName = "" then (es, .error (.msg "backup name cannot be empty")) else
  match es.fileManager.Lock e.lock with
  | (fm1, .error err) =>
    ({ es with fileManager := fm1 }, .error (.wrap "failed to acquire lock" err))
  | (fm1, .ok _) =>
    let locked : FileManager × Except Error Unit :=
      match fm1.ReadFile (.backup backupName) e.readFails with
      | .error err => (fm1, .error (.wrap "failed to read backup file" err))
      | .ok backupData =>
        match es.cryptoService.Decrypt L backupData with
        | .error err =>
          (fm1, .error (.wrap "backup file is corrupted or encrypted with different key" err))
        | .ok _ =>
          let backedUp : FileManager × Except Error String :=
            if fm1.FileExists es.dataFile then fm1.CreateBackup L es.dataFile e.backup
            else (fm1, .ok "")
          let fm2 := backedUp.1
          match panicOf backedUp.2 with
          | some text => (fm2, .error (.panic text))
          | none =>
            match fm2.WriteFile es.dataFile backupData e.write with
            | (fm3, .error err) => (fm3, .error (.wrap "failed to restore backup" err))
            | (fm3, .ok _) => (fm3, .ok ())
    ({ es with fileManager := (locked.1.Unlock e.unlock).1 }, locked.2)

def EncryptedStorage.ValidateEncryptionKey (L : Lib) (es : EncryptedStorage)
    (readFails : Bool) : Except Error Unit :=
  if es.fileManager.FileExists es.dataFile = false then .ok () else
  match es.fileManager.ReadFile (.data es.dataFile) readFails with
  | .error err => .error (.wrap "failed to read data file for validation" err)
  | .ok encryptedData => es.cryptoService.ValidatePassword L encryptedData

/-- The bytes of the Go literal `{"test": true}`. -/
def testData : List Byte := [123, 34, 116, 101, 115, 116, 34, 58, 32, 116, 114, 117, 101, 125]

/-- What the environment decides during one `Initialize` call. -/
structure InitEnv where
  encrypt : EncryptEnv
  readFails : Bool

def EncryptedStorage.Initialize (L : Lib) (es : EncryptedStorage) (e : InitEnv) :
    Except Error Unit :=
  match es.cryptoService.Encrypt L e.encrypt testData with
  | .error err => .error (.wrap "failed to test encryption" err)
  | .ok encrypted =>
    match es.cryptoService.Decrypt L encrypted with
    | .error err => .error (.wrap "failed to test decryption" err)
    | .ok decrypted =>
      if decrypted ≠ testData then .error (.msg "encryption/decryption test failed") else
      match es.ValidateEncryptionKey L e.readFails with
      | .error err => .error (.wrap "encryption key validation failed" err)
      | .ok _ => .ok ()

/-! ## config.go -/

structure Config where
  Port : String
  GinMode : String
  EncryptionKey : String
  DataDir : String
  BackupRetentionDays : Int
  CORSAllowedOrigins : List String
  LogLevel : String
  deriving DecidableEq, Repr

/-- The functions of `strconv` and `strings` the configuration uses: `Atoi`
(`none` for an error), `Split` and `TrimSpace`. -/
structure ConfigLib where
  atoi : String → Option Int
  split : String → String → List String
  trimSpace : String → String

/-- Go `len` of a string: the number of bytes of its UTF-8 encoding. -/
def len (s : String) : Nat := s.utf8ByteSize

def getEnvWithDefault (getenv : String → String) (key defaultValue : String) : String :=
  if getenv key ≠ "" then getenv key else defaultValue

def getEnvIntWithDefault (C : ConfigLib) (getenv : String → String) (key : String)
    (defaultValue : Int) : Int :=
  if getenv key ≠ "" then
    match C.atoi (getenv key) with
    | some intValue => intValue
    | none => defaultValue
  else defaultValue

def getEnvSliceWithDefault (C : ConfigLib) (getenv : String → String) (key : String)
    (defaultValue : List String) : List String :=
  if getenv key ≠ "" then
    let result := ((C.split (getenv key) ",").map C.trimSpace).filter (fun trimmed => trimmed ≠ "")
    if result.length > 0 then result else defaultValue
  else defaultValue

def contains (slice : List String) (item : String) : Bool :=
  slice.any (fun s => s = item)

def Config.Validate (c : Config) : Except Error Unit :=
  if c.Port = "" then .error (.msg "port cannot be empty") else
  if !contains ["debug", "release", "test"] c.GinMode then
    .error (.msg "invalid GIN_MODE, must be one of: debug, release, test") else
  if c.DataDir = "" then .error (.msg "data directory cannot be empty") else
  if c.BackupRetentionDays < 1 then
    .error (.msg "backup retention days must be at least 1") else
  if !contains ["debug", "info", "warn", "error"] c.LogLevel then
    .error (.msg "invalid LOG_LEVEL, must be one of: debug, info, warn, error") else
  .ok ()

/-- The configuration read from the environment `getenv` (Go `os.Getenv`, which
returns the empty string for a variable that is not set). -/
def LoadConfig (C : ConfigLib) (getenv : String → String) : Except Error Config :=
  let cfg : Config :=
    { Port := getEnvWithDefault getenv "PORT" "8080"
      GinMode := getEnvWithDefault getenv "GIN_MODE" "debug"
      EncryptionKey := ""
      DataDir := getEnvWithDefault getenv "DATA_DIR" "./data"
      BackupRetentionDays := getEnvIntWithDefault C getenv "BACKUP_RETENTION_DAYS" 30
      CORSAllowedOrigins :=
        getEnvSliceWithDefault C getenv "CORS_ALLOWED_ORIGINS" ["http://localhost:5173"]
      LogLevel := getEnvWithDefault getenv "LOG_LEVEL" "info" }
  let encryptionKey := getenv "TASK_ENCRYPTION_KEY"
  if encryptionKey = "" then
    .error (.msg "TASK_ENCRYPTION_KEY environment variable is required") else
  if len encryptionKey < 32 then
    .error (.msg "TASK_ENCRYPTION_KEY must be at least 32 characters long") else
  let cfg := { cfg with EncryptionKey := encryptionKey }
  match cfg.Validate with
  | .error err => .error err
  | .ok _ => .ok cfg

/-! ## main.go -/

/-- Go `[]byte(s)`: the bytes of the UTF-8 encoding of a string. -/
def bytesOf (s : String) : List Byte := s.toUTF8.data.toList.map (fun b => b.val)

/-- The storage `main` constructs over the directory tree `fm` found at
`cfg.DataDir`; on an error of `LoadConfig` the process ends in `log.Fatalf`
before a storage is constructed. -/
def mainStorage (C : ConfigLib) (getenv : String → String) (fm : FileManager) :
    Except Error EncryptedStorage :=
  match LoadConfig C getenv with
  | .error err => .error err
  | .ok cfg =>
    .ok ((NewEncryptedStorage fm (bytesOf cfg.EncryptionKey)).SetRetentionDays
      cfg.BackupRetentionDays)

/-! ## Derived notions used in the statements -/

/-- The blob `Encrypt` assembles from a salt, an IV and a plaintext. -/
def CryptoService.blob (L : Lib) (c : CryptoService) (salt iv plaintext : List Byte) : List Byte :=
  salt ++ iv ++ L.gcmSeal (c.deriveKey L salt) iv plaintext

/-- The file manager after the backup file `name` has been written. -/
def FileManager.putBackup (fm : FileManager) (name : String) (file : File) : FileManager :=
  { fm with files := fm.files.insert (.backup name) file }

/-- What one pass of the loop body of `DeleteOldBackups` over the entry `name`
makes of the file found there. -/
def swept (e : SweepEnv) (cutoffTime : Time) (name : String) (o : Option File) : Option File :=
  match o with
  | none => none
  | some info =>
    if Ext name = ".enc" ∧ e.infoFails name = false ∧ info.modTime < cutoffTime ∧
        e.removeFails name = false then none
    else some info

/-- The file manager after the backup `SaveData` and `RestoreFromBackup` take
of an existing data file, before they write. -/
def EncryptedStorage.afterBackup (L : Lib) (es : EncryptedStorage) (fm1 : FileManager)
    (e : BackupEnv) : FileManager :=
  (if fm1.FileExists es.dataFile = true then fm1.CreateBackup L es.dataFile e
    else (fm1, .ok "")).1

/-- A blob that `Encrypt` produced under the password of `c` from a non-empty
payload. -/
def IsEncryptBlob (L : Lib) (c : CryptoService) (b : List Byte) : Prop :=
  ∃ env p, p ≠ [] ∧ c.Encrypt L env p = .ok b

/-- The data file, if present, and every file in `backups` is a blob `Encrypt`
produced under the password of the storage from a non-empty payload. -/
def EncryptedStorage.FilesAreBlobs (L : Lib) (es : EncryptedStorage) : Prop :=
  (∀ f, es.fileManager.files.lookup (.data DefaultDataFile) = some f →
    IsEncryptBlob L es.cryptoService f.data) ∧
  (∀ n f, es.fileManager.files.lookup (.backup n) = some f →
    IsEncryptBlob L es.cryptoService f.data)

/-- The data file, if present, decrypts under the password of the storage. -/
def EncryptedStorage.DataDecrypts (L : Lib) (es : EncryptedStorage) : Prop :=
  ∀ f, es.fileManager.files.lookup (.data DefaultDataFile) = some f →
    ∃ d, es.cryptoService.Decrypt L f.data = .ok d

/-- One call on the storage, with everything its environment decides. -/
inductive Op where
  | save (e : SaveEnv) (data : List Byte)
  | backup (e : ManualBackupEnv)
  | restore (e : RestoreEnv) (backupName : String)
  | load (e : LoadEnv)

/-- The storage after one call, whatever the call returned. -/
def EncryptedStorage.apply (L : Lib) (es : EncryptedStorage) : Op → EncryptedStorage
  | .save e data => (es.SaveData L e data).1
  | .backup e => (es.CreateManualBackup L e).1
  | .restore e backupName => (es.RestoreFromBackup L e backupName).1
  | .load e => (es.LoadData L e).1

/-- The storage after a sequence of calls. -/
def EncryptedStorage.run (L : Lib) (es : EncryptedStorage) (ops : List Op) : EncryptedStorage :=
  ops.foldl (EncryptedStorage.apply L) es

/-- The write was cut short. -/
def WriteResult.isShort : WriteResult → Bool
  | .short _ => true
  | _ => false

/-- The write of the backup copy made during the call is cut short. -/
def Op.backupCutShort : Op → Bool
  | .save e _ => e.backup.write.isShort
  | .backup e => e.backup.write.isShort
  | .restore e _ => e.backup.write.isShort
  | .load _ => false

/-! ## Concrete inputs

A small instance of the library interface and a few concrete values, on which
the model is evaluated. -/

/-- A toy instance of the library interface: the key is read off password and
salt, sealing appends the first 16 key bytes as a tag, opening checks and strips
that tag, a JSON text is anything in square brackets, and a time is printed as
its number of seconds. -/
def toyLib : Lib where
  pbkdf2Key := fun pw salt _ n => (List.range n).map (fun i => (pw ++ salt).getD i 0)
  aesNewCipher := fun key => decide (key.length = 16 ∨ key.length = 24 ∨ key.length = 32)
  newGCM := fun _ => true
  gcmSeal := fun key _ p => p ++ key.take 16
  gcmOpen := fun key _ c =>
    if 16 ≤ c.length ∧ c.drop (c.length - 16) = key.take 16 then some (c.take (c.length - 16))
    else none
  jsonValid := fun p => decide (p.head? = some 91 ∧ p.getLast? = some 93)
  timeFormat := fun t => String.mk (Nat.toDigits 10 (t / second).toNat)

/-- A 32-byte sample password. -/
def samplePassword : List Byte := List.replicate 32 7

def sampleCrypto : CryptoService := NewCryptoService samplePassword

/-- The JSON text `[1]`. -/
def samplePayload : List Byte := [91, 49, 93]

/-- The JSON text `[2]`. -/
def samplePayload2 : List Byte := [91, 50, 93]

def sampleEncryptEnv : EncryptEnv := { salt := some (fun _ => 3), iv := some (fun _ => 5) }

/-- The blob the sample draws of the random generator yield for the sample
payload under the sample password. -/
def sampleBlob : List Byte :=
  sampleCrypto.blob toyLib ((List.range SaltSize).map (fun _ => 3))
    ((List.range IVSize).map (fun _ => 5)) samplePayload

/-- An environment in which both `MkdirAll` calls succeed. -/
def healthyMkdir : MkdirEnv := { dataDirFails := false, backupDirFails := false }

/-- An environment in which the lock is acquired at the first attempt. -/
def healthyLock : LockEnv :=
  { mkdir := healthyMkdir, openFails := false, lockFileTime := 0, start := 0,
    attempts := [(0, .acquired)] }

def healthyUnlock : UnlockEnv := { flockFails := false, closeFails := false }

/-- A backup taken at clock reading `now` without any failure. -/
def healthyBackup (now : Time) : BackupEnv :=
  { now := now, readFails := false, write := .ok, time := now }

/-- An atomic write at clock reading `now` without any failure. -/
def healthyWrite (now : Time) : WriteEnv :=
  { mkdir := healthyMkdir, tmpWrite := .ok, renameFails := false, removeFails := false,
    time := now }

/-- Go `unixToInternal`: the seconds from 1 January of year 1 to 1 January
1970. -/
def unixToInternal : Int := 62135596800

/-- The value of the 64-bit word of `x` in two-complement reading: `x` wrapped
into the range of Go `int64`, from `-2^63` to `2^63 - 1` (`2^63` is
9223372036854775808 and `2^64` is 18446744073709551616). -/
def wrapInt64 (x : Int) : Int :=
  (x + 9223372036854775808) % 18446744073709551616 - 9223372036854775808

/-- Stand-in for `t.AddDate(0, 0, days)` in the time zone UTC: `time.Date` adds
the days to the day count of the date of `t` and computes the seconds since
year 1, by which `Before` compares, on 64-bit words; the nanoseconds within the
second are kept. -/
def utcAddDate (t : Time) (days : Int) : Time :=
  (wrapInt64 (t / second + unixToInternal + days * 86400) - unixToInternal) * second +
    t % second

/-- A retention sweep at clock reading `now`, in the time zone UTC, without any
failure. -/
def healthySweep (now : Time) : SweepEnv :=
  { now := now, addDate := utcAddDate, readDirFails := false, infoFails := fun _ => false,
    removeFails := fun _ => false }

def healthySave (now : Time) : SaveEnv :=
  { lock := healthyLock, backup := healthyBackup now, encrypt := sampleEncryptEnv,
    write := healthyWrite now, sweep := healthySweep now, unlock := healthyUnlock }

def healthyLoad : LoadEnv :=
  { lock := healthyLock, readFails := false, unlock := healthyUnlock }

def healthyManualBackup (now : Time) : ManualBackupEnv :=
  { lock := healthyLock, backup := healthyBackup now, unlock := healthyUnlock }

def healthyRestore (now : Time) : RestoreEnv :=
  { lock := healthyLock, readFails := false, backup := healthyBackup now,
    write := healthyWrite now, unlock := healthyUnlock }

/-- A data directory that does not exist yet. -/
def emptyDir : FileManager := NewFileManager false false ∅

def sampleStorage : EncryptedStorage := NewEncryptedStorage emptyDir samplePassword

/-- A data directory holding a data file, a backup modified 40 days before day
100, a backup modified 5 days before day 100, and a text file in `backups`. -/
def sampleBackupsDir : FileManager :=
  NewFileManager true true
    ((((∅ : Files).insert (.data "tasks.enc") ⟨[3], 100 * day⟩).insert
      (.backup "notes.txt") ⟨[4], 100 * day - 40 * day⟩).insert
      (.backup "old.enc") ⟨[1], 100 * day - 40 * day⟩ |>.insert
      (.backup "new.enc") ⟨[2], 100 * day - 5 * day⟩)

/-- A storage whose `backups` directory holds a three-byte file. -/
def corruptStorage : EncryptedStorage :=
  NewEncryptedStorage
    (NewFileManager true true ((∅ : Files).insert (.backup "bad.enc") ⟨[1, 2, 3], 0⟩))
    samplePassword

/-- The sample storage after the sample payload has been saved at second 7. -/
def savedStorage : EncryptedStorage :=
  (sampleStorage.SaveData toyLib (healthySave (7 * second)) samplePayload).1

/-- The saved storage after a manual backup taken in the same second 7. -/
def backedUpStorage : EncryptedStorage :=
  (savedStorage.CreateManualBackup toyLib (healthyManualBackup (7 * second))).1

/-- The backed-up storage after a second payload has been saved, again in
second 7, so that the backup taken before the write has the name of the manual
backup. -/
def resavedStorage : EncryptedStorage :=
  (backedUpStorage.SaveData toyLib (healthySave (7 * second)) samplePayload2).1

/-- The storage after the manual backup has been restored, again in second 7, so
that the safety backup overwrites the backup being restored. -/
def restoredStorage : EncryptedStorage :=
  (resavedStorage.RestoreFromBackup toyLib (healthyRestore (7 * second))
    "tasks_backup_7.enc").1

/-- A run of the four operations in which two backup names collide. -/
def sampleOps : List Op :=
  [.load healthyLoad, .save (healthySave (7 * second)) samplePayload,
    .backup (healthyManualBackup (7 * second)),
    .save (healthySave (7 * second)) samplePayload2,
    .restore (healthyRestore (7 * second)) "tasks_backup_7.enc", .load healthyLoad]

/-- A save at clock reading `now` in which the write of the backup copy is cut
short after 3 bytes, reading the backup directory fails, and every deletion
would fail. -/
def degradedSave (now : Time) : SaveEnv :=
  { lock := healthyLock
    backup := { now := now, readFails := false, write := .short 3, time := now }
    encrypt := sampleEncryptEnv
    write := healthyWrite now
    sweep := { now := now, addDate := utcAddDate, readDirFails := true,
               infoFails := fun _ => false, removeFails := fun _ => true }
    unlock := healthyUnlock }

/-- A run from the empty data directory: a save at second 7, then a save at
second 8 during which the write of the backup copy is cut short after 3
bytes. -/
def truncatedBackupOps : List Op :=
  [.save (healthySave (7 * second)) samplePayload,
    .save (degradedSave (8 * second)) samplePayload2]

/-! ## The backup name in the words of the specification -/

/-- The stem of a file name in the words of the specification: the name without
its extension, the extension being what Go `filepath.Ext` returns. -/
def specStem (name : String) : String :=
  String.mk (name.data.take (name.length - (Ext name).length))

/-- The extension of a file name in the words of the specification: what follows
the last dot. -/
def specExt (name : String) : String :=
  String.mk ((Ext name).data.drop 1)

/-- The backup name in the words of the specification:
`{stem(name)}_backup_{now:YYYYMMDD_HHMMSS}.{ext}`. -/
def specBackupName (name timestamp : String) : String :=
  specStem name ++ "_backup_" ++ timestamp ++ "." ++ specExt name

/-- A data directory holding the one file `data.txt`. -/
def txtDir : FileManager :=
  NewFileManager true true ((∅ : Files).insert (.data "data.txt") ⟨[1, 2], 0⟩)

/-! ## The key preparation of HMAC -/

/-- The key block of Go `crypto/hmac`: `hmac.New` copies a key of at most the
block size of the hash (64 bytes for SHA-256) into a zeroed block of that size;
a longer key is hashed first. -/
def hmacKeyBlock (hash : List Byte → List Byte) (key : List Byte) : List Byte :=
  let k := if key.length > 64 then hash key else key
  k ++ List.replicate (64 - k.length) 0

/-- `pbkdf2.Key` uses the password only as the key of HMAC: passwords with the
same HMAC key block derive the same key. -/
def Lib.KeyedByHmac (L : Lib) (hash : List Byte → List Byte) : Prop :=
  ∀ pw1 pw2 salt iters n, hmacKeyBlock hash pw1 = hmacKeyBlock hash pw2 →
    L.pbkdf2Key pw1 salt iters n = L.pbkdf2Key pw2 salt iters n

/-- A file manager that holds the lock, its data directory having been removed
since. -/
def heldDir : FileManager :=
  { dataDirExists := false, backupDirExists := false, files := ∅, fileLock := true }

/-- A lock environment in which the data directory cannot be created. -/
def failingMkdirLock : LockEnv :=
  { healthyLock with mkdir := { dataDirFails := true, backupDirFails := false } }

/-- A lock environment in which the OS lock is held elsewhere until the
deadline has passed. -/
def blockedLock : LockEnv :=
  { healthyLock with attempts := [(0, .wouldBlock), (6 * second, .wouldBlock)] }

/-- The file manager of the sample storage after a first caller has acquired the
lock and is in its critical section. -/
def firstCallerDir : FileManager := (emptyDir.Lock healthyLock).1

/-- An atomic write at clock reading `now` in which the write of the temporary
file fails after 2 bytes. -/
def shortTmpWrite (now : Time) : WriteEnv :=
  { healthyWrite now with tmpWrite := .short 2 }

/-- An atomic write at clock reading `now` in which the rename fails and the
removal of the temporary file succeeds. -/
def failingRename (now : Time) : WriteEnv :=
  { healthyWrite now with renameFails := true }

/-- A data directory holding the one file `abc`. -/
def shortNameDir : FileManager :=
  NewFileManager true true ((∅ : Files).insert (.data "abc") ⟨[1, 2], 0⟩)

/-- An `Initialize` call in which both draws of the random generator succeed
and the data file can be read. -/
def healthyInit : InitEnv := { encrypt := sampleEncryptEnv, readFails := false }

/-- A storage whose data file exists and has no bytes. -/
def emptyFileStorage : EncryptedStorage :=
  NewEncryptedStorage
    (NewFileManager true true ((∅ : Files).insert (.data "tasks.enc") ⟨[], 0⟩))
    samplePassword

/-- A storage whose data file holds three bytes. -/
def truncatedFileStorage : EncryptedStorage :=
  NewEncryptedStorage
    (NewFileManager true true ((∅ : Files).insert (.data "tasks.enc") ⟨[1, 2, 3], 0⟩))
    samplePassword

/-- A `ListBackups` call in which reading the directory succeeds and `backups`
has no subdirectory. -/
def healthyList : ListEnv := { readDirFails := false, subdirs := [] }

/-- A `ListBackups` call in which reading the directory succeeds and `backups`
has the subdirectory `archive.enc`. -/
def subdirList : ListEnv := { readDirFails := false, subdirs := ["archive.enc"] }

/-- Stand-ins for `strconv.Atoi`, `strings.Split` and `strings.TrimSpace`. -/
def toyConfigLib : ConfigLib :=
  { atoi := fun s => s.toInt?, split := fun s sep => s.splitOn sep, trimSpace := fun s => s.trim }

/-- An environment in which only `TASK_ENCRYPTION_KEY` is set, to `key`. -/
def keyOnlyEnv (key : String) : String → String :=
  fun name => if name = "TASK_ENCRYPTION_KEY" then key else ""

/-- A key of 16 characters, each of 2 bytes in UTF-8 (the letter e with acute
accent, U+00E9). -/
def accentedKey : String := String.mk (List.replicate 16 (Char.ofNat 233))

/-- A key of 31 ASCII characters. -/
def shortKey : String := String.mk (List.replicate 31 'k')

/-- The configuration of the defaults with the key `accentedKey`. -/
def accentedConfig : Config :=
  { Port := "8080", GinMode := "debug", EncryptionKey := accentedKey, DataDir := "./data",
    BackupRetentionDays := 30, CORSAllowedOrigins := ["http://localhost:5173"],
    LogLevel := "info" }

/-- Go `math.MaxInt64`, the largest value of an `int` on a 64-bit platform. -/
def maxInt : Int := 9223372036854775807

/-- The saved storage after `SetRetentionDays(math.MaxInt64)`. -/
def keepForeverStorage : EncryptedStorage := savedStorage.SetRetentionDays maxInt

/-- A password that has its first 16 bytes in common with the sample
password. -/
def halfPassword : List Byte := List.replicate 16 7 ++ List.replicate 16 9

/-! # Theorems -/


/-! ## The toy library is lawful -/

theorem toyLib_lawful : toyLib.Lawful where
  pbkdf2_length := by intro pw salt iters n; simp [toyLib]
  aes_ok := by intro key h; simp [toyLib, h, KeySize]
  gcm_ok := by intro key _; rfl
  open_seal := by
    intro key nonce p hk _
    have h16 : (key.take 16).length = 16 := by simp [List.length_take, hk, KeySize]
    simp [toyLib, h16]
  seal_length := by
    intro key nonce p hk _
    simp [toyLib, hk, KeySize, TagSize]

/-! ## Encryption round trip -/

theorem generateSalt_length {r : RandRead} {salt : List Byte}
    (h : CryptoService.generateSalt r = .ok salt) : salt.length = SaltSize := by
  cases r with
  | none => simp [CryptoService.generateSalt] at h
  | some g =>
    simp only [CryptoService.generateSalt, Except.ok.injEq] at h
    subst h
    simp

theorem generateIV_length {r : RandRead} {iv : List Byte}
    (h : CryptoService.generateIV r = .ok iv) : iv.length = IVSize := by
  cases r with
  | none => simp [CryptoService.generateIV] at h
  | some g =>
    simp only [CryptoService.generateIV, Except.ok.injEq] at h
    subst h
    simp

theorem deriveKey_length {L : Lib} (hL : L.Lawful) (c : CryptoService) (salt : List Byte) :
    (c.deriveKey L salt).length = KeySize := by
  simp [CryptoService.deriveKey, hL.pbkdf2_length]

/-- Whenever `Encrypt` returns a blob, the plaintext is not empty, both draws
succeeded, and the blob is salt, IV and sealed text in this order. -/
theorem Encrypt_ok_inv {L : Lib} {c : CryptoService} {env : EncryptEnv} {p b : List Byte}
    (h : c.Encrypt L env p = .ok b) :
    p ≠ [] ∧ ∃ salt iv, CryptoService.generateSalt env.salt = .ok salt ∧
      CryptoService.generateIV env.iv = .ok iv ∧ b = c.blob L salt iv p := by
  unfold CryptoService.Encrypt at h
  split at h
  · simp at h
  · rename_i hp
    split at h
    · simp at h
    · rename_i salt hsalt
      simp only at h
      split at h
      · simp at h
      · split at h
        · simp at h
        · split at h
          · simp at h
          · rename_i iv hiv
            simp only [Except.ok.injEq] at h
            refine ⟨?_, salt, iv, hsalt, hiv, ?_⟩
            · intro hnil
              exact hp (by simp [hnil])
            · exact h.symm

theorem Encrypt_ok {L : Lib} (hL : L.Lawful) (c : CryptoService) (g1 g2 : Nat → Byte)
    {p : List Byte} (hp : p ≠ []) :
    c.Encrypt L { salt := some g1, iv := some g2 } p =
      .ok (c.blob L ((List.range SaltSize).map g1) ((List.range IVSize).map g2) p) := by
  have hlen : ¬ p.length = 0 := by
    intro h
    exact hp (List.length_eq_zero.mp h)
  have hk : (c.deriveKey L ((List.range SaltSize).map g1)).length = KeySize :=
    deriveKey_length hL c _
  simp [CryptoService.Encrypt, CryptoService.generateSalt, CryptoService.generateIV, hlen,
    hL.aes_ok _ hk, hL.gcm_ok _ hk, CryptoService.blob]

theorem blob_split {L : Lib} (c : CryptoService) {salt iv : List Byte} (p : List Byte)
    (hs : salt.length = SaltSize) (hi : iv.length = IVSize) :
    slice (c.blob L salt iv p) 0 SaltSize = salt ∧
    slice (c.blob L salt iv p) SaltSize (SaltSize + IVSize) = iv ∧
    (c.blob L salt iv p).drop (SaltSize + IVSize) = L.gcmSeal (c.deriveKey L salt) iv p := by
  refine ⟨?_, ?_, ?_⟩
  · simp [slice, CryptoService.blob, List.append_assoc, List.take_append_eq_append_take, hs]
  · simp [slice, CryptoService.blob, List.append_assoc, List.drop_append_eq_append_drop,
      List.take_append_eq_append_take, hs, hi]
  · simp [CryptoService.blob, List.append_assoc, List.drop_append_eq_append_drop, hs, hi]

theorem blob_length {L : Lib} (hL : L.Lawful) (c : CryptoService) {salt iv : List Byte}
    (p : List Byte) (hs : salt.length = SaltSize) (hi : iv.length = IVSize) :
    (c.blob L salt iv p).length = p.length + 44 := by
  have hk : (c.deriveKey L salt).length = KeySize := deriveKey_length hL c _
  have hseal := hL.seal_length (c.deriveKey L salt) iv p hk hi
  simp only [CryptoService.blob, List.length_append, hs, hi, hseal, SaltSize, IVSize, TagSize]
  omega

theorem Decrypt_blob {L : Lib} (hL : L.Lawful) (c : CryptoService) {salt iv : List Byte}
    (p : List Byte) (hs : salt.length = SaltSize) (hi : iv.length = IVSize) :
    c.Decrypt L (c.blob L salt iv p) = .ok p := by
  have hk : (c.deriveKey L salt).length = KeySize := deriveKey_length hL c _
  obtain ⟨h1, h2, h3⟩ := blob_split (L := L) c p hs hi
  have h4 : ¬ (c.blob L salt iv p).length < SaltSize + IVSize + TagSize := by
    rw [blob_length hL c p hs hi]
    simp only [SaltSize, IVSize, TagSize]
    omega
  unfold CryptoService.Decrypt
  rw [if_neg h4]
  simp only [h1, h2, h3, hL.aes_ok _ hk, hL.gcm_ok _ hk, hL.open_seal _ _ p hk hi]
  simp

/-- Every blob `Encrypt` returns decrypts, under the same password, to the
plaintext it was made from. -/
theorem Decrypt_of_Encrypt {L : Lib} (hL : L.Lawful) {c : CryptoService} {env : EncryptEnv}
    {p b : List Byte} (h : c.Encrypt L env p = .ok b) : c.Decrypt L b = .ok p := by
  obtain ⟨_, salt, iv, hs, hi, rfl⟩ := Encrypt_ok_inv h
  exact Decrypt_blob hL c p (generateSalt_length hs) (generateIV_length hi)

/-- C1: for every password, every non-empty payload `p` and every salt and IV
the generator supplies, `Encrypt` returns a blob, `Decrypt` under the same
password re-splits that blob into the same salt, IV and sealed part, and returns
exactly `p`; and whatever blob an `Encrypt` call returns for `p`, `Decrypt`
returns `p` for it. -/
theorem decrypt_encrypt_roundtrip (L : Lib) (hL : L.Lawful) (c : CryptoService)
    (p : List Byte) (hp : p ≠ []) :
    (∀ g1 g2 : Nat → Byte, ∃ b,
      c.Encrypt L { salt := some g1, iv := some g2 } p = .ok b ∧
      slice b 0 SaltSize = (List.range SaltSize).map g1 ∧
      slice b SaltSize (SaltSize + IVSize) = (List.range IVSize).map g2 ∧
      b.drop (SaltSize + IVSize) =
        L.gcmSeal (c.deriveKey L ((List.range SaltSize).map g1)) ((List.range IVSize).map g2) p ∧
      c.Decrypt L b = .ok p) ∧
    (∀ env b, c.Encrypt L env p = .ok b → c.Decrypt L b = .ok p) := by
  refine ⟨?_, fun env b h => Decrypt_of_Encrypt hL h⟩
  intro g1 g2
  have hs : ((List.range SaltSize).map g1).length = SaltSize := by simp
  have hi : ((List.range IVSize).map g2).length = IVSize := by simp
  obtain ⟨h1, h2, h3⟩ := blob_split (L := L) c p hs hi
  exact ⟨_, Encrypt_ok hL c g1 g2 hp, h1, h2, h3, Decrypt_blob hL c p hs hi⟩

theorem decrypt_encrypt_roundtrip_witness :
    toyLib.Lawful ∧ samplePayload ≠ [] ∧
    (∀ g1 g2 : Nat → Byte, ∃ b,
      sampleCrypto.Encrypt toyLib { salt := some g1, iv := some g2 } samplePayload = .ok b ∧
      slice b 0 SaltSize = (List.range SaltSize).map g1 ∧
      slice b SaltSize (SaltSize + IVSize) = (List.range IVSize).map g2 ∧
      b.drop (SaltSize + IVSize) =
        toyLib.gcmSeal (sampleCrypto.deriveKey toyLib ((List.range SaltSize).map g1))
          ((List.range IVSize).map g2) samplePayload ∧
      sampleCrypto.Decrypt toyLib b = .ok samplePayload) ∧
    (∀ env b, sampleCrypto.Encrypt toyLib env samplePayload = .ok b →
      sampleCrypto.Decrypt toyLib b = .ok samplePayload) :=
  ⟨toyLib_lawful, by decide,
    decrypt_encrypt_roundtrip toyLib toyLib_lawful sampleCrypto samplePayload (by decide)⟩

/-- C10: for every non-empty plaintext `p`, with `s` the 16-byte salt and `v`
the 12-byte IV drawn in the call, `Encrypt` returns exactly `s`, then `v`, then
the AEAD seal of `p` under the key derived from the password and `s` with nonce
`v`, and nothing else: the output has `len(p) + 44` bytes, bytes 0..15 are the
salt and bytes 16..27 the IV. -/
theorem encrypt_layout (L : Lib) (hL : L.Lawful) (c : CryptoService) (p : List Byte)
    (hp : p ≠ []) (g1 g2 : Nat → Byte) :
    let s := (List.range 16).map g1
    let v := (List.range 12).map g2
    let out := s ++ v ++ L.gcmSeal (L.pbkdf2Key c.password s 100000 32) v p
    c.Encrypt L { salt := some g1, iv := some g2 } p = .ok out ∧
    s.length = 16 ∧ v.length = 12 ∧
    out.length = p.length + 44 ∧
    slice out 0 16 = s ∧ slice out 16 28 = v ∧
    out.drop 28 = L.gcmSeal (L.pbkdf2Key c.password s 100000 32) v p := by
  intro s v out
  have hs : s.length = SaltSize := by simp [s, SaltSize]
  have hi : v.length = IVSize := by simp [v, IVSize]
  obtain ⟨h1, h2, h3⟩ := blob_split (L := L) c p hs hi
  have hlen := blob_length hL c p hs hi
  have henc := Encrypt_ok hL c g1 g2 hp
  exact ⟨henc, hs, hi, hlen, h1, h2, h3⟩

theorem encrypt_layout_witness :
    toyLib.Lawful ∧ samplePayload ≠ [] ∧
    (let s := (List.range 16).map (fun _ => (3 : Byte))
     let v := (List.range 12).map (fun _ => (5 : Byte))
     let out := s ++ v ++ toyLib.gcmSeal (toyLib.pbkdf2Key sampleCrypto.password s 100000 32) v
       samplePayload
     sampleCrypto.Encrypt toyLib { salt := some (fun _ => 3), iv := some (fun _ => 5) }
       samplePayload = .ok out ∧
     s.length = 16 ∧ v.length = 12 ∧
     out.length = samplePayload.length + 44 ∧
     slice out 0 16 = s ∧ slice out 16 28 = v ∧
     out.drop 28 = toyLib.gcmSeal (toyLib.pbkdf2Key sampleCrypto.password s 100000 32) v
       samplePayload) :=
  ⟨toyLib_lawful, by decide,
    encrypt_layout toyLib toyLib_lawful sampleCrypto samplePayload (by decide)
      (fun _ => 3) (fun _ => 5)⟩

/-! ## Effect of the file manager operations on the directory tree -/

theorem tmp_ne (filename : String) : filename ++ ".tmp" ≠ filename := by
  intro h
  have h1 := congrArg String.length h
  rw [String.length_append] at h1
  have h2 : (".tmp" : String).length = 4 := by decide
  omega

theorem ensureDataDir_files (fm : FileManager) (e : MkdirEnv) :
    (fm.ensureDataDir e).1.files = fm.files ∧
    (fm.ensureDataDir e).1.fileLock = fm.fileLock := by
  unfold FileManager.ensureDataDir FileManager.ensureDataDirRun
  cases e.dataDirFails <;> cases e.backupDirFails <;> simp

theorem ensureDataDir_ok {fm : FileManager} {e : MkdirEnv}
    (h : (fm.ensureDataDir e).2 = .ok ()) :
    (fm.ensureDataDir e).1.dataDirExists = true ∧
    (fm.ensureDataDir e).1.backupDirExists = true := by
  unfold FileManager.ensureDataDir FileManager.ensureDataDirRun at h ⊢
  cases h1 : e.dataDirFails <;> cases h2 : e.backupDirFails <;> simp [h1, h2] at h ⊢

theorem ensureDataDir_backupDir_mono (fm : FileManager) (e : MkdirEnv)
    (h : fm.backupDirExists = true) : (fm.ensureDataDir e).1.backupDirExists = true := by
  unfold FileManager.ensureDataDir FileManager.ensureDataDirRun
  cases e.dataDirFails <;> cases e.backupDirFails <;> simp [h]

theorem Lock_lookup (fm : FileManager) (e : LockEnv) {k : RelPath}
    (hk : k ≠ .data lockFileName) :
    (fm.Lock e).1.files.lookup k = fm.files.lookup k := by
  have hf := (ensureDataDir_files fm e.mkdir).1
  unfold FileManager.Lock
  rcases hed : fm.ensureDataDir e.mkdir with ⟨fm1, r⟩
  rw [hed] at hf
  simp only at hf
  cases r with
  | error err => simp [hf]
  | ok u =>
    simp only
    split
    · simp [hf]
    · split
      · simp [hf]
      · cases hl : fm1.files.lookup (.data lockFileName) <;>
          cases acquireLockWithTimeout e.start e.attempts (5 * second) <;>
          simp [hf, AList.lookup_insert_ne hk]

theorem Lock_ok_dirs {fm : FileManager} {e : LockEnv} (h : (fm.Lock e).2 = .ok ()) :
    (fm.Lock e).1.backupDirExists = true := by
  have hd := @ensureDataDir_ok fm e.mkdir
  unfold FileManager.Lock at h ⊢
  rcases hed : fm.ensureDataDir e.mkdir with ⟨fm1, r⟩
  rw [hed] at hd h
  simp only at hd h ⊢
  cases r with
  | error err => simp at h
  | ok u =>
    have hb := (hd rfl).2
    simp only
    split
    · simpa using hb
    · split
      · rename_i h1 h2
        simp [h1, h2] at h
      · cases hl : fm1.files.lookup (.data lockFileName) <;>
          cases acquireLockWithTimeout e.start e.attempts (5 * second) <;>
          simp [hb]

theorem Unlock_files (fm : FileManager) (e : UnlockEnv) :
    (fm.Unlock e).1.files = fm.files ∧
    (fm.Unlock e).1.backupDirExists = fm.backupDirExists ∧
    (fm.Unlock e).1.dataDirExists = fm.dataDirExists ∧
    (fm.Unlock e).1.fileLock = false := by
  unfold FileManager.Unlock
  cases h : fm.fileLock <;> cases e.flockFails <;> simp [h]

theorem WriteFile_lookup_other (fm : FileManager) (f : String) (d : List Byte) (e : WriteEnv)
    {k : RelPath} (h1 : k ≠ .data f) (h2 : k ≠ .data (f ++ ".tmp")) :
    (fm.WriteFile f d e).1.files.lookup k = fm.files.lookup k := by
  unfold FileManager.WriteFile FileManager.WriteFileRun FileManager.ensureDataDir
    FileManager.ensureDataDirRun
  by_cases hf : f = ""
  · simp [hf]
  · cases e.mkdir.dataDirFails <;> cases e.mkdir.backupDirFails <;> cases e.tmpWrite <;>
      cases e.renameFails <;> cases e.removeFails <;>
      simp [hf, AList.lookup_insert_ne h1, AList.lookup_insert_ne h2, AList.lookup_erase_ne h2]

theorem WriteFile_lookup_backup (fm : FileManager) (f : String) (d : List Byte) (e : WriteEnv)
    (n : String) :
    (fm.WriteFile f d e).1.files.lookup (.backup n) = fm.files.lookup (.backup n) :=
  WriteFile_lookup_other fm f d e (by simp) (by simp)

theorem WriteFile_ok {fm : FileManager} {f : String} {d : List Byte} {e : WriteEnv}
    (h : (fm.WriteFile f d e).2 = .ok ()) :
    (fm.WriteFile f d e).1.files.lookup (.data f) = some ⟨d, e.time⟩ ∧ f ≠ "" := by
  unfold FileManager.WriteFile FileManager.WriteFileRun FileManager.ensureDataDir
    FileManager.ensureDataDirRun at h ⊢
  by_cases hf : f = ""
  · simp [hf] at h
  · revert h
    cases e.mkdir.dataDirFails <;> cases e.mkdir.backupDirFails <;> cases e.tmpWrite <;>
      cases e.renameFails <;> cases e.removeFails <;>
      simp [hf]

theorem WriteFile_error {fm : FileManager} {f : String} {d : List Byte} {e : WriteEnv}
    {err : Error} (h : (fm.WriteFile f d e).2 = .error err) :
    (fm.WriteFile f d e).1.files.lookup (.data f) = fm.files.lookup (.data f) := by
  have hne : RelPath.data f ≠ RelPath.data (f ++ ".tmp") := by
    intro hc
    exact tmp_ne f (RelPath.data.inj hc).symm
  unfold FileManager.WriteFile FileManager.WriteFileRun FileManager.ensureDataDir
    FileManager.ensureDataDirRun at h ⊢
  by_cases hf : f = ""
  · simp [hf]
  · revert h
    cases e.mkdir.dataDirFails <;> cases e.mkdir.backupDirFails <;> cases e.tmpWrite <;>
      cases e.renameFails <;> cases e.removeFails <;>
      simp [hf, AList.lookup_insert_ne hne, AList.lookup_erase_ne hne]

theorem WriteFile_backupDir (fm : FileManager) (f : String) (d : List Byte) (e : WriteEnv)
    (h : fm.backupDirExists = true) : (fm.WriteFile f d e).1.backupDirExists = true := by
  unfold FileManager.WriteFile FileManager.WriteFileRun FileManager.ensureDataDir
    FileManager.ensureDataDirRun
  by_cases hf : f = ""
  · simp [hf, h]
  · cases e.mkdir.dataDirFails <;> cases e.mkdir.backupDirFails <;> cases e.tmpWrite <;>
      cases e.renameFails <;> cases e.removeFails <;>
      simp [hf, h]

/-- The complete case analysis of `CreateBackup`: it returns an error and changes
nothing; or it writes the whole source into the backup file and returns its
name; or the write is cut short and it returns an error. -/
theorem CreateBackup_cases (L : Lib) (fm : FileManager) (f : String) (e : BackupEnv) :
    ((fm.CreateBackup L f e).1 = fm ∧ ∃ err, (fm.CreateBackup L f e).2 = .error err) ∨
    (∃ src, fm.files.lookup (.data f) = some src ∧ fm.backupDirExists = true ∧
      e.readFails = false ∧ e.write = .ok ∧
      fm.CreateBackup L f e =
        (fm.putBackup (backupFileName f (L.timeFormat e.now)) ⟨src.data, e.time⟩,
          .ok (backupFileName f (L.timeFormat e.now)))) ∨
    (∃ src n, fm.files.lookup (.data f) = some src ∧ e.write = .short n ∧
      fm.CreateBackup L f e =
        (fm.putBackup (backupFileName f (L.timeFormat e.now)) ⟨src.data.take n, e.time⟩,
          .error (.wrap "failed to write backup file" (.sys "write")))) := by
  unfold FileManager.CreateBackup
  by_cases hf : f = ""
  · simp [hf]
  · cases hl : fm.files.lookup (.data f) with
    | none => simp [hf]
    | some src =>
      by_cases h4 : f.length < 4
      · simp [hf, h4]
      · by_cases hb : fm.backupDirExists = true
        · cases hr : e.readFails <;> cases hw : e.write <;>
            simp [hf, h4, hb, FileManager.putBackup]
        · cases hr : e.readFails <;> simp [hf, h4, hb]

theorem CreateBackup_lookup_data (L : Lib) (fm : FileManager) (f : String) (e : BackupEnv)
    (n : String) :
    (fm.CreateBackup L f e).1.files.lookup (.data n) = fm.files.lookup (.data n) := by
  rcases CreateBackup_cases L fm f e with h | ⟨src, _, _, _, _, h⟩ | ⟨src, m, _, _, h⟩
  · rw [h.1]
  · rw [h]
    exact AList.lookup_insert_ne (by simp)
  · rw [h]
    exact AList.lookup_insert_ne (by simp)

theorem CreateBackup_backupDir (L : Lib) (fm : FileManager) (f : String) (e : BackupEnv) :
    (fm.CreateBackup L f e).1.backupDirExists = fm.backupDirExists := by
  rcases CreateBackup_cases L fm f e with h | ⟨src, _, _, _, _, h⟩ | ⟨src, m, _, _, h⟩
  · rw [h.1]
  · rw [h]
    rfl
  · rw [h]
    rfl

theorem CreateBackup_ok_inv {L : Lib} {fm : FileManager} {f : String} {e : BackupEnv}
    {name : String} (h : (fm.CreateBackup L f e).2 = .ok name) :
    name = backupFileName f (L.timeFormat e.now) ∧
    ∃ src, fm.files.lookup (.data f) = some src ∧
      (fm.CreateBackup L f e).1.files =
        fm.files.insert (.backup name) ⟨src.data, e.time⟩ := by
  rcases CreateBackup_cases L fm f e with h1 | ⟨src, hs, _, _, _, h1⟩ | ⟨src, m, _, _, h1⟩
  · obtain ⟨err, he⟩ := h1.2
    rw [he] at h
    cases h
  · rw [h1] at h ⊢
    simp only [Except.ok.injEq] at h
    subst h
    exact ⟨rfl, src, hs, rfl⟩
  · rw [h1] at h
    cases h

/-- No `CreateBackup` of the default data file panics: its name has 9 bytes. -/
theorem CreateBackup_default_no_panic (L : Lib) (fm : FileManager) (e : BackupEnv)
    (text : String) : (fm.CreateBackup L DefaultDataFile e).2 ≠ .error (.panic text) := by
  unfold FileManager.CreateBackup
  have h4 : ¬ DefaultDataFile.length < 4 := by decide
  have hf : DefaultDataFile ≠ "" := by decide
  cases hl : fm.files.lookup (.data DefaultDataFile) with
  | none => simp [hf]
  | some src =>
    by_cases hb : fm.backupDirExists = true
    · cases hr : e.readFails <;> cases hw : e.write <;> simp [hf, h4, hb]
    · cases hr : e.readFails <;> simp [hf, h4, hb]

/-! ## The retention sweep -/

theorem swept_idem (e : SweepEnv) (c : Time) (n : String) (o : Option File) :
    swept e c n (swept e c n o) = swept e c n o := by
  cases o with
  | none => rfl
  | some info =>
    by_cases h : Ext n = ".enc" ∧ e.infoFails n = false ∧ info.modTime < c ∧
        e.removeFails n = false
    · simp [swept, h]
    · simp only [swept, if_neg h]

theorem sweepEntry_lookup_self (e : SweepEnv) (c : Time) (files : Files) (n : String) :
    (sweepEntry e c files n).lookup (.backup n) = swept e c n (files.lookup (.backup n)) := by
  unfold sweepEntry
  by_cases h1 : Ext n = ".enc"
  · cases h2 : e.infoFails n
    · cases h3 : files.lookup (.backup n) with
      | none => simp [h1, h3, swept]
      | some info =>
        by_cases h4 : info.modTime < c
        · cases h5 : e.removeFails n <;> simp [h1, h3, h4, h5, swept, h2]
        · simp [h1, h3, h4, swept]
    · cases h3 : files.lookup (.backup n) <;> simp [h1, h2, h3, swept]
  · cases h3 : files.lookup (.backup n) <;> simp [h1, h3, swept]

theorem sweepEntry_lookup_ne (e : SweepEnv) (c : Time) (files : Files) (n : String)
    {k : RelPath} (hk : k ≠ .backup n) :
    (sweepEntry e c files n).lookup k = files.lookup k := by
  unfold sweepEntry
  split
  · rfl
  · split
    · rfl
    · split
      · rfl
      · split
        · split
          · rfl
          · exact AList.lookup_erase_ne hk
        · rfl

theorem sweep_fold_lookup_backup (e : SweepEnv) (c : Time) (names : List String) :
    ∀ (files : Files) (n : String),
      (names.foldl (sweepEntry e c) files).lookup (.backup n) =
        if n ∈ names then swept e c n (files.lookup (.backup n))
        else files.lookup (.backup n) := by
  induction names with
  | nil => intro files n; simp
  | cons a rest ih =>
    intro files n
    rw [List.foldl_cons, ih]
    by_cases ha : n = a
    · subst ha
      rw [sweepEntry_lookup_self]
      by_cases hr : n ∈ rest
      · simp [hr, swept_idem]
      · simp [hr]
    · have hk : RelPath.backup n ≠ RelPath.backup a := by
        intro hc
        exact ha (RelPath.backup.inj hc)
      rw [sweepEntry_lookup_ne e c files a hk]
      by_cases hr : n ∈ rest
      · simp [hr]
      · simp [hr, ha]

theorem sweep_fold_lookup_data (e : SweepEnv) (c : Time) (names : List String) :
    ∀ (files : Files) (n : String),
      (names.foldl (sweepEntry e c) files).lookup (.data n) = files.lookup (.data n) := by
  induction names with
  | nil => intro files n; rfl
  | cons a rest ih =>
    intro files n
    rw [List.foldl_cons, ih]
    exact sweepEntry_lookup_ne e c files a (by simp)

theorem mem_readDirBackups (fm : FileManager) (n : String) :
    n ∈ fm.readDirBackups ↔ (fm.files.lookup (.backup n)).isSome = true := by
  unfold FileManager.readDirBackups
  rw [(List.perm_insertionSort _ _).mem_iff, List.mem_filterMap, AList.lookup_isSome,
    AList.mem_keys]
  constructor
  · rintro ⟨p, hp, hn⟩
    cases p with
    | data m => simp at hn
    | backup m =>
      simp only [Option.some.injEq] at hn
      subst hn
      exact hp
  · intro h
    exact ⟨.backup n, h, rfl⟩

/-- The effect of `DeleteOldBackups` on every backup entry. -/
theorem DeleteOldBackups_lookup_backup (fm : FileManager) (r : Int) (e : SweepEnv)
    (n : String) :
    (fm.DeleteOldBackups r e).1.files.lookup (.backup n) =
      if 0 < r ∧ fm.backupDirExists = true ∧ e.readDirFails = false then
        swept e (e.addDate e.now (-r)) n (fm.files.lookup (.backup n))
      else fm.files.lookup (.backup n) := by
  unfold FileManager.DeleteOldBackups
  by_cases hr : r ≤ 0
  · have : ¬ 0 < r := by omega
    simp [hr, this]
  · have hr2 : 0 < r := by omega
    by_cases hb : fm.backupDirExists = true
    · cases hd : e.readDirFails
      · have hfold := sweep_fold_lookup_backup e (e.addDate e.now (-r)) fm.readDirBackups fm.files n
        by_cases hm : n ∈ fm.readDirBackups
        · simp [hr, hb, hr2, hfold, hm]
        · have hnone : fm.files.lookup (.backup n) = none := by
            rw [mem_readDirBackups] at hm
            simpa using hm
          simp [hr, hb, hr2, hfold, hm, hnone, swept]
      · simp [hr, hb]
    · simp [hr, hb]

theorem DeleteOldBackups_lookup_data (fm : FileManager) (r : Int) (e : SweepEnv) (n : String) :
    (fm.DeleteOldBackups r e).1.files.lookup (.data n) = fm.files.lookup (.data n) := by
  unfold FileManager.DeleteOldBackups
  by_cases hr : r ≤ 0
  · simp [hr]
  · by_cases hb : fm.backupDirExists = true
    · cases hd : e.readDirFails
      · simp [hr, hb, sweep_fold_lookup_data]
      · simp [hr, hb]
    · simp [hr, hb]

theorem DeleteOldBackups_frame (fm : FileManager) (r : Int) (e : SweepEnv) :
    (fm.DeleteOldBackups r e).1.dataDirExists = fm.dataDirExists ∧
    (fm.DeleteOldBackups r e).1.backupDirExists = fm.backupDirExists ∧
    (fm.DeleteOldBackups r e).1.fileLock = fm.fileLock := by
  unfold FileManager.DeleteOldBackups
  by_cases hr : r ≤ 0
  · simp [hr]
  · by_cases hb : fm.backupDirExists = true
    · cases hd : e.readDirFails <;> simp [hr, hb]
    · simp [hr, hb]

/-! ## Atomic write -/

/-- C5: for every file name and byte sequence `d`, in every state `WriteFile`
passes through (so also when the call is cut off after any of its steps, and
whichever step fails) the target holds what it held before the call (or is
still absent) or exactly `d`; when `WriteFile` returns an error the target is
as before the call, and when it returns success the target holds exactly `d`. -/
theorem WriteFile_atomic (fm : FileManager) (filename : String) (d : List Byte)
    (e : WriteEnv) :
    (∀ s ∈ (fm.WriteFileRun filename d e).1,
      s.files.lookup (.data filename) = fm.files.lookup (.data filename) ∨
      s.files.lookup (.data filename) = some ⟨d, e.time⟩) ∧
    (fm.WriteFile filename d e).1 = (fm.WriteFileRun filename d e).1.getLastD fm ∧
    (∀ err, (fm.WriteFile filename d e).2 = .error err →
      (fm.WriteFile filename d e).1.files.lookup (.data filename) =
        fm.files.lookup (.data filename)) ∧
    ((fm.WriteFile filename d e).2 = .ok () →
      ((fm.WriteFile filename d e).1.files.lookup (.data filename)).map File.data = some d) := by
  have hne : RelPath.data filename ≠ RelPath.data (filename ++ ".tmp") := by
    intro hc
    exact tmp_ne filename (RelPath.data.inj hc).symm
  refine ⟨?_, rfl, fun err h => WriteFile_error h, fun h => by rw [(WriteFile_ok h).1]; rfl⟩
  unfold FileManager.WriteFileRun FileManager.ensureDataDir FileManager.ensureDataDirRun
  by_cases hf : filename = ""
  · simp [hf]
  · cases e.mkdir.dataDirFails <;> cases e.mkdir.backupDirFails <;> cases e.tmpWrite <;>
      cases e.renameFails <;> cases e.removeFails <;>
      simp [hf, AList.lookup_insert_ne hne, AList.lookup_erase_ne hne]

/-! ## Retention -/

/-- For every retention period of at least one day and every content of
`backups`, when reading the directory, `entry.Info()` and the deletions succeed,
`DeleteOldBackups` returns success, and afterwards an `.enc` entry of `backups`
is present exactly when it was present before with a modification time not
strictly before the cutoff `time.Now().AddDate(0, 0, -retentionDays)` (a file
modified exactly at the cutoff is kept), with the same file; entries without
the extension `.enc`, every file outside `backups`, the directories and the
lock are untouched. Where `AddDate` returns `now` less `retentionDays` days of
24 hours, the cutoff is that instant. -/
theorem DeleteOldBackups_retention (fm : FileManager) (retentionDays : Int) (e : SweepEnv)
    (hr : 1 ≤ retentionDays) (hdir : fm.backupDirExists = true)
    (hread : e.readDirFails = false) (hinfo : ∀ n, e.infoFails n = false)
    (hrm : ∀ n, e.removeFails n = false) :
    (fm.DeleteOldBackups retentionDays e).2 = .ok () ∧
    (∀ n, Ext n = ".enc" →
      (fm.DeleteOldBackups retentionDays e).1.files.lookup (.backup n) =
        (fm.files.lookup (.backup n)).filter
          (fun f => decide (e.addDate e.now (-retentionDays) ≤ f.modTime))) ∧
    (e.addDate e.now (-retentionDays) = e.now - retentionDays * day →
      ∀ n, Ext n = ".enc" →
        (fm.DeleteOldBackups retentionDays e).1.files.lookup (.backup n) =
          (fm.files.lookup (.backup n)).filter
            (fun f => decide (e.now - retentionDays * day ≤ f.modTime))) ∧
    (∀ n, Ext n ≠ ".enc" →
      (fm.DeleteOldBackups retentionDays e).1.files.lookup (.backup n) =
        fm.files.lookup (.backup n)) ∧
    (∀ n, (fm.DeleteOldBackups retentionDays e).1.files.lookup (.data n) =
        fm.files.lookup (.data n)) ∧
    (fm.DeleteOldBackups retentionDays e).1.dataDirExists = fm.dataDirExists ∧
    (fm.DeleteOldBackups retentionDays e).1.backupDirExists = fm.backupDirExists ∧
    (fm.DeleteOldBackups retentionDays e).1.fileLock = fm.fileLock := by
  have hpos : 0 < retentionDays := by omega
  have hnle : ¬ retentionDays ≤ 0 := by omega
  have hmain : ∀ n, Ext n = ".enc" →
      (fm.DeleteOldBackups retentionDays e).1.files.lookup (.backup n) =
        (fm.files.lookup (.backup n)).filter
          (fun f => decide (e.addDate e.now (-retentionDays) ≤ f.modTime)) := by
    intro n hn
    rw [DeleteOldBackups_lookup_backup]
    simp only [hpos, hdir, hread, and_self, if_true]
    cases hl : fm.files.lookup (.backup n) with
    | none => simp [swept]
    | some f =>
      by_cases hlt : f.modTime < e.addDate e.now (-retentionDays)
      · have : ¬ e.addDate e.now (-retentionDays) ≤ f.modTime := not_le.mpr hlt
        simp [swept, hn, hinfo, hrm, hlt, Option.filter, this]
      · have : e.addDate e.now (-retentionDays) ≤ f.modTime := not_lt.mp hlt
        simp [swept, hlt, Option.filter, this]
  refine ⟨?_, hmain, ?_, ?_, DeleteOldBackups_lookup_data fm retentionDays e,
    DeleteOldBackups_frame fm retentionDays e⟩
  · simp [FileManager.DeleteOldBackups, hnle, hdir, hread]
  · intro hideal n hn
    rw [← hideal]
    exact hmain n hn
  · intro n hn
    rw [DeleteOldBackups_lookup_backup]
    simp only [hpos, hdir, hread, and_self, if_true]
    cases hl : fm.files.lookup (.backup n) with
    | none => simp [swept]
    | some f => simp [swept, hn]

theorem WriteFile_atomic_witness :
    (emptyDir.WriteFile "tasks.enc" samplePayload (healthyWrite 5)).2 = .ok () ∧
    ((emptyDir.WriteFile "tasks.enc" samplePayload (healthyWrite 5)).1.files.lookup
      (.data "tasks.enc")).map File.data = some samplePayload :=
  ⟨rfl, (WriteFile_atomic emptyDir "tasks.enc" samplePayload (healthyWrite 5)).2.2.2 rfl⟩

theorem DeleteOldBackups_retention_witness :
    ((1 : Int) ≤ 30 ∧ sampleBackupsDir.backupDirExists = true ∧
      (healthySweep (100 * day)).readDirFails = false) ∧
    (sampleBackupsDir.DeleteOldBackups 30 (healthySweep (100 * day))).2 = .ok () ∧
    (sampleBackupsDir.DeleteOldBackups 30 (healthySweep (100 * day))).1.files.lookup
      (.backup "old.enc") = none ∧
    (sampleBackupsDir.DeleteOldBackups 30 (healthySweep (100 * day))).1.files.lookup
      (.backup "new.enc") = some ⟨[2], 100 * day - 5 * day⟩ ∧
    (sampleBackupsDir.DeleteOldBackups 30 (healthySweep (100 * day))).1.files.lookup
      (.backup "notes.txt") = some ⟨[4], 100 * day - 40 * day⟩ ∧
    (sampleBackupsDir.DeleteOldBackups 30 (healthySweep (100 * day))).1.files.lookup
      (.data "tasks.enc") = some ⟨[3], 100 * day⟩ :=
  have h := DeleteOldBackups_retention sampleBackupsDir 30 (healthySweep (100 * day))
    (by decide) rfl rfl (fun _ => rfl) (fun _ => rfl)
  ⟨⟨by decide, rfl, rfl⟩, h.1,
    (h.2.1 "old.enc" (by decide)).trans (by decide),
    (h.2.1 "new.enc" (by decide)).trans (by decide),
    (h.2.2.2.1 "notes.txt" (by decide)).trans (by decide),
    (h.2.2.2.2.1 "tasks.enc").trans (by decide)⟩

/-! ## Input validation of SaveData -/

/-- C7: for every payload that is empty or is not valid JSON, `SaveData`
returns an error before any I/O: the storage, and with it the lock handle, the
directories, the lock file, the data file and all backups, is exactly as before
the call. -/
theorem SaveData_rejects_invalid (L : Lib) (es : EncryptedStorage) (e : SaveEnv)
    (p : List Byte) (h : p = [] ∨ L.jsonValid p = false) :
    (es.SaveData L e p).1 = es ∧
    (es.SaveData L e p).2 =
      .error (if p = [] then .msg "data cannot be empty"
        else .wrap "invalid JSON data" (.sys "json")) := by
  unfold EncryptedStorage.SaveData
  by_cases hp : p = []
  · simp [hp]
  · have hj : L.jsonValid p = false := by
      rcases h with h | h
      · exact absurd h hp
      · exact h
    simp [hp, hj]

theorem SaveData_rejects_invalid_witness :
    (([] : List Byte) = [] ∨ toyLib.jsonValid [] = false) ∧
    (sampleStorage.SaveData toyLib (healthySave 0) []).1 = sampleStorage ∧
    (sampleStorage.SaveData toyLib (healthySave 0) []).2 =
      .error (if ([] : List Byte) = [] then .msg "data cannot be empty"
        else .wrap "invalid JSON data" (.sys "json")) :=
  ⟨Or.inl rfl, SaveData_rejects_invalid toyLib sampleStorage (healthySave 0) [] (Or.inl rfl)⟩

/-! ## Restoring a backup that does not decrypt -/

/-- C6: for every backup name whose file exists in `backups` but whose bytes do
not decrypt under the current password, whatever the environment does,
`RestoreFromBackup` returns an error, and every file other than the lock file
(the data file and every backup file in particular) is the same file after the
call as before: no safety backup is taken and the data file is not written. -/
theorem RestoreFromBackup_undecryptable (L : Lib) (es : EncryptedStorage) (e : RestoreEnv)
    (name : String) (f : File) (err : Error)
    (hf : es.fileManager.files.lookup (.backup name) = some f)
    (hd : es.cryptoService.Decrypt L f.data = .error err) :
    (∃ err2, (es.RestoreFromBackup L e name).2 = .error err2) ∧
    (∀ k, k ≠ .data lockFileName →
      (es.RestoreFromBackup L e name).1.fileManager.files.lookup k =
        es.fileManager.files.lookup k) ∧
    (es.RestoreFromBackup L e name).1.fileManager.files.lookup (.data DefaultDataFile) =
      es.fileManager.files.lookup (.data DefaultDataFile) ∧
    (∀ n, (es.RestoreFromBackup L e name).1.fileManager.files.lookup (.backup n) =
      es.fileManager.files.lookup (.backup n)) := by
  have key : (∃ err2, (es.RestoreFromBackup L e name).2 = .error err2) ∧
      (∀ k, k ≠ .data lockFileName →
        (es.RestoreFromBackup L e name).1.fileManager.files.lookup k =
          es.fileManager.files.lookup k) := by
    have hlk := fun k (hk : k ≠ RelPath.data lockFileName) =>
      Lock_lookup es.fileManager e.lock hk
    unfold EncryptedStorage.RestoreFromBackup
    by_cases hn : name = ""
    · simp [hn]
    · rcases hL : es.fileManager.Lock e.lock with ⟨fm1, r⟩
      rw [hL] at hlk
      simp only at hlk
      cases r with
      | error err1 =>
        simp only [hn, if_false]
        exact ⟨⟨_, rfl⟩, hlk⟩
      | ok u =>
        have hb : fm1.files.lookup (.backup name) = some f := by
          rw [hlk _ (by simp)]
          exact hf
        cases hr : e.readFails
        · simp only [hn, if_false, FileManager.ReadFile, RelPath.isEmpty, hb, hr, hd,
            Bool.false_eq_true]
          refine ⟨⟨_, rfl⟩, ?_⟩
          intro k hk
          rw [(Unlock_files fm1 e.unlock).1]
          exact hlk k hk
        · simp only [hn, if_false, FileManager.ReadFile, RelPath.isEmpty, hb, hr,
            Bool.false_eq_true, if_true]
          refine ⟨⟨_, rfl⟩, ?_⟩
          intro k hk
          rw [(Unlock_files fm1 e.unlock).1]
          exact hlk k hk
  exact ⟨key.1, key.2, key.2 _ (by decide), fun n => key.2 _ (by simp)⟩

theorem RestoreFromBackup_undecryptable_witness :
    corruptStorage.fileManager.files.lookup (.backup "bad.enc") = some ⟨[1, 2, 3], 0⟩ ∧
    corruptStorage.cryptoService.Decrypt toyLib [1, 2, 3] =
      .error (.msg "encrypted data too short") ∧
    (∃ err2, (corruptStorage.RestoreFromBackup toyLib (healthyRestore 5) "bad.enc").2 =
      .error err2) ∧
    (∀ n, (corruptStorage.RestoreFromBackup toyLib (healthyRestore 5)
        "bad.enc").1.fileManager.files.lookup (.backup n) =
      corruptStorage.fileManager.files.lookup (.backup n)) :=
  have h := RestoreFromBackup_undecryptable toyLib corruptStorage (healthyRestore 5) "bad.enc"
    ⟨[1, 2, 3], 0⟩ (.msg "encrypted data too short") rfl rfl
  ⟨rfl, rfl, h.1, h.2.2.2⟩

/-! ## Decomposition of the storage operations -/

theorem SaveData_ok_inv {L : Lib} {es : EncryptedStorage} {e : SaveEnv} {p : List Byte}
    (h : (es.SaveData L e p).2 = .ok ()) :
    ∃ fm1 blob,
      es.fileManager.Lock e.lock = (fm1, .ok ()) ∧
      es.cryptoService.Encrypt L e.encrypt p = .ok blob ∧
      ((es.afterBackup L fm1 e.backup).WriteFile es.dataFile blob e.write).2 = .ok () ∧
      (es.SaveData L e p).1 =
        { es with fileManager :=
            ((((es.afterBackup L fm1 e.backup).WriteFile es.dataFile blob
              e.write).1.DeleteOldBackups es.retentionDays e.sweep).1.Unlock e.unlock).1 } := by
  unfold EncryptedStorage.SaveData at h ⊢
  by_cases hp : p.length = 0
  · simp [hp] at h
  · cases hj : L.jsonValid p
    · simp [hp, hj] at h
    · rcases hL : es.fileManager.Lock e.lock with ⟨fm1, r⟩
      cases r with
      | error err => simp [hp, hj, hL] at h
      | ok u =>
        simp only [hp, hj, hL, if_false, Bool.true_eq_false] at h ⊢
        cases hP : panicOf (if fm1.FileExists es.dataFile = true then
            fm1.CreateBackup L es.dataFile e.backup else (fm1, .ok "")).2 with
        | some text => simp [hP] at h
        | none =>
          simp only [hP] at h ⊢
          cases hE : es.cryptoService.Encrypt L e.encrypt p with
          | error err => simp [hE] at h
          | ok blob =>
            simp only [hE] at h ⊢
            rcases hW : (if fm1.FileExists es.dataFile = true then
              fm1.CreateBackup L es.dataFile e.backup else (fm1, .ok "")).1.WriteFile
                es.dataFile blob e.write with ⟨fm3, rw3⟩
            rw [hW] at h
            cases rw3 with
            | error err => simp at h
            | ok u3 =>
              refine ⟨fm1, blob, rfl, rfl, ?_, ?_⟩
              · unfold EncryptedStorage.afterBackup
                rw [hW]
              · unfold EncryptedStorage.afterBackup
                rw [hW]

theorem afterBackup_lookup_data (L : Lib) (es : EncryptedStorage) (fm1 : FileManager)
    (e : BackupEnv) (n : String) :
    (es.afterBackup L fm1 e).files.lookup (.data n) = fm1.files.lookup (.data n) := by
  unfold EncryptedStorage.afterBackup
  split
  · exact CreateBackup_lookup_data L fm1 es.dataFile e n
  · rfl

theorem afterBackup_backupDir (L : Lib) (es : EncryptedStorage) (fm1 : FileManager)
    (e : BackupEnv) :
    (es.afterBackup L fm1 e).backupDirExists = fm1.backupDirExists := by
  unfold EncryptedStorage.afterBackup
  split
  · exact CreateBackup_backupDir L fm1 es.dataFile e
  · rfl

/-- What the backup taken before a write does to a backup entry: nothing, or
the entry now holds the bytes of the data file, or (the write cut short) a
prefix of them. -/
theorem afterBackup_lookup_backup (L : Lib) (es : EncryptedStorage) (fm1 : FileManager)
    (e : BackupEnv) (n : String) :
    (es.afterBackup L fm1 e).files.lookup (.backup n) = fm1.files.lookup (.backup n) ∨
    ∃ src, fm1.files.lookup (.data es.dataFile) = some src ∧
      ((e.write = .ok ∧
        (es.afterBackup L fm1 e).files.lookup (.backup n) = some ⟨src.data, e.time⟩) ∨
       (∃ m, e.write = .short m ∧
        (es.afterBackup L fm1 e).files.lookup (.backup n) = some ⟨src.data.take m, e.time⟩)) := by
  unfold EncryptedStorage.afterBackup
  split
  · rcases CreateBackup_cases L fm1 es.dataFile e with h | ⟨src, hs, _, _, hw, h⟩ |
      ⟨src, m, hs, hw, h⟩
    · left
      rw [h.1]
    · by_cases hn : n = backupFileName es.dataFile (L.timeFormat e.now)
      · right
        refine ⟨src, hs, Or.inl ⟨hw, ?_⟩⟩
        rw [h, hn]
        exact AList.lookup_insert _
      · left
        rw [h]
        exact AList.lookup_insert_ne (by simpa using hn)
    · by_cases hn : n = backupFileName es.dataFile (L.timeFormat e.now)
      · right
        refine ⟨src, hs, Or.inr ⟨m, hw, ?_⟩⟩
        rw [h, hn]
        exact AList.lookup_insert _
      · left
        rw [h]
        exact AList.lookup_insert_ne (by simpa using hn)
  · left
    rfl

/-- After a successful `SaveData` the data file holds the blob `Encrypt`
returned for the payload. -/
theorem SaveData_ok_data {L : Lib} {es : EncryptedStorage} {e : SaveEnv} {p : List Byte}
    (h : (es.SaveData L e p).2 = .ok ()) :
    ∃ blob, es.cryptoService.Encrypt L e.encrypt p = .ok blob ∧
      (es.SaveData L e p).1.fileManager.files.lookup (.data es.dataFile) =
        some ⟨blob, e.write.time⟩ ∧
      (es.SaveData L e p).1.dataFile = es.dataFile ∧
      (es.SaveData L e p).1.cryptoService = es.cryptoService ∧
      (es.SaveData L e p).1.retentionDays = es.retentionDays := by
  obtain ⟨fm1, blob, _, hE, hW, hS⟩ := SaveData_ok_inv h
  refine ⟨blob, hE, ?_, ?_, ?_, ?_⟩
  · rw [hS]
    simp only
    rw [(Unlock_files _ e.unlock).1, DeleteOldBackups_lookup_data]
    exact (WriteFile_ok hW).1
  · rw [hS]
  · rw [hS]
  · rw [hS]

/-- What `LoadData` returns when the lock is acquired, the read does not fail
and the data file exists. -/
theorem LoadData_of_file {L : Lib} {es : EncryptedStorage} {e : LoadEnv} {f : File}
    (hes : es.dataFile = DefaultDataFile)
    (hlock : (es.fileManager.Lock e.lock).2 = .ok ()) (hread : e.readFails = false)
    (hf : es.fileManager.files.lookup (.data DefaultDataFile) = some f) :
    (es.LoadData L e).2 =
      match es.cryptoService.Decrypt L f.data with
      | .error err => .error (.wrap "failed to decrypt data" err)
      | .ok d => .ok d := by
  have hlk := Lock_lookup es.fileManager e.lock
    (show RelPath.data DefaultDataFile ≠ RelPath.data lockFileName by decide)
  unfold EncryptedStorage.LoadData
  rcases hL : es.fileManager.Lock e.lock with ⟨fm1, r⟩
  rw [hL] at hlock hlk
  simp only at hlock hlk
  subst hlock
  rw [hf] at hlk
  have hne : es.dataFile ≠ "" := by rw [hes]; decide
  have hlk2 : fm1.files.lookup (.data es.dataFile) = some f := by rw [hes]; exact hlk
  simp [FileManager.FileExists, FileManager.ReadFile, RelPath.isEmpty, hlk2, hread, hne]

/-! ## Save, then load -/

/-- C2: for every starting state and every payload `p`, if `SaveData(p)`
returns success (so `p` is non-empty valid JSON), then the `LoadData` call made
next on the same storage, when it acquires the lock and its read does not
fail, returns exactly the bytes `p` and no error. -/
theorem SaveData_then_LoadData (L : Lib) (hL : L.Lawful) (es : EncryptedStorage)
    (e : SaveEnv) (e2 : LoadEnv) (p : List Byte)
    (hes : es.dataFile = DefaultDataFile)
    (hsave : (es.SaveData L e p).2 = .ok ())
    (hlock : ((es.SaveData L e p).1.fileManager.Lock e2.lock).2 = .ok ())
    (hread : e2.readFails = false) :
    ((es.SaveData L e p).1.LoadData L e2).2 = .ok p := by
  obtain ⟨blob, hE, hf, hd, hc, _⟩ := SaveData_ok_data hsave
  rw [hes] at hf
  rw [LoadData_of_file (hd.trans hes) hlock hread hf, hc]
  simp only
  rw [Decrypt_of_Encrypt hL hE]

theorem SaveData_then_LoadData_witness :
    toyLib.Lawful ∧ sampleStorage.dataFile = DefaultDataFile ∧
    (sampleStorage.SaveData toyLib (healthySave 7) samplePayload).2 = .ok () ∧
    ((sampleStorage.SaveData toyLib (healthySave 7) samplePayload).1.LoadData toyLib
      healthyLoad).2 = .ok samplePayload :=
  ⟨toyLib_lawful, rfl, rfl,
    SaveData_then_LoadData toyLib toyLib_lawful sampleStorage (healthySave 7) healthyLoad
      samplePayload rfl rfl rfl rfl⟩

theorem SaveData_config (L : Lib) (es : EncryptedStorage) (e : SaveEnv) (p : List Byte) :
    (es.SaveData L e p).1.dataFile = es.dataFile ∧
    (es.SaveData L e p).1.cryptoService = es.cryptoService ∧
    (es.SaveData L e p).1.retentionDays = es.retentionDays := by
  unfold EncryptedStorage.SaveData
  split
  · exact ⟨rfl, rfl, rfl⟩
  · split
    · exact ⟨rfl, rfl, rfl⟩
    · split <;> exact ⟨rfl, rfl, rfl⟩

theorem CreateManualBackup_config (L : Lib) (es : EncryptedStorage) (e : ManualBackupEnv) :
    (es.CreateManualBackup L e).1.dataFile = es.dataFile ∧
    (es.CreateManualBackup L e).1.cryptoService = es.cryptoService ∧
    (es.CreateManualBackup L e).1.retentionDays = es.retentionDays := by
  unfold EncryptedStorage.CreateManualBackup
  split <;> exact ⟨rfl, rfl, rfl⟩

theorem RestoreFromBackup_config (L : Lib) (es : EncryptedStorage) (e : RestoreEnv)
    (name : String) :
    (es.RestoreFromBackup L e name).1.dataFile = es.dataFile ∧
    (es.RestoreFromBackup L e name).1.cryptoService = es.cryptoService ∧
    (es.RestoreFromBackup L e name).1.retentionDays = es.retentionDays := by
  unfold EncryptedStorage.RestoreFromBackup
  split
  · exact ⟨rfl, rfl, rfl⟩
  · split <;> exact ⟨rfl, rfl, rfl⟩

theorem LoadData_config (L : Lib) (es : EncryptedStorage) (e : LoadEnv) :
    (es.LoadData L e).1.dataFile = es.dataFile ∧
    (es.LoadData L e).1.cryptoService = es.cryptoService ∧
    (es.LoadData L e).1.retentionDays = es.retentionDays := by
  unfold EncryptedStorage.LoadData
  split <;> exact ⟨rfl, rfl, rfl⟩

theorem CreateManualBackup_ok_inv {L : Lib} {es : EncryptedStorage} {e : ManualBackupEnv}
    {name : String} (h : (es.CreateManualBackup L e).2 = .ok name) :
    ∃ fm1, es.fileManager.Lock e.lock = (fm1, .ok ()) ∧
      (fm1.CreateBackup L es.dataFile e.backup).2 = .ok name ∧
      (es.CreateManualBackup L e).1 =
        { es with fileManager :=
            ((fm1.CreateBackup L es.dataFile e.backup).1.Unlock e.unlock).1 } := by
  unfold EncryptedStorage.CreateManualBackup at h ⊢
  rcases hL : es.fileManager.Lock e.lock with ⟨fm1, r⟩
  cases r with
  | error err => simp [hL] at h
  | ok u =>
    simp only [hL] at h ⊢
    cases hx : fm1.FileExists es.dataFile
    · simp [hx] at h
    · simp only [hx, Bool.true_eq_false, if_false] at h ⊢
      cases hP : panicOf (fm1.CreateBackup L es.dataFile e.backup).2 with
      | some text => simp [hP] at h
      | none =>
        simp only [hP] at h ⊢
        cases hB : (fm1.CreateBackup L es.dataFile e.backup).2 with
        | error err => simp [hB] at h
        | ok nm =>
          simp only [hB, Except.ok.injEq] at h ⊢
          subst h
          exact ⟨fm1, rfl, hB, rfl⟩

theorem RestoreFromBackup_ok_inv {L : Lib} {es : EncryptedStorage} {e : RestoreEnv}
    {name : String} (h : (es.RestoreFromBackup L e name).2 = .ok ()) :
    ∃ fm1 f, es.fileManager.Lock e.lock = (fm1, .ok ()) ∧
      fm1.files.lookup (.backup name) = some f ∧
      (∃ d, es.cryptoService.Decrypt L f.data = .ok d) ∧
      ((es.afterBackup L fm1 e.backup).WriteFile es.dataFile f.data e.write).2 = .ok () ∧
      (es.RestoreFromBackup L e name).1 =
        { es with fileManager :=
            (((es.afterBackup L fm1 e.backup).WriteFile es.dataFile f.data
              e.write).1.Unlock e.unlock).1 } := by
  unfold EncryptedStorage.RestoreFromBackup at h ⊢
  by_cases hn : name = ""
  · simp [hn] at h
  · rcases hL : es.fileManager.Lock e.lock with ⟨fm1, r⟩
    cases r with
    | error err => simp [hn, hL] at h
    | ok u =>
      simp only [hn, hL, if_false] at h ⊢
      cases hf : fm1.files.lookup (.backup name) with
      | none => simp [FileManager.ReadFile, RelPath.isEmpty, hf] at h
      | some f =>
        cases hr : e.readFails
        · simp only [FileManager.ReadFile, RelPath.isEmpty, hf, hr, Bool.false_eq_true,
            if_false] at h ⊢
          cases hD : es.cryptoService.Decrypt L f.data with
          | error err => simp [hD] at h
          | ok d =>
            simp only [hD] at h ⊢
            cases hP : panicOf (if fm1.FileExists es.dataFile = true then
                fm1.CreateBackup L es.dataFile e.backup else (fm1, .ok "")).2 with
            | some text => simp [hP] at h
            | none =>
              simp only [hP] at h ⊢
              rcases hW : (if fm1.FileExists es.dataFile = true then
                fm1.CreateBackup L es.dataFile e.backup else (fm1, .ok "")).1.WriteFile
                  es.dataFile f.data e.write with ⟨fm3, rw3⟩
              rw [hW] at h
              cases rw3 with
              | error err => simp at h
              | ok u3 =>
                refine ⟨fm1, f, rfl, hf, ⟨d, hD⟩, ?_, ?_⟩
                · unfold EncryptedStorage.afterBackup
                  rw [hW]
                · unfold EncryptedStorage.afterBackup
                  rw [hW]
        · simp [FileManager.ReadFile, RelPath.isEmpty, hf, hr] at h

/-! ## The backup taken before a write -/

theorem backupFileName_default (timestamp : String) :
    backupFileName DefaultDataFile timestamp = "tasks_backup_" ++ timestamp ++ ".enc" := by
  unfold backupFileName
  have h1 : String.mk (DefaultDataFile.data.take (DefaultDataFile.length - 4)) = "tasks" := by
    decide
  rw [h1]
  have h2 : "tasks" ++ "_backup_" = "tasks_backup_" := by decide
  rw [h2]

theorem CreateBackup_healthy {L : Lib} {fm : FileManager} {f : String} {e : BackupEnv}
    {src : File} (hs : fm.files.lookup (.data f) = some src) (hne : f ≠ "")
    (h4 : ¬ f.length < 4) (hdir : fm.backupDirExists = true) (hr : e.readFails = false)
    (hw : e.write = .ok) :
    fm.CreateBackup L f e =
      (fm.putBackup (backupFileName f (L.timeFormat e.now)) ⟨src.data, e.time⟩,
        .ok (backupFileName f (L.timeFormat e.now))) := by
  unfold FileManager.CreateBackup
  simp [hs, hne, h4, hdir, hr, hw, FileManager.putBackup]

/-- For every successful `SaveData` call made while a data file with bytes `b`
exists, in which reading the data file and writing the backup copy do not fail
and the cutoff of the retention sweep is not after the modification time
stamped on the backup file, `backups` holds, when `SaveData` returns, the file
`tasks_backup_<time of the call as YYYYMMDD_HHMMSS>.enc` with exactly the bytes
`b`. -/
theorem SaveData_keeps_prewrite_backup (L : Lib) (es : EncryptedStorage) (e : SaveEnv)
    (p : List Byte) (f : File)
    (hes : es.dataFile = DefaultDataFile)
    (hf : es.fileManager.files.lookup (.data DefaultDataFile) = some f)
    (hsave : (es.SaveData L e p).2 = .ok ())
    (hread : e.backup.readFails = false) (hwrite : e.backup.write = .ok)
    (hfresh : e.sweep.addDate e.sweep.now (-es.retentionDays) ≤ e.backup.time) :
    (es.SaveData L e p).1.fileManager.files.lookup
      (.backup ("tasks_backup_" ++ L.timeFormat e.backup.now ++ ".enc")) =
        some ⟨f.data, e.backup.time⟩ := by
  obtain ⟨fm1, blob, hLk, hE, hW, hS⟩ := SaveData_ok_inv hsave
  have hl2 : (es.fileManager.Lock e.lock).2 = .ok () := by rw [hLk]
  have hdir : fm1.backupDirExists = true := by
    have := Lock_ok_dirs hl2
    rwa [hLk] at this
  have hf1 : fm1.files.lookup (.data DefaultDataFile) = some f := by
    have := Lock_lookup es.fileManager e.lock
      (show RelPath.data DefaultDataFile ≠ RelPath.data lockFileName by decide)
    rw [hLk] at this
    rw [this]
    exact hf
  have hAB : es.afterBackup L fm1 e.backup =
      fm1.putBackup (backupFileName DefaultDataFile (L.timeFormat e.backup.now))
        ⟨f.data, e.backup.time⟩ := by
    unfold EncryptedStorage.afterBackup
    have hx : fm1.FileExists es.dataFile = true := by
      rw [hes]
      simp [FileManager.FileExists, hf1]
      decide
    rw [if_pos hx, hes, CreateBackup_healthy hf1 (by decide) (by decide) hdir hread hwrite]
  rw [hS]
  simp only
  rw [(Unlock_files _ e.unlock).1, DeleteOldBackups_lookup_backup, WriteFile_lookup_backup, hAB,
    ← backupFileName_default]
  have hput : (fm1.putBackup (backupFileName DefaultDataFile (L.timeFormat e.backup.now))
      ⟨f.data, e.backup.time⟩).files.lookup
        (.backup (backupFileName DefaultDataFile (L.timeFormat e.backup.now))) =
      some ⟨f.data, e.backup.time⟩ := AList.lookup_insert _
  rw [hput]
  have hnot : ¬ e.backup.time < e.sweep.addDate e.sweep.now (-es.retentionDays) :=
    not_lt.mpr hfresh
  split
  · simp [swept, hnot]
  · rfl

theorem SaveData_keeps_prewrite_backup_witness :
    savedStorage.dataFile = DefaultDataFile ∧
    savedStorage.fileManager.files.lookup (.data DefaultDataFile) =
      some ⟨sampleBlob, 7 * second⟩ ∧
    (savedStorage.SaveData toyLib (healthySave (9 * second)) samplePayload2).2 = .ok () ∧
    (savedStorage.SaveData toyLib (healthySave (9 * second))
      samplePayload2).1.fileManager.files.lookup
        (.backup ("tasks_backup_" ++ toyLib.timeFormat (9 * second) ++ ".enc")) =
      some ⟨sampleBlob, 9 * second⟩ :=
  ⟨rfl, rfl, rfl,
    SaveData_keeps_prewrite_backup toyLib savedStorage (healthySave (9 * second))
      samplePayload2 ⟨sampleBlob, 7 * second⟩ rfl rfl rfl rfl rfl (by decide)⟩

/-! ## The final state of the storage operations, whatever their outcome -/

theorem DeleteOldBackups_lookup_backup_or (fm : FileManager) (r : Int) (e : SweepEnv)
    (n : String) :
    (fm.DeleteOldBackups r e).1.files.lookup (.backup n) = none ∨
    (fm.DeleteOldBackups r e).1.files.lookup (.backup n) = fm.files.lookup (.backup n) := by
  rw [DeleteOldBackups_lookup_backup]
  split
  · cases hl : fm.files.lookup (.backup n) with
    | none => left; rfl
    | some f =>
      unfold swept
      simp only
      split
      · left; rfl
      · right; rfl
  · right; rfl

/-- The states `SaveData` can end in: the storage as it was (payload rejected);
the state the failed `Lock` left; or, the lock acquired, the unlocked state
after the backup (panic, or encryption failed), after the failed write, or
after the write and the retention sweep. -/
theorem SaveData_cases (L : Lib) (es : EncryptedStorage) (e : SaveEnv) (p : List Byte) :
    (es.SaveData L e p).1 = es ∨
    (es.SaveData L e p).1 = { es with fileManager := (es.fileManager.Lock e.lock).1 } ∨
    ∃ fm1, es.fileManager.Lock e.lock = (fm1, .ok ()) ∧
      ((es.SaveData L e p).1 =
          { es with fileManager := ((es.afterBackup L fm1 e.backup).Unlock e.unlock).1 } ∨
       ∃ blob, es.cryptoService.Encrypt L e.encrypt p = .ok blob ∧
        (((∃ err, ((es.afterBackup L fm1 e.backup).WriteFile es.dataFile blob e.write).2 =
              .error err) ∧
          (es.SaveData L e p).1 =
            { es with fileManager :=
                (((es.afterBackup L fm1 e.backup).WriteFile es.dataFile blob
                  e.write).1.Unlock e.unlock).1 }) ∨
         (((es.afterBackup L fm1 e.backup).WriteFile es.dataFile blob e.write).2 = .ok () ∧
          (es.SaveData L e p).1 =
            { es with fileManager :=
                ((((es.afterBackup L fm1 e.backup).WriteFile es.dataFile blob
                  e.write).1.DeleteOldBackups es.retentionDays e.sweep).1.Unlock
                    e.unlock).1 }))) := by
  by_cases hok : (es.SaveData L e p).2 = .ok ()
  · obtain ⟨fm1, blob, hLk, hE, hW, hS⟩ := SaveData_ok_inv hok
    exact Or.inr (Or.inr ⟨fm1, hLk, Or.inr ⟨blob, hE, Or.inr ⟨hW, hS⟩⟩⟩)
  · unfold EncryptedStorage.SaveData at hok ⊢
    by_cases hp : p.length = 0
    · left
      simp [hp]
    · cases hj : L.jsonValid p
      · left
        simp [hp, hj]
      · right
        rcases hL : es.fileManager.Lock e.lock with ⟨fm1, r⟩
        cases r with
        | error err =>
          left
          simp [hp, hj, hL]
        | ok u =>
          right
          refine ⟨fm1, rfl, ?_⟩
          simp only [hp, hj, hL, if_false, Bool.true_eq_false] at hok ⊢
          cases hP : panicOf (if fm1.FileExists es.dataFile = true then
              fm1.CreateBackup L es.dataFile e.backup else (fm1, .ok "")).2 with
          | some text =>
            left
            simp only [hP]
            rfl
          | none =>
            simp only [hP] at hok ⊢
            cases hE : es.cryptoService.Encrypt L e.encrypt p with
            | error err =>
              left
              rfl
            | ok blob =>
              right
              simp only [hE] at hok ⊢
              refine ⟨blob, rfl, ?_⟩
              rcases hW : (if fm1.FileExists es.dataFile = true then
                fm1.CreateBackup L es.dataFile e.backup else (fm1, .ok "")).1.WriteFile
                  es.dataFile blob e.write with ⟨fm3, rw3⟩
              rw [hW] at hok
              cases rw3 with
              | ok u3 => simp at hok
              | error err =>
                left
                unfold EncryptedStorage.afterBackup
                rw [hW]
                exact ⟨⟨err, rfl⟩, rfl⟩

theorem Lock_eq_lookup {fm fm1 : FileManager} {e : LockEnv} {r : Except Error Unit}
    (h : fm.Lock e = (fm1, r)) {k : RelPath} (hk : k ≠ .data lockFileName) :
    fm1.files.lookup k = fm.files.lookup k := by
  have := Lock_lookup fm e hk
  rwa [h] at this

theorem default_ne_lock : RelPath.data DefaultDataFile ≠ RelPath.data lockFileName := by
  decide

theorem backup_ne_lock (n : String) : RelPath.backup n ≠ RelPath.data lockFileName := by
  simp

/-- With no write cut short, the backup taken before a write leaves a backup
entry as it was or fills it with the bytes of the data file. -/
theorem afterBackup_entry (L : Lib) (es : EncryptedStorage) (fm1 : FileManager)
    (e : BackupEnv) (hshort : ∀ m, e.write ≠ .short m) (n : String) :
    (es.afterBackup L fm1 e).files.lookup (.backup n) = fm1.files.lookup (.backup n) ∨
    ∃ src, fm1.files.lookup (.data es.dataFile) = some src ∧
      (es.afterBackup L fm1 e).files.lookup (.backup n) = some ⟨src.data, e.time⟩ := by
  rcases afterBackup_lookup_backup L es fm1 e n with h | ⟨src, hs, ⟨_, h⟩ | ⟨m, hm, _⟩⟩
  · exact Or.inl h
  · exact Or.inr ⟨src, hs, h⟩
  · exact absurd hm (hshort m)

/-- What a `SaveData` call, whatever its outcome, makes of the data file and of
each backup entry, when the write of its backup copy is not cut short: the data
file is as before or holds the blob `Encrypt` returned for the payload; a
backup entry is gone, as before, or holds the bytes the data file had. -/
theorem SaveData_entries (L : Lib) (es : EncryptedStorage) (e : SaveEnv) (p : List Byte)
    (hes : es.dataFile = DefaultDataFile) (hshort : ∀ m, e.backup.write ≠ .short m) :
    ((es.SaveData L e p).1.fileManager.files.lookup (.data DefaultDataFile) =
        es.fileManager.files.lookup (.data DefaultDataFile) ∨
      ∃ blob, es.cryptoService.Encrypt L e.encrypt p = .ok blob ∧
        (es.SaveData L e p).1.fileManager.files.lookup (.data DefaultDataFile) =
          some ⟨blob, e.write.time⟩) ∧
    ∀ n, (es.SaveData L e p).1.fileManager.files.lookup (.backup n) = none ∨
      (es.SaveData L e p).1.fileManager.files.lookup (.backup n) =
        es.fileManager.files.lookup (.backup n) ∨
      ∃ src, es.fileManager.files.lookup (.data DefaultDataFile) = some src ∧
        (es.SaveData L e p).1.fileManager.files.lookup (.backup n) =
          some ⟨src.data, e.backup.time⟩ := by
  rcases SaveData_cases L es e p with h | h | ⟨fm1, hLk, h⟩
  · rw [h]
    exact ⟨Or.inl rfl, fun n => Or.inr (Or.inl rfl)⟩
  · rw [h]
    exact ⟨Or.inl (Lock_lookup _ _ default_ne_lock),
      fun n => Or.inr (Or.inl (Lock_lookup _ _ (backup_ne_lock n)))⟩
  · have hd1 := Lock_eq_lookup hLk default_ne_lock
    have hb1 := fun n => Lock_eq_lookup hLk (backup_ne_lock n)
    have hAd := afterBackup_lookup_data L es fm1 e.backup DefaultDataFile
    have hAb : ∀ n, (es.afterBackup L fm1 e.backup).files.lookup (.backup n) =
          es.fileManager.files.lookup (.backup n) ∨
        ∃ src, es.fileManager.files.lookup (.data DefaultDataFile) = some src ∧
          (es.afterBackup L fm1 e.backup).files.lookup (.backup n) =
            some ⟨src.data, e.backup.time⟩ := by
      intro n
      rcases afterBackup_entry L es fm1 e.backup hshort n with h1 | ⟨src, hs, h1⟩
      · left
        rw [h1, hb1]
      · right
        rw [hes, hd1] at hs
        exact ⟨src, hs, h1⟩
    rcases h with h | ⟨blob, hE, ⟨⟨err, hW⟩, h⟩ | ⟨hW, h⟩⟩
    · rw [h]
      simp only
      rw [(Unlock_files _ e.unlock).1]
      refine ⟨Or.inl (by rw [hAd, hd1]), fun n => Or.inr ?_⟩
      exact hAb n
    · rw [h]
      simp only
      rw [(Unlock_files _ e.unlock).1]
      refine ⟨Or.inl ?_, fun n => Or.inr ?_⟩
      · have := WriteFile_error hW
        rw [hes] at this
        rw [hes, this, hAd, hd1]
      · rw [WriteFile_lookup_backup]
        exact hAb n
    · rw [h]
      simp only
      rw [(Unlock_files _ e.unlock).1]
      refine ⟨Or.inr ⟨blob, hE, ?_⟩, fun n => ?_⟩
      · rw [DeleteOldBackups_lookup_data]
        have := (WriteFile_ok hW).1
        rw [hes] at this
        rw [hes]
        exact this
      · rcases DeleteOldBackups_lookup_backup_or
          ((es.afterBackup L fm1 e.backup).WriteFile es.dataFile blob e.write).1
          es.retentionDays e.sweep n with hs | hs
        · exact Or.inl hs
        · right
          rw [hs, WriteFile_lookup_backup]
          exact hAb n

theorem CreateManualBackup_cases (L : Lib) (es : EncryptedStorage) (e : ManualBackupEnv) :
    (es.CreateManualBackup L e).1 =
      { es with fileManager := (es.fileManager.Lock e.lock).1 } ∨
    ∃ fm1, es.fileManager.Lock e.lock = (fm1, .ok ()) ∧
      (es.CreateManualBackup L e).1 =
        { es with fileManager := ((es.afterBackup L fm1 e.backup).Unlock e.unlock).1 } := by
  unfold EncryptedStorage.CreateManualBackup
  rcases hL : es.fileManager.Lock e.lock with ⟨fm1, r⟩
  cases r with
  | error err =>
    left
    rfl
  | ok u =>
    right
    refine ⟨fm1, rfl, ?_⟩
    unfold EncryptedStorage.afterBackup
    simp only
    cases hx : fm1.FileExists es.dataFile
    · simp
    · simp only [Bool.true_eq_false, if_false, if_true]
      cases hP : panicOf (fm1.CreateBackup L es.dataFile e.backup).2 with
      | some text => rfl
      | none =>
        simp only
        cases hB : (fm1.CreateBackup L es.dataFile e.backup).2 <;> rfl

theorem CreateManualBackup_entries (L : Lib) (es : EncryptedStorage) (e : ManualBackupEnv)
    (hes : es.dataFile = DefaultDataFile) (hshort : ∀ m, e.backup.write ≠ .short m) :
    (es.CreateManualBackup L e).1.fileManager.files.lookup (.data DefaultDataFile) =
        es.fileManager.files.lookup (.data DefaultDataFile) ∧
    ∀ n, (es.CreateManualBackup L e).1.fileManager.files.lookup (.backup n) =
        es.fileManager.files.lookup (.backup n) ∨
      ∃ src, es.fileManager.files.lookup (.data DefaultDataFile) = some src ∧
        (es.CreateManualBackup L e).1.fileManager.files.lookup (.backup n) =
          some ⟨src.data, e.backup.time⟩ := by
  rcases CreateManualBackup_cases L es e with h | ⟨fm1, hLk, h⟩
  · rw [h]
    exact ⟨Lock_lookup _ _ default_ne_lock, fun n => Or.inl (Lock_lookup _ _ (backup_ne_lock n))⟩
  · have hd1 := Lock_eq_lookup hLk default_ne_lock
    have hb1 := fun n => Lock_eq_lookup hLk (backup_ne_lock n)
    rw [h]
    simp only
    rw [(Unlock_files _ e.unlock).1]
    refine ⟨by rw [afterBackup_lookup_data, hd1], fun n => ?_⟩
    rcases afterBackup_entry L es fm1 e.backup hshort n with h1 | ⟨src, hs, h1⟩
    · left
      rw [h1, hb1]
    · right
      rw [hes, hd1] at hs
      exact ⟨src, hs, h1⟩

theorem LoadData_cases (L : Lib) (es : EncryptedStorage) (e : LoadEnv) :
    (es.LoadData L e).1 = { es with fileManager := (es.fileManager.Lock e.lock).1 } ∨
    ∃ fm1, es.fileManager.Lock e.lock = (fm1, .ok ()) ∧
      (es.LoadData L e).1 = { es with fileManager := (fm1.Unlock e.unlock).1 } := by
  unfold EncryptedStorage.LoadData
  rcases hL : es.fileManager.Lock e.lock with ⟨fm1, r⟩
  cases r with
  | error err =>
    left
    rfl
  | ok u =>
    right
    exact ⟨fm1, rfl, rfl⟩

theorem LoadData_lookup (L : Lib) (es : EncryptedStorage) (e : LoadEnv) {k : RelPath}
    (hk : k ≠ .data lockFileName) :
    (es.LoadData L e).1.fileManager.files.lookup k = es.fileManager.files.lookup k := by
  rcases LoadData_cases L es e with h | ⟨fm1, hLk, h⟩
  · rw [h]
    exact Lock_lookup _ _ hk
  · rw [h]
    simp only
    rw [(Unlock_files _ e.unlock).1]
    exact Lock_eq_lookup hLk hk

theorem RestoreFromBackup_cases (L : Lib) (es : EncryptedStorage) (e : RestoreEnv)
    (name : String) :
    (es.RestoreFromBackup L e name).1 = es ∨
    (es.RestoreFromBackup L e name).1 =
      { es with fileManager := (es.fileManager.Lock e.lock).1 } ∨
    ∃ fm1, es.fileManager.Lock e.lock = (fm1, .ok ()) ∧
      ((es.RestoreFromBackup L e name).1 =
          { es with fileManager := (fm1.Unlock e.unlock).1 } ∨
       ∃ f d, fm1.files.lookup (.backup name) = some f ∧
        es.cryptoService.Decrypt L f.data = .ok d ∧
        ((es.RestoreFromBackup L e name).1 =
            { es with fileManager := ((es.afterBackup L fm1 e.backup).Unlock e.unlock).1 } ∨
         ((∃ err, ((es.afterBackup L fm1 e.backup).WriteFile es.dataFile f.data e.write).2 =
              .error err) ∧
          (es.RestoreFromBackup L e name).1 =
            { es with fileManager :=
                (((es.afterBackup L fm1 e.backup).WriteFile es.dataFile f.data
                  e.write).1.Unlock e.unlock).1 }) ∨
         (((es.afterBackup L fm1 e.backup).WriteFile es.dataFile f.data e.write).2 = .ok () ∧
          (es.RestoreFromBackup L e name).1 =
            { es with fileManager :=
                (((es.afterBackup L fm1 e.backup).WriteFile es.dataFile f.data
                  e.write).1.Unlock e.unlock).1 }))) := by
  by_cases hok : (es.RestoreFromBackup L e name).2 = .ok ()
  · obtain ⟨fm1, f, hLk, hf, ⟨d, hD⟩, hW, hS⟩ := RestoreFromBackup_ok_inv hok
    exact Or.inr (Or.inr ⟨fm1, hLk, Or.inr ⟨f, d, hf, hD, Or.inr (Or.inr ⟨hW, hS⟩)⟩⟩)
  · unfold EncryptedStorage.RestoreFromBackup at hok ⊢
    by_cases hn : name = ""
    · left
      simp [hn]
    · right
      rcases hL : es.fileManager.Lock e.lock with ⟨fm1, r⟩
      cases r with
      | error err =>
        left
        simp [hn, hL]
      | ok u =>
        right
        refine ⟨fm1, rfl, ?_⟩
        simp only [hn, hL, if_false] at hok ⊢
        cases hf : fm1.files.lookup (.backup name) with
        | none =>
          left
          simp [FileManager.ReadFile, RelPath.isEmpty, hf]
        | some f =>
          cases hr : e.readFails
          · simp only [FileManager.ReadFile, RelPath.isEmpty, hf, hr, Bool.false_eq_true,
              if_false] at hok ⊢
            cases hD : es.cryptoService.Decrypt L f.data with
            | error err =>
              left
              rfl
            | ok d =>
              right
              refine ⟨f, d, rfl, hD, ?_⟩
              simp only [hD] at hok ⊢
              cases hP : panicOf (if fm1.FileExists es.dataFile = true then
                  fm1.CreateBackup L es.dataFile e.backup else (fm1, .ok "")).2 with
              | some text =>
                left
                rfl
              | none =>
                right
                simp only [hP] at hok ⊢
                rcases hW : (if fm1.FileExists es.dataFile = true then
                  fm1.CreateBackup L es.dataFile e.backup else (fm1, .ok "")).1.WriteFile
                    es.dataFile f.data e.write with ⟨fm3, rw3⟩
                rw [hW] at hok
                cases rw3 with
                | ok u3 => simp at hok
                | error err =>
                  left
                  unfold EncryptedStorage.afterBackup
                  rw [hW]
                  exact ⟨⟨err, rfl⟩, rfl⟩
          · left
            simp [FileManager.ReadFile, RelPath.isEmpty, hf, hr]

theorem RestoreFromBackup_entries (L : Lib) (es : EncryptedStorage) (e : RestoreEnv)
    (name : String) (hes : es.dataFile = DefaultDataFile)
    (hshort : ∀ m, e.backup.write ≠ .short m) :
    ((es.RestoreFromBackup L e name).1.fileManager.files.lookup (.data DefaultDataFile) =
        es.fileManager.files.lookup (.data DefaultDataFile) ∨
      ∃ f d, es.fileManager.files.lookup (.backup name) = some f ∧
        es.cryptoService.Decrypt L f.data = .ok d ∧
        (es.RestoreFromBackup L e name).1.fileManager.files.lookup (.data DefaultDataFile) =
          some ⟨f.data, e.write.time⟩) ∧
    ∀ n, (es.RestoreFromBackup L e name).1.fileManager.files.lookup (.backup n) =
        es.fileManager.files.lookup (.backup n) ∨
      ∃ src, es.fileManager.files.lookup (.data DefaultDataFile) = some src ∧
        (es.RestoreFromBackup L e name).1.fileManager.files.lookup (.backup n) =
          some ⟨src.data, e.backup.time⟩ := by
  rcases RestoreFromBackup_cases L es e name with h | h | ⟨fm1, hLk, h⟩
  · rw [h]
    exact ⟨Or.inl rfl, fun n => Or.inl rfl⟩
  · rw [h]
    exact ⟨Or.inl (Lock_lookup _ _ default_ne_lock),
      fun n => Or.inl (Lock_lookup _ _ (backup_ne_lock n))⟩
  · have hd1 := Lock_eq_lookup hLk default_ne_lock
    have hb1 := fun n => Lock_eq_lookup hLk (backup_ne_lock n)
    have hAd := afterBackup_lookup_data L es fm1 e.backup DefaultDataFile
    have hAb : ∀ n, (es.afterBackup L fm1 e.backup).files.lookup (.backup n) =
          es.fileManager.files.lookup (.backup n) ∨
        ∃ src, es.fileManager.files.lookup (.data DefaultDataFile) = some src ∧
          (es.afterBackup L fm1 e.backup).files.lookup (.backup n) =
            some ⟨src.data, e.backup.time⟩ := by
      intro n
      rcases afterBackup_entry L es fm1 e.backup hshort n with h1 | ⟨src, hs, h1⟩
      · left
        rw [h1, hb1]
      · right
        rw [hes, hd1] at hs
        exact ⟨src, hs, h1⟩
    rcases h with h | ⟨f, d, hf, hD, h | ⟨⟨err, hW⟩, h⟩ | ⟨hW, h⟩⟩
    · rw [h]
      simp only
      rw [(Unlock_files _ e.unlock).1]
      exact ⟨Or.inl hd1, fun n => Or.inl (hb1 n)⟩
    · rw [h]
      simp only
      rw [(Unlock_files _ e.unlock).1]
      exact ⟨Or.inl (by rw [hAd, hd1]), hAb⟩
    · rw [h]
      simp only
      rw [(Unlock_files _ e.unlock).1]
      refine ⟨Or.inl ?_, fun n => ?_⟩
      · have := WriteFile_error hW
        rw [hes] at this
        rw [hes, this, hAd, hd1]
      · rw [WriteFile_lookup_backup]
        exact hAb n
    · rw [h]
      simp only
      rw [(Unlock_files _ e.unlock).1]
      refine ⟨Or.inr ⟨f, d, ?_, hD, ?_⟩, fun n => ?_⟩
      · rw [← hb1]
        exact hf
      · have := (WriteFile_ok hW).1
        rw [hes] at this
        rw [hes]
        exact this
      · rw [WriteFile_lookup_backup]
        exact hAb n

/-- After a successful `RestoreFromBackup` the data file holds the bytes the
backup file held when the call started. -/
theorem RestoreFromBackup_ok_data {L : Lib} {es : EncryptedStorage} {e : RestoreEnv}
    {name : String} (h : (es.RestoreFromBackup L e name).2 = .ok ()) :
    ∃ f, es.fileManager.files.lookup (.backup name) = some f ∧
      (es.RestoreFromBackup L e name).1.fileManager.files.lookup (.data es.dataFile) =
        some ⟨f.data, e.write.time⟩ := by
  obtain ⟨fm1, f, hLk, hf, _, hW, hS⟩ := RestoreFromBackup_ok_inv h
  refine ⟨f, ?_, ?_⟩
  · rw [← Lock_eq_lookup hLk (backup_ne_lock name)]
    exact hf
  · rw [hS]
    simp only
    rw [(Unlock_files _ e.unlock).1]
    exact (WriteFile_ok hW).1

/-- After a successful `CreateManualBackup` the backup file of the returned
name holds the bytes of the data file. -/
theorem CreateManualBackup_ok_backup {L : Lib} {es : EncryptedStorage} {e : ManualBackupEnv}
    {name : String} (hes : es.dataFile = DefaultDataFile)
    (h : (es.CreateManualBackup L e).2 = .ok name) :
    name = "tasks_backup_" ++ L.timeFormat e.backup.now ++ ".enc" ∧
    ∃ src, es.fileManager.files.lookup (.data DefaultDataFile) = some src ∧
      (es.CreateManualBackup L e).1.fileManager.files.lookup (.backup name) =
        some ⟨src.data, e.backup.time⟩ ∧
      (es.CreateManualBackup L e).1.fileManager.files.lookup (.data DefaultDataFile) =
        some src := by
  obtain ⟨fm1, hLk, hB, hS⟩ := CreateManualBackup_ok_inv h
  obtain ⟨hname, src, hs, hfiles⟩ := CreateBackup_ok_inv hB
  rw [hes] at hname hs
  rw [backupFileName_default] at hname
  have hs0 : es.fileManager.files.lookup (.data DefaultDataFile) = some src := by
    rw [← Lock_eq_lookup hLk default_ne_lock]
    exact hs
  refine ⟨hname, src, hs0, ?_, ?_⟩
  · rw [hS]
    simp only
    rw [(Unlock_files _ e.unlock).1, hfiles]
    exact AList.lookup_insert _
  · rw [hS]
    simp only
    rw [(Unlock_files _ e.unlock).1, CreateBackup_lookup_data]
    exact hs

/-! ## Backup, overwrite, restore -/

/-- C3: for all payloads `p1` and `p2` and all clock readings at the individual
steps (backup names may collide), if `SaveData(p1)`, `CreateManualBackup()`
returning `backup`, `SaveData(p2)` and `RestoreFromBackup(backup)` all succeed
in that order, the write of the backup copy inside `SaveData(p2)` not being cut
short, then the following `LoadData`, when it acquires the lock and its read
does not fail, returns exactly `p1`. -/
theorem backup_restore_roundtrip (L : Lib) (hL : L.Lawful)
    (es s1 s2 s3 s4 : EncryptedStorage) (e1 e3 : SaveEnv) (e2 : ManualBackupEnv)
    (e4 : RestoreEnv) (e5 : LoadEnv) (p1 p2 : List Byte) (backup : String)
    (hes : es.dataFile = DefaultDataFile)
    (h1 : es.SaveData L e1 p1 = (s1, .ok ()))
    (h2 : s1.CreateManualBackup L e2 = (s2, .ok backup))
    (h3 : s2.SaveData L e3 p2 = (s3, .ok ()))
    (hshort : ∀ m, e3.backup.write ≠ .short m)
    (h4 : s3.RestoreFromBackup L e4 backup = (s4, .ok ()))
    (hlock : (s4.fileManager.Lock e5.lock).2 = .ok ()) (hread : e5.readFails = false) :
    (s4.LoadData L e5).2 = .ok p1 := by
  have e1' : s1 = (es.SaveData L e1 p1).1 := by rw [h1]
  have e2' : s2 = (s1.CreateManualBackup L e2).1 := by rw [h2]
  have e3' : s3 = (s2.SaveData L e3 p2).1 := by rw [h3]
  have e4' : s4 = (s3.RestoreFromBackup L e4 backup).1 := by rw [h4]
  have o1 : (es.SaveData L e1 p1).2 = .ok () := by rw [h1]
  have o2 : (s1.CreateManualBackup L e2).2 = .ok backup := by rw [h2]
  have o4 : (s3.RestoreFromBackup L e4 backup).2 = .ok () := by rw [h4]
  -- the storage configuration never changes
  have c1 := SaveData_config L es e1 p1
  have c2 := CreateManualBackup_config L s1 e2
  have c3 := SaveData_config L s2 e3 p2
  have c4 := RestoreFromBackup_config L s3 e4 backup
  rw [← e1'] at c1
  rw [← e2'] at c2
  rw [← e3'] at c3
  rw [← e4'] at c4
  have d1 : s1.dataFile = DefaultDataFile := c1.1.trans hes
  have d2 : s2.dataFile = DefaultDataFile := c2.1.trans d1
  have d3 : s3.dataFile = DefaultDataFile := c3.1.trans d2
  have d4 : s4.dataFile = DefaultDataFile := c4.1.trans d3
  have k4 : s4.cryptoService = es.cryptoService :=
    c4.2.1.trans (c3.2.1.trans (c2.2.1.trans c1.2.1))
  -- after the first save the data file holds the blob of p1
  obtain ⟨b1, hE, hf1, _⟩ := SaveData_ok_data o1
  rw [← e1', hes] at hf1
  -- the manual backup copies it
  obtain ⟨_, src, hsrc, hbk, hdat⟩ := CreateManualBackup_ok_backup d1 o2
  rw [← e2'] at hbk hdat
  rw [hf1] at hsrc
  have hsrc' : src = ⟨b1, e1.write.time⟩ := (Option.some.inj hsrc).symm
  subst hsrc'
  -- the second save leaves the backup entry gone or holding the same bytes
  have hb3 : ∀ f, s3.fileManager.files.lookup (.backup backup) = some f → f.data = b1 := by
    intro f hf
    rcases (SaveData_entries L s2 e3 p2 d2 hshort).2 backup with h | h | ⟨src, hs, h⟩
    · rw [← e3', hf] at h
      cases h
    · rw [← e3', hf, hbk] at h
      rw [Option.some.inj h]
    · rw [← e3', hf] at h
      rw [hdat] at hs
      rw [Option.some.inj h, ← Option.some.inj hs]
  -- the restore writes the bytes of the backup entry to the data file
  obtain ⟨f, hf, hf4⟩ := RestoreFromBackup_ok_data o4
  rw [← e4', d3] at hf4
  rw [hb3 f hf] at hf4
  rw [LoadData_of_file d4 hlock hread hf4, k4]
  simp only
  rw [Decrypt_of_Encrypt hL hE]

theorem backup_restore_roundtrip_witness :
    toyLib.Lawful ∧
    sampleStorage.SaveData toyLib (healthySave (7 * second)) samplePayload =
      (savedStorage, .ok ()) ∧
    savedStorage.CreateManualBackup toyLib (healthyManualBackup (7 * second)) =
      (backedUpStorage, .ok "tasks_backup_7.enc") ∧
    backedUpStorage.SaveData toyLib (healthySave (7 * second)) samplePayload2 =
      (resavedStorage, .ok ()) ∧
    resavedStorage.RestoreFromBackup toyLib (healthyRestore (7 * second))
      "tasks_backup_7.enc" = (restoredStorage, .ok ()) ∧
    (restoredStorage.LoadData toyLib healthyLoad).2 = .ok samplePayload :=
  ⟨toyLib_lawful, rfl, rfl, rfl, rfl,
    backup_restore_roundtrip toyLib toyLib_lawful sampleStorage savedStorage backedUpStorage
      resavedStorage restoredStorage (healthySave (7 * second)) (healthySave (7 * second))
      (healthyManualBackup (7 * second)) (healthyRestore (7 * second)) healthyLoad
      samplePayload samplePayload2 "tasks_backup_7.enc" rfl rfl rfl rfl
      (fun m h => by cases h) rfl rfl rfl⟩

/-! ## Every stored file is an encrypted blob -/

theorem not_short_of_isShort {r : WriteResult} (h : r.isShort = false) :
    ∀ m, r ≠ .short m := by
  intro m hm
  rw [hm] at h
  cases h

theorem apply_config (L : Lib) (es : EncryptedStorage) (op : Op) :
    (es.apply L op).dataFile = es.dataFile ∧
    (es.apply L op).cryptoService = es.cryptoService ∧
    (es.apply L op).retentionDays = es.retentionDays := by
  cases op with
  | save e p => exact SaveData_config L es e p
  | backup e => exact CreateManualBackup_config L es e
  | restore e n => exact RestoreFromBackup_config L es e n
  | load e => exact LoadData_config L es e

/-- Each call keeps every stored file an encrypted blob, unless the write of its
backup copy is cut short. -/
theorem apply_FilesAreBlobs (L : Lib) (es : EncryptedStorage) (op : Op)
    (hes : es.dataFile = DefaultDataFile) (hop : op.backupCutShort = false)
    (h : es.FilesAreBlobs L) : (es.apply L op).FilesAreBlobs L := by
  obtain ⟨hd, hb⟩ := h
  have hc := (apply_config L es op).2.1
  unfold EncryptedStorage.FilesAreBlobs
  rw [hc]
  cases op with
  | save e p =>
    have hs := not_short_of_isShort (show e.backup.write.isShort = false from hop)
    obtain ⟨h1, h2⟩ := SaveData_entries L es e p hes hs
    refine ⟨fun f hf => ?_, fun n f hf => ?_⟩
    · rcases h1 with h1 | ⟨blob, hE, h1⟩
      · exact hd f (h1 ▸ hf)
      · have : f.data = blob := by
          have h3 := hf.symm.trans h1
          rw [Option.some.inj h3]
        rw [this]
        exact ⟨e.encrypt, p, (Encrypt_ok_inv hE).1, hE⟩
    · rcases h2 n with h2 | h2 | ⟨src, hs2, h2⟩
      · have h3 := hf.symm.trans h2
        cases h3
      · exact hb n f (h2 ▸ hf)
      · have : f.data = src.data := by
          have h3 := hf.symm.trans h2
          rw [Option.some.inj h3]
        rw [this]
        exact hd src hs2
  | backup e =>
    have hs := not_short_of_isShort (show e.backup.write.isShort = false from hop)
    obtain ⟨h1, h2⟩ := CreateManualBackup_entries L es e hes hs
    refine ⟨fun f hf => hd f (h1 ▸ hf), fun n f hf => ?_⟩
    rcases h2 n with h2 | ⟨src, hs2, h2⟩
    · exact hb n f (h2 ▸ hf)
    · have : f.data = src.data := by
        have h3 := hf.symm.trans h2
        rw [Option.some.inj h3]
      rw [this]
      exact hd src hs2
  | restore e name =>
    have hs := not_short_of_isShort (show e.backup.write.isShort = false from hop)
    obtain ⟨h1, h2⟩ := RestoreFromBackup_entries L es e name hes hs
    refine ⟨fun f hf => ?_, fun n f hf => ?_⟩
    · rcases h1 with h1 | ⟨g, d, hg, _, h1⟩
      · exact hd f (h1 ▸ hf)
      · have : f.data = g.data := by
          have h3 := hf.symm.trans h1
          rw [Option.some.inj h3]
        rw [this]
        exact hb name g hg
    · rcases h2 n with h2 | ⟨src, hs2, h2⟩
      · exact hb n f (h2 ▸ hf)
      · have : f.data = src.data := by
          have h3 := hf.symm.trans h2
          rw [Option.some.inj h3]
        rw [this]
        exact hd src hs2
  | load e =>
    refine ⟨fun f hf => ?_, fun n f hf => ?_⟩
    · exact hd f ((LoadData_lookup L es e default_ne_lock) ▸ hf)
    · exact hb n f ((LoadData_lookup L es e (backup_ne_lock n)) ▸ hf)

theorem run_FilesAreBlobs (L : Lib) (ops : List Op) :
    ∀ es : EncryptedStorage, es.dataFile = DefaultDataFile →
      (∀ op ∈ ops, op.backupCutShort = false) → es.FilesAreBlobs L →
      (es.run L ops).dataFile = DefaultDataFile ∧ (es.run L ops).FilesAreBlobs L := by
  induction ops with
  | nil =>
    intro es hes _ h
    exact ⟨hes, h⟩
  | cons op rest ih =>
    intro es hes hops h
    have hop := hops op (List.mem_cons_self _ _)
    exact ih (es.apply L op) ((apply_config L es op).1.trans hes)
      (fun o ho => hops o (List.mem_cons_of_mem _ ho)) (apply_FilesAreBlobs L es op hes hop h)

/-- What `LoadData` can return: a lock error, the empty JSON array, a read
error, or what `Decrypt` makes of the bytes of the data file. -/
theorem LoadData_result (L : Lib) (es : EncryptedStorage) (e : LoadEnv)
    (hes : es.dataFile = DefaultDataFile) :
    (∃ err, (es.LoadData L e).2 = .error (.wrap "failed to acquire lock" err)) ∨
    (es.LoadData L e).2 = .ok emptyJSONArray ∨
    (∃ err, (es.LoadData L e).2 = .error (.wrap "failed to read encrypted data" err)) ∨
    ∃ f, es.fileManager.files.lookup (.data DefaultDataFile) = some f ∧
      (es.LoadData L e).2 =
        match es.cryptoService.Decrypt L f.data with
        | .error err => .error (.wrap "failed to decrypt data" err)
        | .ok d => .ok d := by
  unfold EncryptedStorage.LoadData
  rcases hL : es.fileManager.Lock e.lock with ⟨fm1, r⟩
  have hd1 := Lock_eq_lookup hL default_ne_lock
  cases r with
  | error err =>
    left
    exact ⟨err, rfl⟩
  | ok u =>
    right
    simp only [hes]
    cases hf : es.fileManager.files.lookup (.data DefaultDataFile) with
    | none =>
      left
      rw [hf] at hd1
      simp [FileManager.FileExists, hd1]
    | some f =>
      right
      rw [hf] at hd1
      have hne : DefaultDataFile ≠ "" := by decide
      cases hr : e.readFails
      · right
        refine ⟨f, rfl, ?_⟩
        simp [FileManager.FileExists, FileManager.ReadFile, RelPath.isEmpty, hd1, hr, hne]
      · left
        refine ⟨.wrap ("failed to read file " ++ (RelPath.data DefaultDataFile).path)
          (.sys "read"), ?_⟩
        simp [FileManager.FileExists, FileManager.ReadFile, RelPath.isEmpty, hd1, hr, hne]

theorem run_config (L : Lib) (ops : List Op) :
    ∀ es : EncryptedStorage, (es.run L ops).cryptoService = es.cryptoService := by
  induction ops with
  | nil => intro es; rfl
  | cons op rest ih =>
    intro es
    exact (ih (es.apply L op)).trans (apply_config L es op).2.1

/-- What a `SaveData` call, whatever its outcome and its environment, makes of
the data file: it is as before or holds the blob `Encrypt` returned for the
payload. -/
theorem SaveData_data (L : Lib) (es : EncryptedStorage) (e : SaveEnv) (p : List Byte)
    (hes : es.dataFile = DefaultDataFile) :
    (es.SaveData L e p).1.fileManager.files.lookup (.data DefaultDataFile) =
        es.fileManager.files.lookup (.data DefaultDataFile) ∨
      ∃ blob, es.cryptoService.Encrypt L e.encrypt p = .ok blob ∧
        (es.SaveData L e p).1.fileManager.files.lookup (.data DefaultDataFile) =
          some ⟨blob, e.write.time⟩ := by
  rcases SaveData_cases L es e p with h | h | ⟨fm1, hLk, h⟩
  · rw [h]
    exact Or.inl rfl
  · rw [h]
    exact Or.inl (Lock_lookup _ _ default_ne_lock)
  · have hd1 := Lock_eq_lookup hLk default_ne_lock
    have hAd := afterBackup_lookup_data L es fm1 e.backup DefaultDataFile
    rcases h with h | ⟨blob, hE, ⟨⟨err, hW⟩, h⟩ | ⟨hW, h⟩⟩
    · rw [h]
      simp only
      rw [(Unlock_files _ e.unlock).1]
      exact Or.inl (by rw [hAd, hd1])
    · rw [h]
      simp only
      rw [(Unlock_files _ e.unlock).1]
      left
      have := WriteFile_error hW
      rw [hes] at this
      rw [hes, this, hAd, hd1]
    · rw [h]
      simp only
      rw [(Unlock_files _ e.unlock).1]
      refine Or.inr ⟨blob, hE, ?_⟩
      rw [DeleteOldBackups_lookup_data]
      have := (WriteFile_ok hW).1
      rw [hes] at this
      rw [hes]
      exact this

/-- A `CreateManualBackup` call, whatever its outcome and its environment,
leaves the data file as it was. -/
theorem CreateManualBackup_data (L : Lib) (es : EncryptedStorage) (e : ManualBackupEnv) :
    (es.CreateManualBackup L e).1.fileManager.files.lookup (.data DefaultDataFile) =
      es.fileManager.files.lookup (.data DefaultDataFile) := by
  rcases CreateManualBackup_cases L es e with h | ⟨fm1, hLk, h⟩
  · rw [h]
    exact Lock_lookup _ _ default_ne_lock
  · rw [h]
    simp only
    rw [(Unlock_files _ e.unlock).1, afterBackup_lookup_data,
      Lock_eq_lookup hLk default_ne_lock]

/-- What a `RestoreFromBackup` call, whatever its outcome and its environment,
makes of the data file: it is as before or holds the bytes of a backup file
that `Decrypt` accepted. -/
theorem RestoreFromBackup_data (L : Lib) (es : EncryptedStorage) (e : RestoreEnv)
    (name : String) (hes : es.dataFile = DefaultDataFile) :
    (es.RestoreFromBackup L e name).1.fileManager.files.lookup (.data DefaultDataFile) =
        es.fileManager.files.lookup (.data DefaultDataFile) ∨
      ∃ f d, es.fileManager.files.lookup (.backup name) = some f ∧
        es.cryptoService.Decrypt L f.data = .ok d ∧
        (es.RestoreFromBackup L e name).1.fileManager.files.lookup (.data DefaultDataFile) =
          some ⟨f.data, e.write.time⟩ := by
  rcases RestoreFromBackup_cases L es e name with h | h | ⟨fm1, hLk, h⟩
  · rw [h]
    exact Or.inl rfl
  · rw [h]
    exact Or.inl (Lock_lookup _ _ default_ne_lock)
  · have hd1 := Lock_eq_lookup hLk default_ne_lock
    have hb1 := Lock_eq_lookup hLk (backup_ne_lock name)
    have hAd := afterBackup_lookup_data L es fm1 e.backup DefaultDataFile
    rcases h with h | ⟨f, d, hf, hD, h | ⟨⟨err, hW⟩, h⟩ | ⟨hW, h⟩⟩
    · rw [h]
      simp only
      rw [(Unlock_files _ e.unlock).1]
      exact Or.inl hd1
    · rw [h]
      simp only
      rw [(Unlock_files _ e.unlock).1]
      exact Or.inl (by rw [hAd, hd1])
    · rw [h]
      simp only
      rw [(Unlock_files _ e.unlock).1]
      left
      have := WriteFile_error hW
      rw [hes] at this
      rw [hes, this, hAd, hd1]
    · rw [h]
      simp only
      rw [(Unlock_files _ e.unlock).1]
      refine Or.inr ⟨f, d, ?_, hD, ?_⟩
      · rw [← hb1]
        exact hf
      · have := (WriteFile_ok hW).1
        rw [hes] at this
        rw [hes]
        exact this

/-- Each call, whatever its outcome and its environment, keeps the data file
decryptable. -/
theorem apply_DataDecrypts (L : Lib) (hL : L.Lawful) (es : EncryptedStorage) (op : Op)
    (hes : es.dataFile = DefaultDataFile) (h : es.DataDecrypts L) :
    (es.apply L op).DataDecrypts L := by
  have hc := (apply_config L es op).2.1
  unfold EncryptedStorage.DataDecrypts
  rw [hc]
  intro f hf
  cases op with
  | save e p =>
    rcases SaveData_data L es e p hes with h1 | ⟨blob, hE, h1⟩
    · exact h f (h1 ▸ hf)
    · have h3 := hf.symm.trans h1
      have : f.data = blob := by rw [Option.some.inj h3]
      rw [this]
      exact ⟨p, Decrypt_of_Encrypt hL hE⟩
  | backup e => exact h f ((CreateManualBackup_data L es e) ▸ hf)
  | restore e name =>
    rcases RestoreFromBackup_data L es e name hes with h1 | ⟨g, d, _, hD, h1⟩
    · exact h f (h1 ▸ hf)
    · have h3 := hf.symm.trans h1
      have : f.data = g.data := by rw [Option.some.inj h3]
      rw [this]
      exact ⟨d, hD⟩
  | load e => exact h f ((LoadData_lookup L es e default_ne_lock) ▸ hf)

theorem run_DataDecrypts (L : Lib) (hL : L.Lawful) (ops : List Op) :
    ∀ es : EncryptedStorage, es.dataFile = DefaultDataFile → es.DataDecrypts L →
      (es.run L ops).DataDecrypts L := by
  induction ops with
  | nil =>
    intro es _ h
    exact h
  | cons op rest ih =>
    intro es hes h
    exact ih (es.apply L op) ((apply_config L es op).1.trans hes)
      (apply_DataDecrypts L hL es op hes h)

theorem run_dataFile (L : Lib) (ops : List Op) :
    ∀ es : EncryptedStorage, (es.run L ops).dataFile = es.dataFile := by
  induction ops with
  | nil => intro es; rfl
  | cons op rest ih =>
    intro es
    exact (ih (es.apply L op)).trans (apply_config L es op).1

/-- C4, as amended: in every state reached from an empty data directory by any
sequence of `SaveData`, `CreateManualBackup`, `RestoreFromBackup` and
`LoadData` calls (whatever their arguments, clock readings, random draws,
failures and results) on one storage with a fixed password, the data file, if
present, decrypts under that password, and `LoadData`, whatever its
environment, returns no decryption error; and when no write of a backup copy
was cut short during these calls, the data file, if present, and every file in
`backups` is a blob that `Encrypt` produced under that password from a
non-empty payload, and `LoadData` never returns an empty byte sequence. -/
theorem reachable_files_are_blobs (L : Lib) (hL : L.Lawful) (fm0 : FileManager)
    (hempty : fm0.files = ∅) (password : List Byte) (ops : List Op) :
    (∀ f, ((NewEncryptedStorage fm0 password).run L ops).fileManager.files.lookup
        (.data DefaultDataFile) = some f →
      ∃ d, (NewCryptoService password).Decrypt L f.data = .ok d) ∧
    (∀ (e : LoadEnv) (err : Error),
      (((NewEncryptedStorage fm0 password).run L ops).LoadData L e).2 ≠
        .error (.wrap "failed to decrypt data" err)) ∧
    ((∀ op ∈ ops, op.backupCutShort = false) →
      (∀ f, ((NewEncryptedStorage fm0 password).run L ops).fileManager.files.lookup
          (.data DefaultDataFile) = some f →
        IsEncryptBlob L (NewCryptoService password) f.data) ∧
      (∀ n f, ((NewEncryptedStorage fm0 password).run L ops).fileManager.files.lookup
          (.backup n) = some f →
        IsEncryptBlob L (NewCryptoService password) f.data) ∧
      (∀ e : LoadEnv,
        (((NewEncryptedStorage fm0 password).run L ops).LoadData L e).2 ≠ .ok [])) := by
  have hc : ((NewEncryptedStorage fm0 password).run L ops).cryptoService =
      NewCryptoService password := run_config L ops _
  have hes : ((NewEncryptedStorage fm0 password).run L ops).dataFile = DefaultDataFile :=
    run_dataFile L ops _
  have hD0 : (NewEncryptedStorage fm0 password).DataDecrypts L := by
    intro f hf
    simp [NewEncryptedStorage, hempty] at hf
  have hD := run_DataDecrypts L hL ops (NewEncryptedStorage fm0 password) rfl hD0
  unfold EncryptedStorage.DataDecrypts at hD
  rw [hc] at hD
  refine ⟨hD, fun e err => ?_, fun hops => ?_⟩
  · rcases LoadData_result L _ e hes with ⟨err1, h⟩ | h | ⟨err1, h⟩ | ⟨f, hf, h⟩
    · rw [h]
      intro hc2
      simp at hc2
    · rw [h]
      intro hc2
      cases hc2
    · rw [h]
      intro hc2
      simp at hc2
    · obtain ⟨d, hd⟩ := hD f hf
      rw [h, hc, hd]
      intro hc2
      cases hc2
  · have h0 : (NewEncryptedStorage fm0 password).FilesAreBlobs L := by
      constructor
      · intro f hf
        simp [NewEncryptedStorage, hempty] at hf
      · intro n f hf
        simp [NewEncryptedStorage, hempty] at hf
    obtain ⟨_, hd, hb⟩ :=
      run_FilesAreBlobs L ops (NewEncryptedStorage fm0 password) rfl hops h0
    rw [hc] at hd hb
    refine ⟨hd, hb, fun e => ?_⟩
    rcases LoadData_result L _ e hes with ⟨err, h⟩ | h | ⟨err, h⟩ | ⟨f, hf, h⟩
    · rw [h]
      exact fun hc2 => by cases hc2
    · rw [h]
      exact fun hc2 => by simp [emptyJSONArray] at hc2
    · rw [h]
      exact fun hc2 => by cases hc2
    · obtain ⟨env, p, hp, hE⟩ := hd f hf
      rw [h, hc, Decrypt_of_Encrypt hL hE]
      exact fun hc2 => hp (Except.ok.inj hc2)

theorem reachable_files_are_blobs_witness :
    toyLib.Lawful ∧ emptyDir.files = ∅ ∧ (∀ op ∈ sampleOps, op.backupCutShort = false) ∧
    ((NewEncryptedStorage emptyDir samplePassword).run toyLib sampleOps).fileManager.files.lookup
      (.data DefaultDataFile) = some ⟨sampleBlob, 7 * second⟩ ∧
    IsEncryptBlob toyLib (NewCryptoService samplePassword) sampleBlob ∧
    (((NewEncryptedStorage emptyDir samplePassword).run toyLib sampleOps).LoadData toyLib
      healthyLoad).2 ≠ .ok [] ∧
    (∀ (e : LoadEnv) (err : Error),
      (((NewEncryptedStorage emptyDir samplePassword).run toyLib truncatedBackupOps).LoadData
        toyLib e).2 ≠ .error (.wrap "failed to decrypt data" err)) :=
  have hops : ∀ op ∈ sampleOps, op.backupCutShort = false := by
    intro op hop
    simp only [sampleOps, List.mem_cons, List.mem_singleton, List.not_mem_nil, or_false] at hop
    rcases hop with rfl | rfl | rfl | rfl | rfl | rfl <;> rfl
  have h := reachable_files_are_blobs toyLib toyLib_lawful emptyDir rfl samplePassword
    sampleOps
  ⟨toyLib_lawful, rfl, hops, rfl, (h.2.2 hops).1 ⟨sampleBlob, 7 * second⟩ rfl,
    (h.2.2 hops).2.2 healthyLoad,
    (reachable_files_are_blobs toyLib toyLib_lawful emptyDir rfl samplePassword
      truncatedBackupOps).2.1⟩

/-! ## Malformed and empty inputs of the crypto service -/

/-- C13: for every password and every blob, `Decrypt` returns the error
`encrypted data too short` if and only if the blob has fewer than 16+12+16 = 44
bytes; for every blob of 44 bytes or more the split is in range: bytes 0..15
are a 16-byte salt, bytes 16..27 a 12-byte IV, the rest from byte 28 on has at
least the 16 bytes of a tag, and the three parts together are the blob. -/
theorem Decrypt_too_short_iff (L : Lib) (c : CryptoService) (b : List Byte) :
    (c.Decrypt L b = .error (.msg "encrypted data too short") ↔ b.length < 16 + 12 + 16) ∧
    (44 ≤ b.length →
      SaltSize + IVSize ≤ b.length ∧
      (slice b 0 SaltSize).length = 16 ∧
      (slice b SaltSize (SaltSize + IVSize)).length = 12 ∧
      16 ≤ (b.drop (SaltSize + IVSize)).length ∧
      slice b 0 SaltSize ++ slice b SaltSize (SaltSize + IVSize) ++
        b.drop (SaltSize + IVSize) = b) := by
  constructor
  · unfold CryptoService.Decrypt
    by_cases h : b.length < SaltSize + IVSize + TagSize
    · have h2 : b.length < 16 + 12 + 16 := h
      simp [h, h2]
    · have h2 : ¬ b.length < 16 + 12 + 16 := h
      simp only [h, h2, if_false, iff_false]
      split
      · simp
      · split
        · simp
        · split <;> simp
  · intro h
    simp only [slice, SaltSize, IVSize, List.length_take, List.length_drop, List.drop_zero]
    refine ⟨by omega, by omega, by omega, by omega, ?_⟩
    have h1 : List.take (16 + 12 - 16) (List.drop 16 b) = List.take 12 (List.drop 16 b) := rfl
    have h2 : List.drop (16 + 12) b = List.drop 12 (List.drop 16 b) := by
      rw [List.drop_drop]
    rw [h1, h2, List.append_assoc, List.take_append_drop, List.take_append_drop]

/-- C14: for every password and whatever the random generator does, `Encrypt`
returns the error `plaintext cannot be empty`, and no blob, for the empty
plaintext; for a non-empty plaintext, when both draws of the random generator
succeed, it returns a blob and no error. -/
theorem Encrypt_empty_or_blob (L : Lib) (hL : L.Lawful) (c : CryptoService) :
    (∀ env, c.Encrypt L env [] = .error (.msg "plaintext cannot be empty")) ∧
    (∀ p : List Byte, p ≠ [] → ∀ g1 g2 : Nat → Byte,
      ∃ b, c.Encrypt L { salt := some g1, iv := some g2 } p = .ok b) := by
  constructor
  · intro env
    simp [CryptoService.Encrypt]
  · intro p hp g1 g2
    exact ⟨_, Encrypt_ok hL c g1 g2 hp⟩

theorem Encrypt_empty_or_blob_witness :
    toyLib.Lawful ∧
    (∀ env, sampleCrypto.Encrypt toyLib env [] = .error (.msg "plaintext cannot be empty")) ∧
    (∃ b, sampleCrypto.Encrypt toyLib { salt := some (fun _ => 3), iv := some (fun _ => 5) }
      samplePayload = .ok b) :=
  have h := Encrypt_empty_or_blob toyLib toyLib_lawful sampleCrypto
  ⟨toyLib_lawful, h.1, h.2 samplePayload (by decide) (fun _ => 3) (fun _ => 5)⟩

/-- C15: for the same password and the same plaintext, whenever the pairs of
salt and IV drawn in two `Encrypt` calls differ, the two returned blobs
differ. -/
theorem Encrypt_outputs_differ (L : Lib) (c : CryptoService) (p : List Byte)
    (env1 env2 : EncryptEnv) (b1 b2 s1 v1 s2 v2 : List Byte)
    (h1 : c.Encrypt L env1 p = .ok b1) (h2 : c.Encrypt L env2 p = .ok b2)
    (hs1 : CryptoService.generateSalt env1.salt = .ok s1)
    (hv1 : CryptoService.generateIV env1.iv = .ok v1)
    (hs2 : CryptoService.generateSalt env2.salt = .ok s2)
    (hv2 : CryptoService.generateIV env2.iv = .ok v2)
    (hne : (s1, v1) ≠ (s2, v2)) : b1 ≠ b2 := by
  obtain ⟨_, s1', v1', hs1', hv1', rfl⟩ := Encrypt_ok_inv h1
  obtain ⟨_, s2', v2', hs2', hv2', rfl⟩ := Encrypt_ok_inv h2
  rw [hs1] at hs1'
  rw [hv1] at hv1'
  rw [hs2] at hs2'
  rw [hv2] at hv2'
  cases hs1'
  cases hv1'
  cases hs2'
  cases hv2'
  intro hb
  have l1 := generateSalt_length hs1
  have l2 := generateIV_length hv1
  have l3 := generateSalt_length hs2
  have l4 := generateIV_length hv2
  obtain ⟨a1, a2, _⟩ := blob_split (L := L) c p l1 l2
  obtain ⟨a3, a4, _⟩ := blob_split (L := L) c p l3 l4
  rw [hb] at a1 a2
  exact hne (by rw [← a1, ← a2, a3, a4])

theorem Encrypt_outputs_differ_witness :
    (∃ b1 b2,
      sampleCrypto.Encrypt toyLib { salt := some (fun _ => 3), iv := some (fun _ => 5) }
        samplePayload = .ok b1 ∧
      sampleCrypto.Encrypt toyLib { salt := some (fun _ => 3), iv := some (fun _ => 6) }
        samplePayload = .ok b2 ∧ b1 ≠ b2) :=
  ⟨_, _, rfl, rfl,
    Encrypt_outputs_differ toyLib sampleCrypto samplePayload
      { salt := some (fun _ => 3), iv := some (fun _ => 5) }
      { salt := some (fun _ => 3), iv := some (fun _ => 6) } _ _ _ _ _ _ rfl rfl rfl rfl rfl rfl
      (by decide)⟩

/-! ## Loading without a data file, restoring, saving with failing side work -/

/-- C16: for every data directory without a data file, when the lock is
acquired, `LoadData` returns exactly the two bytes `[]` and no error; there is
no data file afterwards either, and every file other than the lock file (every
backup in particular) is as before. -/
theorem LoadData_no_data_file (L : Lib) (es : EncryptedStorage) (e : LoadEnv)
    (hes : es.dataFile = DefaultDataFile)
    (hnone : es.fileManager.files.lookup (.data DefaultDataFile) = none)
    (hlock : (es.fileManager.Lock e.lock).2 = .ok ()) :
    (es.LoadData L e).2 = .ok [91, 93] ∧
    (es.LoadData L e).1.fileManager.files.lookup (.data DefaultDataFile) = none ∧
    (∀ n, (es.LoadData L e).1.fileManager.files.lookup (.backup n) =
      es.fileManager.files.lookup (.backup n)) ∧
    (∀ k, k ≠ .data lockFileName →
      (es.LoadData L e).1.fileManager.files.lookup k = es.fileManager.files.lookup k) := by
  refine ⟨?_, ?_, fun n => LoadData_lookup L es e (backup_ne_lock n),
    fun k hk => LoadData_lookup L es e hk⟩
  · unfold EncryptedStorage.LoadData
    rcases hL : es.fileManager.Lock e.lock with ⟨fm1, r⟩
    have hd1 := Lock_eq_lookup hL default_ne_lock
    rw [hL] at hlock
    simp only at hlock
    subst hlock
    rw [hnone] at hd1
    have hd2 : fm1.files.lookup (.data es.dataFile) = none := by rw [hes]; exact hd1
    simp [FileManager.FileExists, hd2, emptyJSONArray]
  · rw [LoadData_lookup L es e default_ne_lock]
    exact hnone

theorem LoadData_no_data_file_witness :
    sampleStorage.dataFile = DefaultDataFile ∧
    sampleStorage.fileManager.files.lookup (.data DefaultDataFile) = none ∧
    (sampleStorage.fileManager.Lock healthyLoad.lock).2 = .ok () ∧
    (sampleStorage.LoadData toyLib healthyLoad).2 = .ok [91, 93] ∧
    (sampleStorage.LoadData toyLib healthyLoad).1.fileManager.files.lookup
      (.data DefaultDataFile) = none :=
  have h := LoadData_no_data_file toyLib sampleStorage healthyLoad rfl rfl rfl
  ⟨rfl, rfl, rfl, h.1, h.2.1⟩

/-- C17: after every successful `RestoreFromBackup(name)` the data file holds
byte for byte what `backups/name` held when the call started: the blob is
copied as it is (it was only decrypted to check it), so salt, IV and tag are
those of the backup. -/
theorem RestoreFromBackup_copies_raw (L : Lib) (es : EncryptedStorage) (e : RestoreEnv)
    (name : String) (h : (es.RestoreFromBackup L e name).2 = .ok ()) :
    ∃ f, es.fileManager.files.lookup (.backup name) = some f ∧
      ((es.RestoreFromBackup L e name).1.fileManager.files.lookup
        (.data es.dataFile)).map File.data = some f.data := by
  obtain ⟨f, hf, hd⟩ := RestoreFromBackup_ok_data h
  exact ⟨f, hf, by rw [hd]; rfl⟩

theorem RestoreFromBackup_copies_raw_witness :
    (resavedStorage.RestoreFromBackup toyLib (healthyRestore (7 * second))
      "tasks_backup_7.enc").2 = .ok () ∧
    ∃ f, resavedStorage.fileManager.files.lookup (.backup "tasks_backup_7.enc") = some f ∧
      ((resavedStorage.RestoreFromBackup toyLib (healthyRestore (7 * second))
        "tasks_backup_7.enc").1.fileManager.files.lookup
          (.data resavedStorage.dataFile)).map File.data = some f.data :=
  ⟨rfl, RestoreFromBackup_copies_raw toyLib resavedStorage (healthyRestore (7 * second))
    "tasks_backup_7.enc" rfl⟩

theorem panicOf_none_of_ne {α : Type} {r : Except Error α}
    (h : ∀ text, r ≠ .error (.panic text)) : panicOf r = none := by
  cases r with
  | ok a => rfl
  | error err =>
    cases err with
    | panic text => exact absurd rfl (h text)
    | msg t => rfl
    | wrap t c => rfl
    | notExist => rfl
    | sys c => rfl

theorem panicOf_backup_default (L : Lib) (fm1 : FileManager) (e : BackupEnv) :
    panicOf (if fm1.FileExists DefaultDataFile = true then
      fm1.CreateBackup L DefaultDataFile e else (fm1, .ok "")).2 = none := by
  split
  · exact panicOf_none_of_ne (CreateBackup_default_no_panic L fm1 e)
  · rfl

theorem WriteFile_healthy {fm : FileManager} {f : String} {d : List Byte} {e : WriteEnv}
    (hf : f ≠ "") (h1 : e.mkdir.dataDirFails = false) (h2 : e.mkdir.backupDirFails = false)
    (h3 : e.tmpWrite = .ok) (h4 : e.renameFails = false) :
    (fm.WriteFile f d e).2 = .ok () := by
  unfold FileManager.WriteFile FileManager.WriteFileRun FileManager.ensureDataDir
    FileManager.ensureDataDirRun
  simp [hf, h1, h2, h3, h4]

/-- C18: for every valid non-empty JSON payload `p`, when the lock is acquired,
the encryption succeeds and every step of the write of the data file succeeds,
`SaveData` returns success and the data file decrypts to `p`, whatever happens
to the backup taken before the write (not taken, failed, cut short) and to the
retention sweep (failed as a whole, or single deletions failed). -/
theorem SaveData_secondary_failures (L : Lib) (hL : L.Lawful) (es : EncryptedStorage)
    (e : SaveEnv) (p blob : List Byte)
    (hes : es.dataFile = DefaultDataFile)
    (hp : p ≠ []) (hj : L.jsonValid p = true)
    (hlock : (es.fileManager.Lock e.lock).2 = .ok ())
    (henc : es.cryptoService.Encrypt L e.encrypt p = .ok blob)
    (hmk1 : e.write.mkdir.dataDirFails = false) (hmk2 : e.write.mkdir.backupDirFails = false)
    (htmp : e.write.tmpWrite = .ok) (hren : e.write.renameFails = false) :
    (es.SaveData L e p).2 = .ok () ∧
    ∃ f, (es.SaveData L e p).1.fileManager.files.lookup (.data DefaultDataFile) = some f ∧
      es.cryptoService.Decrypt L f.data = .ok p := by
  have hok : (es.SaveData L e p).2 = .ok () := by
    unfold EncryptedStorage.SaveData
    have hlen : ¬ p.length = 0 := fun h => hp (List.length_eq_zero.mp h)
    rcases hLk : es.fileManager.Lock e.lock with ⟨fm1, r⟩
    rw [hLk] at hlock
    simp only at hlock
    subst hlock
    simp only [hlen, hj, hes, henc, panicOf_backup_default, if_false, Bool.true_eq_false]
    have hW := @WriteFile_healthy (if fm1.FileExists DefaultDataFile = true then
      fm1.CreateBackup L DefaultDataFile e.backup else (fm1, .ok "")).1 DefaultDataFile blob
      e.write (by decide) hmk1 hmk2 htmp hren
    rcases hWr : (if fm1.FileExists DefaultDataFile = true then
      fm1.CreateBackup L DefaultDataFile e.backup else (fm1, .ok "")).1.WriteFile
        DefaultDataFile blob e.write with ⟨fm3, rw3⟩
    rw [hWr] at hW
    simp only at hW
    subst hW
    rfl
  refine ⟨hok, ?_⟩
  obtain ⟨blob2, hE, hf, _⟩ := SaveData_ok_data hok
  rw [henc] at hE
  cases hE
  rw [hes] at hf
  exact ⟨_, hf, Decrypt_of_Encrypt hL henc⟩

theorem SaveData_secondary_failures_witness :
    toyLib.Lawful ∧ savedStorage.dataFile = DefaultDataFile ∧ samplePayload2 ≠ [] ∧
    toyLib.jsonValid samplePayload2 = true ∧
    (savedStorage.fileManager.Lock (degradedSave (9 * second)).lock).2 = .ok () ∧
    (savedStorage.SaveData toyLib (degradedSave (9 * second)) samplePayload2).2 = .ok () ∧
    ∃ f, (savedStorage.SaveData toyLib (degradedSave (9 * second))
        samplePayload2).1.fileManager.files.lookup (.data DefaultDataFile) = some f ∧
      savedStorage.cryptoService.Decrypt toyLib f.data = .ok samplePayload2 :=
  ⟨toyLib_lawful, rfl, by decide, rfl, rfl,
    SaveData_secondary_failures toyLib toyLib_lawful savedStorage (degradedSave (9 * second))
      samplePayload2 _ rfl (by decide) rfl rfl rfl rfl rfl rfl rfl⟩

/-! ## Manual backup -/

/-- C20: `CreateManualBackup` returns an error and leaves every backup entry as
it was when no data file exists; when the data file exists, the lock is
acquired and reading the data file and writing the copy succeed, it returns the
name `tasks_backup_<YYYYMMDD_HHMMSS>.enc`, the backup file of that name holds
exactly the bytes of the data file, and the data file is unchanged. -/
theorem CreateManualBackup_contract (L : Lib) (es : EncryptedStorage) (e : ManualBackupEnv)
    (hes : es.dataFile = DefaultDataFile) :
    (es.fileManager.files.lookup (.data DefaultDataFile) = none →
      (∃ err, (es.CreateManualBackup L e).2 = .error err) ∧
      ∀ n, (es.CreateManualBackup L e).1.fileManager.files.lookup (.backup n) =
        es.fileManager.files.lookup (.backup n)) ∧
    (∀ src, es.fileManager.files.lookup (.data DefaultDataFile) = some src →
      (es.fileManager.Lock e.lock).2 = .ok () →
      e.backup.readFails = false → e.backup.write = .ok →
      (es.CreateManualBackup L e).2 =
        .ok ("tasks_backup_" ++ L.timeFormat e.backup.now ++ ".enc") ∧
      (es.CreateManualBackup L e).1.fileManager.files.lookup
        (.backup ("tasks_backup_" ++ L.timeFormat e.backup.now ++ ".enc")) =
          some ⟨src.data, e.backup.time⟩ ∧
      (es.CreateManualBackup L e).1.fileManager.files.lookup (.data DefaultDataFile) =
        some src) := by
  constructor
  · intro hnone
    constructor
    · unfold EncryptedStorage.CreateManualBackup
      rcases hL : es.fileManager.Lock e.lock with ⟨fm1, r⟩
      have hd1 := Lock_eq_lookup hL default_ne_lock
      rw [hnone] at hd1
      cases r with
      | error err => exact ⟨_, rfl⟩
      | ok u =>
        have hx : fm1.FileExists es.dataFile = false := by
          rw [hes]
          simp [FileManager.FileExists, hd1]
        simp only [hx, if_true]
        exact ⟨_, rfl⟩
    · intro n
      rcases CreateManualBackup_cases L es e with h | ⟨fm1, hLk, h⟩
      · rw [h]
        exact Lock_lookup _ _ (backup_ne_lock n)
      · have hd1 := Lock_eq_lookup hLk default_ne_lock
        rw [hnone] at hd1
        have hx : fm1.FileExists es.dataFile = false := by
          rw [hes]
          simp [FileManager.FileExists, hd1]
        rw [h]
        simp only
        rw [(Unlock_files _ e.unlock).1]
        unfold EncryptedStorage.afterBackup
        simp only [hx, Bool.false_eq_true, if_false]
        exact Lock_eq_lookup hLk (backup_ne_lock n)
  · intro src hsrc hlock hread hwrite
    have hok : (es.CreateManualBackup L e).2 =
        .ok ("tasks_backup_" ++ L.timeFormat e.backup.now ++ ".enc") := by
      unfold EncryptedStorage.CreateManualBackup
      rcases hL : es.fileManager.Lock e.lock with ⟨fm1, r⟩
      have hd1 := Lock_eq_lookup hL default_ne_lock
      rw [hsrc] at hd1
      have hdir := Lock_ok_dirs hlock
      rw [hL] at hlock hdir
      simp only at hlock hdir
      subst hlock
      have hx : fm1.FileExists es.dataFile = true := by
        rw [hes]
        simp [FileManager.FileExists, hd1]
        decide
      have hB := @CreateBackup_healthy L fm1 DefaultDataFile e.backup src hd1 (by decide)
        (by decide) hdir hread hwrite
      rw [hes] at hx
      simp only [hes, hx, Bool.true_eq_false, if_false, hB, panicOf]
      rw [backupFileName_default]
    obtain ⟨_, src2, hs2, hb, hd⟩ := CreateManualBackup_ok_backup hes hok
    rw [hsrc] at hs2
    cases hs2
    exact ⟨hok, hb, hd⟩

theorem CreateManualBackup_contract_witness :
    (sampleStorage.dataFile = DefaultDataFile ∧
      sampleStorage.fileManager.files.lookup (.data DefaultDataFile) = none ∧
      ∃ err, (sampleStorage.CreateManualBackup toyLib
        (healthyManualBackup (7 * second))).2 = .error err) ∧
    (savedStorage.fileManager.files.lookup (.data DefaultDataFile) =
        some ⟨sampleBlob, 7 * second⟩ ∧
      (savedStorage.CreateManualBackup toyLib (healthyManualBackup (8 * second))).2 =
        .ok ("tasks_backup_" ++ toyLib.timeFormat (8 * second) ++ ".enc") ∧
      (savedStorage.CreateManualBackup toyLib
        (healthyManualBackup (8 * second))).1.fileManager.files.lookup
          (.backup ("tasks_backup_" ++ toyLib.timeFormat (8 * second) ++ ".enc")) =
        some ⟨sampleBlob, 8 * second⟩) :=
  have h1 := (CreateManualBackup_contract toyLib sampleStorage
    (healthyManualBackup (7 * second)) rfl).1 rfl
  have h2 := (CreateManualBackup_contract toyLib savedStorage
    (healthyManualBackup (8 * second)) rfl).2 ⟨sampleBlob, 7 * second⟩ rfl rfl rfl rfl
  ⟨⟨rfl, rfl, h1.1⟩, rfl, h2.1, h2.2.1⟩

/-! ## The name of a backup -/

/-- What `filepath.Ext` returns is empty or a suffix of the path. -/
theorem extScan_suffix (l : List Char) :
    ∀ acc : List Char, extScan l acc = [] ∨ ∃ pre, l.reverse ++ acc = pre ++ extScan l acc := by
  induction l with
  | nil => intro acc; left; rfl
  | cons c rest ih =>
    intro acc
    unfold extScan
    by_cases h1 : c = '/'
    · left
      simp [h1]
    · by_cases h2 : c = '.'
      · right
        refine ⟨rest.reverse, ?_⟩
        simp [h2]
      · rcases ih (c :: acc) with h | ⟨pre, h⟩
        · left
          simp [h1, h2, h]
        · right
          refine ⟨pre, ?_⟩
          simp only [h1, h2, if_false]
          rw [← h]
          simp

theorem Ext_enc_split {name : String} (h : Ext name = ".enc") :
    ∃ pre : List Char, name.data = pre ++ ['.', 'e', 'n', 'c'] := by
  have hd : extScan name.data.reverse [] = ['.', 'e', 'n', 'c'] := by
    have := congrArg String.data h
    simpa [Ext] using this
  rcases extScan_suffix name.data.reverse [] with h0 | ⟨pre, hp⟩
  · rw [hd] at h0
    cases h0
  · rw [hd] at hp
    simp only [List.reverse_reverse, List.append_nil] at hp
    exact ⟨pre, hp⟩

/-- For a name with the extension `.enc`, the name the code builds is the name
in the words of the specification. -/
theorem backupFileName_eq_spec {name : String} (h : Ext name = ".enc") (timestamp : String) :
    backupFileName name timestamp = specBackupName name timestamp ∧ 4 ≤ name.length ∧
      name ≠ "" := by
  obtain ⟨pre, hp⟩ := Ext_enc_split h
  have hlen : name.length = pre.length + 4 := by
    show name.data.length = pre.length + 4
    rw [hp]
    simp
  have htake : name.data.take (name.length - 4) = pre := by
    rw [hlen, hp]
    simp
  have hne : name ≠ "" := by
    intro hc
    rw [hc] at hlen
    simp at hlen
  refine ⟨?_, by omega, hne⟩
  unfold backupFileName specBackupName specStem specExt
  rw [h]
  have h4 : (".enc" : String).length = 4 := by decide
  have h5 : String.mk ((".enc" : String).data.drop 1) = "enc" := by decide
  rw [h4, h5, htake]
  have h6 : ∀ a : String, a ++ "." ++ "enc" = a ++ ".enc" := by
    intro a
    rw [String.append_assoc]
    rfl
  rw [h6]

/-- C19, as amended: for every name with the extension `.enc` of an existing
file in the data directory, when the `backups` directory exists and reading the
source and writing the copy succeed, `CreateBackup` returns the stem of the
name, then `_backup_`, then the time of the call formatted, then `.enc`; the
backup file of that name then holds exactly the bytes of the source file, which
is itself unchanged. -/
theorem CreateBackup_enc_name (L : Lib) (fm : FileManager) (name : String) (e : BackupEnv)
    (src : File) (hext : Ext name = ".enc")
    (hsrc : fm.files.lookup (.data name) = some src)
    (hdir : fm.backupDirExists = true) (hread : e.readFails = false)
    (hwrite : e.write = .ok) :
    (fm.CreateBackup L name e).2 = .ok (specBackupName name (L.timeFormat e.now)) ∧
    specBackupName name (L.timeFormat e.now) =
      specStem name ++ "_backup_" ++ L.timeFormat e.now ++ ".enc" ∧
    (fm.CreateBackup L name e).1.files.lookup
      (.backup (specBackupName name (L.timeFormat e.now))) = some ⟨src.data, e.time⟩ ∧
    (fm.CreateBackup L name e).1.files.lookup (.data name) = some src := by
  obtain ⟨hname, h4, hne⟩ := backupFileName_eq_spec hext (L.timeFormat e.now)
  have hB := @CreateBackup_healthy L fm name e src hsrc hne (by omega) hdir hread hwrite
  rw [hname] at hB
  refine ⟨by rw [hB], ?_, ?_, ?_⟩
  · unfold specBackupName specExt
    rw [hext]
    have h5 : String.mk ((".enc" : String).data.drop 1) = "enc" := by decide
    rw [h5, String.append_assoc _ "." "enc"]
    rfl
  · rw [hB]
    exact AList.lookup_insert _
  · rw [CreateBackup_lookup_data]
    exact hsrc

theorem CreateBackup_enc_name_witness :
    Ext "tasks.enc" = ".enc" ∧
    savedStorage.fileManager.files.lookup (.data "tasks.enc") =
      some ⟨sampleBlob, 7 * second⟩ ∧
    (savedStorage.fileManager.CreateBackup toyLib "tasks.enc" (healthyBackup (8 * second))).2 =
      .ok (specBackupName "tasks.enc" (toyLib.timeFormat (8 * second))) ∧
    specBackupName "tasks.enc" (toyLib.timeFormat (8 * second)) = "tasks_backup_8.enc" :=
  have h := CreateBackup_enc_name toyLib savedStorage.fileManager "tasks.enc"
    (healthyBackup (8 * second)) ⟨sampleBlob, 7 * second⟩ (by decide) rfl rfl rfl rfl
  ⟨by decide, rfl, h.1, by decide⟩

/-- C19, as stated, fails for the existing file `data.txt`: the claim promises
the name `data_backup_7.txt`, `CreateBackup` returns `data_backup_7.enc` and no
file of the promised name exists afterwards. -/
theorem CreateBackup_name_counterexample :
    txtDir.files.lookup (.data "data.txt") = some ⟨[1, 2], 0⟩ ∧
    specBackupName "data.txt" (toyLib.timeFormat (7 * second)) = "data_backup_7.txt" ∧
    (txtDir.CreateBackup toyLib "data.txt" (healthyBackup (7 * second))).2 =
      .ok "data_backup_7.enc" ∧
    (txtDir.CreateBackup toyLib "data.txt" (healthyBackup (7 * second))).2 ≠
      .ok (specBackupName "data.txt" (toyLib.timeFormat (7 * second))) ∧
    (txtDir.CreateBackup toyLib "data.txt" (healthyBackup (7 * second))).1.files.lookup
      (.backup (specBackupName "data.txt" (toyLib.timeFormat (7 * second)))) = none := by
  refine ⟨rfl, by decide, rfl, ?_, by decide⟩
  intro h
  have h2 : (txtDir.CreateBackup toyLib "data.txt" (healthyBackup (7 * second))).2 =
      .ok "data_backup_7.enc" := rfl
  rw [h2] at h
  have h3 := Except.ok.inj h
  revert h3
  decide

/-! ## Decrypting under another password -/

theorem hmacKeyBlock_append_zero (hash : List Byte → List Byte) (key : List Byte)
    (h : key.length < 64) : hmacKeyBlock hash (key ++ [0]) = hmacKeyBlock hash key := by
  unfold hmacKeyBlock
  have h1 : ¬ (key ++ [0]).length > 64 := by
    simp only [List.length_append, List.length_singleton]
    omega
  have h2 : ¬ key.length > 64 := by omega
  simp only [h1, h2, if_false]
  have h3 : 64 - key.length = (64 - (key ++ [0]).length) + 1 := by
    simp only [List.length_append, List.length_singleton]
    omega
  rw [h3, List.replicate_succ, List.append_assoc]
  rfl

/-- What `Decrypt` returns for a blob of at least 44 bytes: the plaintext
`gcm.Open` returns for the three parts of the blob, or the one error
`decryption failed: invalid data or wrong password` when it rejects them. -/
theorem Decrypt_of_long {L : Lib} (hL : L.Lawful) (c : CryptoService) {b : List Byte}
    (h : 44 ≤ b.length) :
    c.Decrypt L b =
      match L.gcmOpen (c.deriveKey L (slice b 0 SaltSize))
          (slice b SaltSize (SaltSize + IVSize)) (b.drop (SaltSize + IVSize)) with
      | none => .error (.msg "decryption failed: invalid data or wrong password")
      | some plaintext => .ok plaintext := by
  have hk := deriveKey_length hL c (slice b 0 SaltSize)
  have h4 : ¬ b.length < SaltSize + IVSize + TagSize := by
    simp only [SaltSize, IVSize, TagSize]
    omega
  unfold CryptoService.Decrypt
  rw [if_neg h4]
  simp only [hL.aes_ok _ hk, hL.gcm_ok _ hk]
  simp

theorem Encrypt_blob_long {L : Lib} (hL : L.Lawful) {c : CryptoService} {env : EncryptEnv}
    {p b : List Byte} (h : c.Encrypt L env p = .ok b) : 44 ≤ b.length := by
  obtain ⟨_, salt, iv, hs, hi, rfl⟩ := Encrypt_ok_inv h
  rw [blob_length hL c p (generateSalt_length hs) (generateIV_length hi)]
  omega

/-- In every library that reads the password through the HMAC key block, a
password of fewer than 64 bytes and the same password followed by a zero byte
decrypt the blobs of each other. -/
theorem Decrypt_zero_padded_password {L : Lib} (hL : L.Lawful)
    {hash : List Byte → List Byte} (hK : L.KeyedByHmac hash) (A : List Byte)
    (hA : A.length < 64) {env : EncryptEnv} {p b : List Byte}
    (h : (NewCryptoService A).Encrypt L env p = .ok b) :
    (NewCryptoService (A ++ [0])).Decrypt L b = .ok p := by
  have hd := Decrypt_of_Encrypt hL h
  have hlong := Encrypt_blob_long hL h
  rw [Decrypt_of_long hL _ hlong] at hd ⊢
  have hkey : (NewCryptoService (A ++ [0])).deriveKey L (slice b 0 SaltSize) =
      (NewCryptoService A).deriveKey L (slice b 0 SaltSize) := by
    unfold CryptoService.deriveKey NewCryptoService
    exact hK _ _ _ _ _ (hmacKeyBlock_append_zero hash A hA)
  rw [hkey]
  exact hd

theorem Decrypt_too_short_iff_witness :
    sampleCrypto.Decrypt toyLib [1, 2, 3] = .error (.msg "encrypted data too short") :=
  (Decrypt_too_short_iff toyLib sampleCrypto [1, 2, 3]).1.mpr (by decide)

/-! ## The lock handle -/

theorem Lock_error_fileLock {fm : FileManager} {e : LockEnv} {err : Error}
    (h : (fm.Lock e).2 = .error err) : (fm.Lock e).1.fileLock = fm.fileLock := by
  have hf := (ensureDataDir_files fm e.mkdir).2
  unfold FileManager.Lock at h ⊢
  rcases hed : fm.ensureDataDir e.mkdir with ⟨fm1, r⟩
  rw [hed] at hf h
  simp only at hf h ⊢
  cases r with
  | error err1 => exact hf
  | ok u =>
    simp only at h ⊢
    by_cases hl : fm1.fileLock = true
    · simp [hl] at h
    · simp only [hl, Bool.false_eq_true, if_false] at h ⊢
      cases ho : e.openFails
      · simp only [ho, Bool.false_eq_true, if_false] at h ⊢
        cases ha : acquireLockWithTimeout e.start e.attempts (5 * second) with
        | ok u2 => simp [ha] at h
        | error err2 =>
          simp only
          cases hlk : fm1.files.lookup (.data lockFileName)
          · simp only
            rw [← hf]
            simpa using hl
          · exact hf
      · simp only [if_true]
        exact hf

/-- C22: each of `LoadData`, `SaveData`, `CreateManualBackup` and
`RestoreFromBackup`, started on a storage whose file manager does not hold the
lock, leaves the file manager without the lock (the lock handle is nil) on
every return path: whatever the arguments and whatever the environment does,
a failing lock acquisition and a failing unlock included. -/
theorem lock_released_on_every_path (L : Lib) (es : EncryptedStorage)
    (h : es.fileManager.fileLock = false) :
    (∀ e, (es.LoadData L e).1.fileManager.fileLock = false) ∧
    (∀ e p, (es.SaveData L e p).1.fileManager.fileLock = false) ∧
    (∀ e, (es.CreateManualBackup L e).1.fileManager.fileLock = false) ∧
    (∀ e name, (es.RestoreFromBackup L e name).1.fileManager.fileLock = false) := by
  have hlock : ∀ e : LockEnv, ∀ fm1 r, es.fileManager.Lock e = (fm1, r) →
      (∀ err, r = .error err → fm1.fileLock = false) := by
    intro e fm1 r hL err hr
    have h2 : (es.fileManager.Lock e).2 = .error err := by rw [hL, hr]
    have h3 := Lock_error_fileLock h2
    rw [hL] at h3
    exact h3.trans h
  refine ⟨?_, ?_, ?_, ?_⟩
  · intro e
    unfold EncryptedStorage.LoadData
    rcases hL : es.fileManager.Lock e.lock with ⟨fm1, r⟩
    cases r with
    | error err => exact hlock _ _ _ hL err rfl
    | ok u => exact (Unlock_files _ e.unlock).2.2.2
  · intro e p
    unfold EncryptedStorage.SaveData
    split
    · exact h
    · split
      · exact h
      · rcases hL : es.fileManager.Lock e.lock with ⟨fm1, r⟩
        cases r with
        | error err => exact hlock _ _ _ hL err rfl
        | ok u => exact (Unlock_files _ e.unlock).2.2.2
  · intro e
    unfold EncryptedStorage.CreateManualBackup
    rcases hL : es.fileManager.Lock e.lock with ⟨fm1, r⟩
    cases r with
    | error err => exact hlock _ _ _ hL err rfl
    | ok u => exact (Unlock_files _ e.unlock).2.2.2
  · intro e name
    unfold EncryptedStorage.RestoreFromBackup
    split
    · exact h
    · rcases hL : es.fileManager.Lock e.lock with ⟨fm1, r⟩
      cases r with
      | error err => exact hlock _ _ _ hL err rfl
      | ok u => exact (Unlock_files _ e.unlock).2.2.2

theorem lock_released_on_every_path_witness :
    sampleStorage.fileManager.fileLock = false ∧
    (sampleStorage.SaveData toyLib (healthySave (7 * second))
      samplePayload).1.fileManager.fileLock = false ∧
    (sampleStorage.LoadData toyLib
      { healthyLoad with unlock := { flockFails := true, closeFails := true } }
      ).1.fileManager.fileLock = false :=
  have h := lock_released_on_every_path toyLib sampleStorage rfl
  ⟨rfl, h.2.1 _ _, h.1 _⟩

/-- What `Lock` does on a file manager that already holds the lock: it runs
`ensureDataDir` and returns its error, or returns success without touching lock
file, OS lock or handle. -/
theorem Lock_of_held (fm : FileManager) (e : LockEnv) (hheld : fm.fileLock = true) :
    fm.Lock e = (match fm.ensureDataDir e.mkdir with
      | (fm1, .error err) => (fm1, .error err)
      | (fm1, .ok _) => (fm1, .ok ())) := by
  have hf := (ensureDataDir_files fm e.mkdir).2
  unfold FileManager.Lock
  rcases hed : fm.ensureDataDir e.mkdir with ⟨fm1, r⟩
  rw [hed] at hf
  simp only at hf
  cases r with
  | error err => rfl
  | ok u =>
    have h1 : fm1.fileLock = true := hf.trans hheld
    simp [h1]

/-- C23, as amended: for every file manager that already holds the lock, when
the two `MkdirAll` calls of `ensureDataDir` succeed, another `Lock` call returns
success without opening the lock file or attempting the OS lock (whatever these
would do), and leaves the lock handle held and every file unchanged; the
directories exist afterwards. -/
theorem Lock_idempotent_when_dirs_ok (fm : FileManager) (e : LockEnv)
    (hheld : fm.fileLock = true)
    (h1 : e.mkdir.dataDirFails = false) (h2 : e.mkdir.backupDirFails = false) :
    fm.Lock e = ({ fm with dataDirExists := true, backupDirExists := true }, .ok ()) ∧
    (fm.Lock e).2 = .ok () ∧
    (fm.Lock e).1.fileLock = true ∧
    (fm.Lock e).1.files = fm.files := by
  have h : fm.Lock e = ({ fm with dataDirExists := true, backupDirExists := true }, .ok ()) := by
    rw [Lock_of_held fm e hheld]
    unfold FileManager.ensureDataDir FileManager.ensureDataDirRun
    simp [h1, h2]
  refine ⟨h, ?_, ?_, ?_⟩
  · rw [h]
  · rw [h]
    exact hheld
  · rw [h]

theorem Lock_idempotent_when_dirs_ok_witness :
    firstCallerDir.fileLock = true ∧
    (firstCallerDir.Lock blockedLock).2 = .ok () ∧
    (firstCallerDir.Lock blockedLock).1.fileLock = true ∧
    (firstCallerDir.Lock blockedLock).1.files = firstCallerDir.files :=
  ⟨rfl, (Lock_idempotent_when_dirs_ok firstCallerDir blockedLock rfl rfl rfl).2⟩

/-- C23, as stated, fails: on a file manager that holds the lock, `Lock` returns
the error of `ensureDataDir` when the data directory cannot be created. -/
theorem Lock_held_counterexample :
    heldDir.fileLock = true ∧
    (heldDir.Lock failingMkdirLock).2 =
      .error (.wrap "failed to create data directory" (.sys "mkdir")) :=
  ⟨rfl, rfl⟩

/-- C24 at the failing schedule: a first caller has acquired the lock and is in
its critical section; the `Lock` of a second caller on the same file manager
returns success at once, in an environment in which the OS lock is not granted
(on a file manager without the lock the same call times out); the `Unlock` of
the second caller then releases the lock the first caller still relies on. -/
theorem second_lock_returns_while_first_holds :
    (emptyDir.Lock healthyLock).2 = .ok () ∧
    firstCallerDir.fileLock = true ∧
    (emptyDir.Lock blockedLock).2 = .error (.msg "timeout acquiring file lock") ∧
    (firstCallerDir.Lock blockedLock).2 = .ok () ∧
    ((firstCallerDir.Lock blockedLock).1.Unlock healthyUnlock).1.fileLock = false :=
  ⟨rfl, rfl, rfl, rfl, rfl⟩

/-! ## The temporary file of a failed write -/

/-- When the write of the temporary file is cut short, `WriteFile` returns an
error and leaves the temporary file behind, holding the bytes written. -/
theorem WriteFile_short_write_leaves_temp (fm : FileManager) (f : String) (d : List Byte)
    (e : WriteEnv) (n : Nat) (hf : f ≠ "")
    (h1 : e.mkdir.dataDirFails = false) (h2 : e.mkdir.backupDirFails = false)
    (h3 : e.tmpWrite = .short n) :
    (fm.WriteFile f d e).2 = .error (.wrap "failed to write temporary file" (.sys "write")) ∧
    (fm.WriteFile f d e).1.files.lookup (.data (f ++ ".tmp")) = some ⟨d.take n, e.time⟩ := by
  unfold FileManager.WriteFile FileManager.WriteFileRun FileManager.ensureDataDir
    FileManager.ensureDataDirRun
  simp [hf, h1, h2, h3]

/-- When the rename fails and the removal succeeds, `WriteFile` returns an error
and no temporary file remains. -/
theorem WriteFile_rename_failure_cleans (fm : FileManager) (f : String) (d : List Byte)
    (e : WriteEnv) (hf : f ≠ "")
    (h1 : e.mkdir.dataDirFails = false) (h2 : e.mkdir.backupDirFails = false)
    (h3 : e.tmpWrite = .ok) (h4 : e.renameFails = true) (h5 : e.removeFails = false) :
    (fm.WriteFile f d e).2 = .error (.wrap "failed to rename temporary file" (.sys "rename")) ∧
    (fm.WriteFile f d e).1.files.lookup (.data (f ++ ".tmp")) = none := by
  unfold FileManager.WriteFile FileManager.WriteFileRun FileManager.ensureDataDir
    FileManager.ensureDataDirRun
  simp [hf, h1, h2, h3, h4, h5]

/-- C21 at the failing input: the write of `tasks.enc.tmp` fails after 2 bytes;
`WriteFile` returns the error and the temporary file, absent before the call,
remains with the 2 bytes written; when instead the rename fails, the temporary
file is removed. -/
theorem WriteFile_leaves_partial_temp :
    emptyDir.files.lookup (.data "tasks.enc.tmp") = none ∧
    (emptyDir.WriteFile "tasks.enc" samplePayload (shortTmpWrite 5)).2 =
      .error (.wrap "failed to write temporary file" (.sys "write")) ∧
    (emptyDir.WriteFile "tasks.enc" samplePayload (shortTmpWrite 5)).1.files.lookup
      (.data "tasks.enc.tmp") = some ⟨[91, 49], 5⟩ ∧
    (emptyDir.WriteFile "tasks.enc" samplePayload (failingRename 5)).2 =
      .error (.wrap "failed to rename temporary file" (.sys "rename")) ∧
    (emptyDir.WriteFile "tasks.enc" samplePayload (failingRename 5)).1.files.lookup
      (.data "tasks.enc.tmp") = none :=
  ⟨rfl, rfl, rfl, rfl, rfl⟩

/-! ## The slice that strips the extension -/

/-- For every existing file whose name has 1 to 3 bytes, `CreateBackup` ends in
the run-time panic of the slice expression and changes nothing. -/
theorem CreateBackup_short_name_panics (L : Lib) (fm : FileManager) (name : String)
    (e : BackupEnv) (src : File) (hne : name ≠ "") (hlen : name.length < 4)
    (hsrc : fm.files.lookup (.data name) = some src) :
    fm.CreateBackup L name e = (fm, .error (.panic "slice bounds out of range")) := by
  unfold FileManager.CreateBackup
  simp [hne, hlen, hsrc]

/-- C29 at the failing input: for the existing file `abc`, `CreateBackup` takes
the slice `filename[:len(filename)-4]` out of range and panics; it returns
neither a backup name nor an error. -/
theorem CreateBackup_abc_panics :
    shortNameDir.files.lookup (.data "abc") = some ⟨[1, 2], 0⟩ ∧
    shortNameDir.CreateBackup toyLib "abc" (healthyBackup (7 * second)) =
      (shortNameDir, .error (.panic "slice bounds out of range")) ∧
    panicOf (shortNameDir.CreateBackup toyLib "abc" (healthyBackup (7 * second))).2 =
      some "slice bounds out of range" :=
  ⟨rfl, rfl, rfl⟩

/-! ## The retention period -/

theorem SetRetentionDays_ge_one (es : EncryptedStorage) (days : Int)
    (h : 1 ≤ es.retentionDays) : 1 ≤ (es.SetRetentionDays days).retentionDays := by
  unfold EncryptedStorage.SetRetentionDays
  split
  · simp only
    omega
  · exact h

theorem SetRetentionDays_fold_ge_one (ds : List Int) :
    ∀ es : EncryptedStorage, 1 ≤ es.retentionDays →
      1 ≤ (ds.foldl EncryptedStorage.SetRetentionDays es).retentionDays := by
  induction ds with
  | nil => intro es h; exact h
  | cons d rest ih =>
    intro es h
    exact ih _ (SetRetentionDays_ge_one es d h)

/-- C28: the retention period of a storage is 30 after construction; a
`SetRetentionDays` call with `days <= 0` leaves it unchanged and a call with
`days >= 1` sets it to `days`; after any sequence of such calls it is at least
1, and `SaveData` does not change it; hence `DeleteOldBackups`, called with it,
never returns the error `retention days must be positive`. -/
theorem retention_period_positive (fm0 : FileManager) (password : List Byte) :
    (NewEncryptedStorage fm0 password).retentionDays = 30 ∧
    (∀ (es : EncryptedStorage) (days : Int), days ≤ 0 → es.SetRetentionDays days = es) ∧
    (∀ (es : EncryptedStorage) (days : Int), 1 ≤ days →
      es.SetRetentionDays days = { es with retentionDays := days }) ∧
    (∀ ds : List Int,
      1 ≤ (ds.foldl EncryptedStorage.SetRetentionDays
        (NewEncryptedStorage fm0 password)).retentionDays) ∧
    (∀ (L : Lib) (es : EncryptedStorage) (e : SaveEnv) (p : List Byte),
      (es.SaveData L e p).1.retentionDays = es.retentionDays) ∧
    (∀ (ds : List Int) (fm : FileManager) (e : SweepEnv),
      (fm.DeleteOldBackups (ds.foldl EncryptedStorage.SetRetentionDays
        (NewEncryptedStorage fm0 password)).retentionDays e).2 ≠
          .error (.msg "retention days must be positive")) := by
  have h30 : (1 : Int) ≤ (NewEncryptedStorage fm0 password).retentionDays := by
    show (1 : Int) ≤ DefaultRetentionDays
    decide
  refine ⟨rfl, ?_, ?_, fun ds => SetRetentionDays_fold_ge_one ds _ h30,
    fun L es e p => (SaveData_config L es e p).2.2, ?_⟩
  · intro es days h
    unfold EncryptedStorage.SetRetentionDays
    have : ¬ days > 0 := by omega
    simp [this]
  · intro es days h
    unfold EncryptedStorage.SetRetentionDays
    have : days > 0 := by omega
    simp [this]
  · intro ds fm e
    have hge := SetRetentionDays_fold_ge_one ds _ h30
    unfold FileManager.DeleteOldBackups
    have hn : ¬ (ds.foldl EncryptedStorage.SetRetentionDays
        (NewEncryptedStorage fm0 password)).retentionDays ≤ 0 := by omega
    rw [if_neg hn]
    simp only
    split
    · simp
    · split <;> simp

theorem retention_period_positive_witness :
    (NewEncryptedStorage emptyDir samplePassword).retentionDays = 30 ∧
    ([0, 7, -3].foldl EncryptedStorage.SetRetentionDays
      (NewEncryptedStorage emptyDir samplePassword)).retentionDays = 7 ∧
    (1 : Int) ≤ ([0, 7, -3].foldl EncryptedStorage.SetRetentionDays
      (NewEncryptedStorage emptyDir samplePassword)).retentionDays :=
  have h := retention_period_positive emptyDir samplePassword
  ⟨h.1, by decide, h.2.2.2.1 [0, 7, -3]⟩

/-! ## The backup being restored -/

/-- With a lawful library and both draws succeeding, the self-test of
`Initialize` passes, and `Initialize` returns what `ValidateEncryptionKey`
returns, an error wrapped once more. -/
theorem Initialize_eq_validate {L : Lib} (hL : L.Lawful) (es : EncryptedStorage) (e : InitEnv)
    (g1 g2 : Nat → Byte) (hrand : e.encrypt = { salt := some g1, iv := some g2 }) :
    es.Initialize L e =
      (match es.ValidateEncryptionKey L e.readFails with
        | .error err => .error (.wrap "encryption key validation failed" err)
        | .ok _ => .ok ()) := by
  have hne : testData ≠ [] := by decide
  have hE := Encrypt_ok hL es.cryptoService g1 g2 hne
  have hD := Decrypt_of_Encrypt hL hE
  unfold EncryptedStorage.Initialize
  rw [hrand, hE]
  simp only
  rw [hD]
  simp

/-- C25, as amended: with a lawful library and both draws of the self-test
succeeding, for every data-directory state in which a data file exists and can
be read, `Initialize` returns an error whenever the bytes of the data file are
not empty and do not decrypt under the configured password, and returns success
when they decrypt and also when the file is empty; when the data file cannot be
read it returns an error; when no data file exists it returns success. -/
theorem Initialize_validates_data_file (L : Lib) (hL : L.Lawful) (es : EncryptedStorage)
    (e : InitEnv) (g1 g2 : Nat → Byte)
    (hrand : e.encrypt = { salt := some g1, iv := some g2 })
    (hname : es.dataFile ≠ "") :
    (∀ f, es.fileManager.files.lookup (.data es.dataFile) = some f →
      (e.readFails = false → f.data ≠ [] →
        ∀ err, es.cryptoService.Decrypt L f.data = .error err →
          es.Initialize L e = .error (.wrap "encryption key validation failed" err)) ∧
      (e.readFails = false → (∃ d, es.cryptoService.Decrypt L f.data = .ok d) →
        es.Initialize L e = .ok ()) ∧
      (e.readFails = false → f.data = [] → es.Initialize L e = .ok ()) ∧
      (e.readFails = true → ∃ err, es.Initialize L e = .error err)) ∧
    (es.fileManager.files.lookup (.data es.dataFile) = none → es.Initialize L e = .ok ()) := by
  rw [Initialize_eq_validate hL es e g1 g2 hrand]
  refine ⟨fun f hf => ⟨?_, ?_, ?_, ?_⟩, fun hnone => ?_⟩
  · intro hr hne err hD
    have hlen : ¬ f.data.length = 0 := fun h => hne (List.length_eq_zero.mp h)
    simp [EncryptedStorage.ValidateEncryptionKey, FileManager.FileExists, hname, hf,
      FileManager.ReadFile, RelPath.isEmpty, hr, CryptoService.ValidatePassword, hlen, hD]
  · rintro hr ⟨d, hD⟩
    by_cases hlen : f.data.length = 0
    · simp [EncryptedStorage.ValidateEncryptionKey, FileManager.FileExists, hname, hf,
        FileManager.ReadFile, RelPath.isEmpty, hr, CryptoService.ValidatePassword, hlen]
    · simp [EncryptedStorage.ValidateEncryptionKey, FileManager.FileExists, hname, hf,
        FileManager.ReadFile, RelPath.isEmpty, hr, CryptoService.ValidatePassword, hlen, hD]
  · intro hr hnil
    simp [EncryptedStorage.ValidateEncryptionKey, FileManager.FileExists, hname, hf,
      FileManager.ReadFile, RelPath.isEmpty, hr, CryptoService.ValidatePassword, hnil]
  · intro hr
    simp [EncryptedStorage.ValidateEncryptionKey, FileManager.FileExists, hname, hf,
      FileManager.ReadFile, RelPath.isEmpty, hr]
  · simp [EncryptedStorage.ValidateEncryptionKey, FileManager.FileExists, hname, hnone]

theorem Initialize_validates_data_file_witness :
    toyLib.Lawful ∧
    truncatedFileStorage.fileManager.files.lookup (.data truncatedFileStorage.dataFile) =
      some ⟨[1, 2, 3], 0⟩ ∧
    truncatedFileStorage.Initialize toyLib healthyInit =
      .error (.wrap "encryption key validation failed" (.msg "encrypted data too short")) ∧
    (savedStorage.Initialize toyLib healthyInit = .ok ()) ∧
    (sampleStorage.Initialize toyLib healthyInit = .ok ()) :=
  ⟨toyLib_lawful, rfl,
    ((Initialize_validates_data_file toyLib toyLib_lawful truncatedFileStorage healthyInit
      (fun _ => 3) (fun _ => 5) rfl (by decide)).1 ⟨[1, 2, 3], 0⟩ rfl).1 rfl (by decide)
      (.msg "encrypted data too short") rfl,
    rfl, rfl⟩

/-- C25, as stated, fails: the data file exists and is empty, its bytes do not
decrypt under the configured password (`Decrypt` returns the error `encrypted
data too short`), and `Initialize` returns success. -/
theorem Initialize_accepts_empty_data_file :
    emptyFileStorage.fileManager.files.lookup (.data emptyFileStorage.dataFile) =
      some ⟨[], 0⟩ ∧
    emptyFileStorage.fileManager.FileExists emptyFileStorage.dataFile = true ∧
    emptyFileStorage.cryptoService.Decrypt toyLib [] =
      .error (.msg "encrypted data too short") ∧
    emptyFileStorage.Initialize toyLib healthyInit = .ok () :=
  ⟨rfl, rfl, rfl, rfl⟩

/-! ## Listing the backups -/

theorem readDirBackups_nodup (fm : FileManager) : fm.readDirBackups.Nodup := by
  unfold FileManager.readDirBackups
  rw [(List.perm_insertionSort _ _).nodup_iff]
  refine List.Nodup.filterMap ?_ fm.files.keys_nodup
  intro a a' b ha ha'
  cases a <;> cases a' <;> simp_all

theorem ListBackups_names_perm (fm : FileManager) (subdirs : List String) :
    (((fm.readDirEntries subdirs).filter
      (fun entry => !entry.isDir && decide (Ext entry.name = ".enc"))).map DirEntry.name).Perm
      (fm.readDirBackups.filter (fun n => decide (Ext n = ".enc"))) := by
  unfold FileManager.readDirEntries
  refine (((List.perm_insertionSort _ _).filter _).map _).trans ?_
  rw [List.filter_append, List.map_append, List.filter_map, List.filter_map, List.map_map,
    List.map_map]
  have h2 : (subdirs.filter ((fun entry : DirEntry =>
      !entry.isDir && decide (Ext entry.name = ".enc")) ∘ fun n => DirEntry.mk n true)) = [] := by
    rw [List.filter_eq_nil_iff]
    intro a _
    simp
  rw [h2]
  simp only [List.map_nil, List.append_nil]
  have h1 : ((fun entry : DirEntry => !entry.isDir && decide (Ext entry.name = ".enc")) ∘
      fun n => DirEntry.mk n false) = (fun n => decide (Ext n = ".enc")) := by
    funext n
    simp
  rw [h1]
  have h3 : (DirEntry.name ∘ fun n => DirEntry.mk n false) = id := by
    funext n
    rfl
  rw [h3, List.map_id]

theorem ListBackups_names_sorted (fm : FileManager) (subdirs : List String) :
    (((fm.readDirEntries subdirs).filter
      (fun entry => !entry.isDir && decide (Ext entry.name = ".enc"))).map
        DirEntry.name).Sorted (fun a b => a.data ≤ b.data) := by
  unfold FileManager.readDirEntries
  have htot : IsTotal DirEntry (fun a b => a.name.data ≤ b.name.data) :=
    ⟨fun a b => le_total a.name.data b.name.data⟩
  have htr : IsTrans DirEntry (fun a b => a.name.data ≤ b.name.data) :=
    ⟨fun a b c h1 h2 => le_trans h1 h2⟩
  have hs := List.sorted_insertionSort (fun a b : DirEntry => a.name.data ≤ b.name.data)
    (fm.readDirBackups.map (fun n => DirEntry.mk n false) ++
      subdirs.map (fun n => DirEntry.mk n true))
  have hf := List.Sorted.filter
    (fun entry : DirEntry => !entry.isDir && decide (Ext entry.name = ".enc")) hs
  exact List.pairwise_map.mpr hf

/-- C27, as amended: `ListBackups` returns the empty sequence and no error when
the `backups` directory does not exist; when it exists and can be read,
`ListBackups` returns, in name order and without duplicates, exactly the names
of the entries of `backups` that are not directories and whose extension is
`.enc`, that is, of the regular files of `backups` with that extension. The
call returns no new state: it changes nothing on disk. -/
theorem ListBackups_lists_enc_files (fm : FileManager) (e : ListEnv) :
    (fm.backupDirExists = false → fm.ListBackups e = .ok []) ∧
    (fm.backupDirExists = true → e.readDirFails = false →
      ∃ names, fm.ListBackups e = .ok names ∧
        names.Sorted (fun a b => a.data ≤ b.data) ∧ names.Nodup ∧
        (∀ n, n ∈ names ↔
          (DirEntry.mk n false ∈ fm.readDirEntries e.subdirs ∧ Ext n = ".enc")) ∧
        (∀ n, n ∈ names ↔
          ((fm.files.lookup (.backup n)).isSome = true ∧ Ext n = ".enc"))) := by
  refine ⟨fun hdir => ?_, fun hdir hread => ?_⟩
  · simp [FileManager.ListBackups, hdir]
  · refine ⟨_, by simp [FileManager.ListBackups, hdir, hread],
      ListBackups_names_sorted fm e.subdirs, ?_, fun n => ?_, fun n => ?_⟩
    · rw [(ListBackups_names_perm fm e.subdirs).nodup_iff]
      exact (readDirBackups_nodup fm).filter _
    · rw [(ListBackups_names_perm fm e.subdirs).mem_iff, List.mem_filter]
      unfold FileManager.readDirEntries
      rw [(List.perm_insertionSort _ _).mem_iff]
      simp
    · rw [(ListBackups_names_perm fm e.subdirs).mem_iff, List.mem_filter, mem_readDirBackups]
      simp

theorem ListBackups_lists_enc_files_witness :
    emptyDir.ListBackups healthyList = .ok [] ∧
    sampleBackupsDir.ListBackups subdirList = .ok ["new.enc", "old.enc"] ∧
    ∃ names, sampleBackupsDir.ListBackups subdirList = .ok names ∧
      names.Sorted (fun a b => a.data ≤ b.data) ∧ names.Nodup ∧
      (∀ n, n ∈ names ↔
        (DirEntry.mk n false ∈ sampleBackupsDir.readDirEntries subdirList.subdirs ∧
          Ext n = ".enc")) ∧
      (∀ n, n ∈ names ↔
        ((sampleBackupsDir.files.lookup (.backup n)).isSome = true ∧ Ext n = ".enc")) :=
  ⟨(ListBackups_lists_enc_files emptyDir healthyList).1 rfl, rfl,
    (ListBackups_lists_enc_files sampleBackupsDir subdirList).2 rfl rfl⟩

/-- C27, as stated, fails: `backups` holds the regular files `new.enc`,
`old.enc`, `notes.txt` and the directory `archive.enc`; the directory is an
entry of `backups` whose extension is `.enc`, and `ListBackups` returns
`new.enc` and `old.enc` only. -/
theorem ListBackups_skips_directory :
    DirEntry.mk "archive.enc" true ∈ sampleBackupsDir.readDirEntries subdirList.subdirs ∧
    Ext "archive.enc" = ".enc" ∧
    sampleBackupsDir.ListBackups subdirList = .ok ["new.enc", "old.enc"] ∧
    "archive.enc" ∉ ["new.enc", "old.enc"] :=
  ⟨by decide, by decide, rfl, by decide⟩

/-! ## The minimum length of the encryption key -/

theorem utf8Size_ascii (c : Char) (h : c.toNat < 128) : c.utf8Size = 1 := by
  unfold Char.utf8Size
  have h1 : c.val ≤ 127 := by
    rw [UInt32.le_def]
    show c.val.toNat ≤ 127
    have h2 : c.toNat = c.val.toNat := rfl
    omega
  simp [h1]

theorem utf8ByteSize_go_ascii (l : List Char) (h : ∀ c ∈ l, c.toNat < 128) :
    String.utf8ByteSize.go l = l.length := by
  induction l with
  | nil => rfl
  | cons a rest ih =>
    simp only [String.utf8ByteSize.go, List.length_cons]
    rw [ih (fun c hc => h c (List.mem_cons_of_mem _ hc)),
      utf8Size_ascii a (h a (List.mem_cons_self _ _))]

/-- For a string of ASCII characters, Go `len` is the number of characters. -/
theorem len_ascii (s : String) (h : ∀ c ∈ s.data, c.toNat < 128) : len s = s.length := by
  cases s with
  | mk l => exact utf8ByteSize_go_ascii l h

theorem LoadConfig_short (C : ConfigLib) (getenv : String → String)
    (h : len (getenv "TASK_ENCRYPTION_KEY") < 32) :
    LoadConfig C getenv =
      (if getenv "TASK_ENCRYPTION_KEY" = "" then
        .error (.msg "TASK_ENCRYPTION_KEY environment variable is required")
      else .error (.msg "TASK_ENCRYPTION_KEY must be at least 32 characters long")) := by
  unfold LoadConfig
  simp only [h, if_true]

/-- What the length test of `LoadConfig` does reject: for every environment in
which `TASK_ENCRYPTION_KEY` has fewer than 32 bytes (Go `len`), including when
it is unset or empty, `LoadConfig` returns an error and no Config, and `main`
constructs no storage; in particular this holds for every key of fewer than 32
ASCII characters. -/
theorem LoadConfig_rejects_short_key (C : ConfigLib) (getenv : String → String)
    (fm : FileManager) :
    (len (getenv "TASK_ENCRYPTION_KEY") < 32 →
      (∃ err, LoadConfig C getenv = .error err) ∧ (∃ err, mainStorage C getenv fm = .error err)) ∧
    (getenv "TASK_ENCRYPTION_KEY" = "" →
      LoadConfig C getenv =
        .error (.msg "TASK_ENCRYPTION_KEY environment variable is required")) ∧
    ((∀ c ∈ (getenv "TASK_ENCRYPTION_KEY").data, c.toNat < 128) →
      (getenv "TASK_ENCRYPTION_KEY").length < 32 →
      (∃ err, LoadConfig C getenv = .error err) ∧
        (∃ err, mainStorage C getenv fm = .error err)) := by
  have key : len (getenv "TASK_ENCRYPTION_KEY") < 32 →
      (∃ err, LoadConfig C getenv = .error err) ∧
        (∃ err, mainStorage C getenv fm = .error err) := by
    intro h
    have hL := LoadConfig_short C getenv h
    have hE : ∃ err, LoadConfig C getenv = .error err := by
      rw [hL]
      split
      · exact ⟨_, rfl⟩
      · exact ⟨_, rfl⟩
    obtain ⟨err, herr⟩ := hE
    exact ⟨⟨err, herr⟩, ⟨err, by unfold mainStorage; rw [herr]⟩⟩
  refine ⟨key, fun h => ?_, fun hascii hlen => ?_⟩
  · have h0 : len (getenv "TASK_ENCRYPTION_KEY") < 32 := by
      rw [h]
      decide
    rw [LoadConfig_short C getenv h0, if_pos h]
  · apply key
    rw [len_ascii _ hascii]
    exact hlen

theorem LoadConfig_rejects_short_key_witness :
    len (keyOnlyEnv shortKey "TASK_ENCRYPTION_KEY") < 32 ∧
    LoadConfig toyConfigLib (keyOnlyEnv shortKey) =
      .error (.msg "TASK_ENCRYPTION_KEY must be at least 32 characters long") ∧
    ((∃ err, LoadConfig toyConfigLib (keyOnlyEnv shortKey) = .error err) ∧
      (∃ err, mainStorage toyConfigLib (keyOnlyEnv shortKey) emptyDir = .error err)) :=
  ⟨by decide, rfl,
    (LoadConfig_rejects_short_key toyConfigLib (keyOnlyEnv shortKey) emptyDir).1 (by decide)⟩

/-- C26 at the failing input: `TASK_ENCRYPTION_KEY` is a key of 16 characters,
fewer than the 32 characters the error message of `LoadConfig` demands, whose
UTF-8 encoding has 32 bytes; the test `len(encryptionKey) < 32` counts bytes,
so `LoadConfig` returns a Config with that key and no error, and `main`
constructs a storage from it. -/
theorem LoadConfig_accepts_sixteen_characters :
    (keyOnlyEnv accentedKey "TASK_ENCRYPTION_KEY").length = 16 ∧
    len (keyOnlyEnv accentedKey "TASK_ENCRYPTION_KEY") = 32 ∧
    LoadConfig toyConfigLib (keyOnlyEnv accentedKey) = .ok accentedConfig ∧
    accentedConfig.EncryptionKey.length = 16 ∧
    (∃ es, mainStorage toyConfigLib (keyOnlyEnv accentedKey) emptyDir = .ok es) :=
  ⟨by decide, by decide, rfl, by decide, ⟨_, rfl⟩⟩

/-! ## The retention cutoff for the largest retention period -/

/-- Whatever `AddDate` returns, an `.enc` backup whose modification time is
before the cutoff is deleted when the deletion succeeds, also when the cutoff
lies after the clock reading. -/
theorem DeleteOldBackups_deletes_before_cutoff (fm : FileManager) (r : Int) (e : SweepEnv)
    (n : String) (f : File) (hr : 1 ≤ r) (hdir : fm.backupDirExists = true)
    (hread : e.readDirFails = false) (hinfo : e.infoFails n = false)
    (hrm : e.removeFails n = false) (hext : Ext n = ".enc")
    (hf : fm.files.lookup (.backup n) = some f)
    (hlt : f.modTime < e.addDate e.now (-r)) :
    (fm.DeleteOldBackups r e).1.files.lookup (.backup n) = none := by
  have hpos : 0 < r := by omega
  rw [DeleteOldBackups_lookup_backup]
  simp only [hpos, hdir, hread, and_self, if_true]
  simp [swept, hf, hext, hinfo, hrm, hlt]

/-- C9 at the failing input: `retentionDays` is `math.MaxInt64`; the date
arithmetic of `AddDate` wraps around and the cutoff is one day after the clock
reading instead of `retentionDays` days before it; the backup modified 5 days
ago, which is not before `now - retentionDays` days, is deleted, as is every
`.enc` file, while with `retentionDays = 30` it is kept. -/
theorem DeleteOldBackups_max_retention_deletes_all :
    (healthySweep (100 * day)).addDate (100 * day) (-maxInt) = 100 * day + 1 * day ∧
    sampleBackupsDir.files.lookup (.backup "new.enc") = some ⟨[2], 100 * day - 5 * day⟩ ∧
    ¬ (100 * day - 5 * day < 100 * day - maxInt * day) ∧
    (sampleBackupsDir.DeleteOldBackups maxInt (healthySweep (100 * day))).2 = .ok () ∧
    (sampleBackupsDir.DeleteOldBackups maxInt (healthySweep (100 * day))).1.files.lookup
      (.backup "new.enc") = none ∧
    (sampleBackupsDir.DeleteOldBackups maxInt (healthySweep (100 * day))).1.files.lookup
      (.backup "old.enc") = none ∧
    (sampleBackupsDir.DeleteOldBackups 30 (healthySweep (100 * day))).1.files.lookup
      (.backup "new.enc") = some ⟨[2], 100 * day - 5 * day⟩ :=
  ⟨by decide, rfl, by decide, rfl, by decide, by decide, by decide⟩

/-- C8 at the failing input: the retention period of the storage is
`math.MaxInt64`, a data file exists, and a `SaveData` call in which nothing
fails succeeds; its backup copy `tasks_backup_9.enc` is written, and the
retention sweep of the same call, whose cutoff has wrapped around to one day
after the clock reading, deletes it: when `SaveData` returns, `backups` holds
no such file. With the retention period 30 the same call keeps it. -/
theorem SaveData_max_retention_deletes_fresh_backup :
    keepForeverStorage.retentionDays = maxInt ∧
    keepForeverStorage.fileManager.files.lookup (.data "tasks.enc") =
      some ⟨sampleBlob, 7 * second⟩ ∧
    ((keepForeverStorage.fileManager.Lock healthyLock).1.CreateBackup toyLib "tasks.enc"
      (healthyBackup (9 * second))).2 = .ok "tasks_backup_9.enc" ∧
    (keepForeverStorage.SaveData toyLib (healthySave (9 * second)) samplePayload2).2 = .ok () ∧
    (keepForeverStorage.SaveData toyLib (healthySave (9 * second))
      samplePayload2).1.fileManager.files.lookup (.backup "tasks_backup_9.enc") = none ∧
    (savedStorage.SaveData toyLib (healthySave (9 * second))
      samplePayload2).1.fileManager.files.lookup (.backup "tasks_backup_9.enc") =
        some ⟨sampleBlob, 9 * second⟩ :=
  ⟨rfl, rfl, rfl, rfl, by decide, by decide⟩

/-! ## A backup copy cut short -/

/-- C4, as stated, fails: after a save at second 7 and a second successful save
at second 8 during which the write of the backup copy is cut short after 3
bytes, a state reached from the empty data directory, `backups` holds the file
`tasks_backup_8.enc` with the first 3 bytes of the data file, which is not a
blob that `Encrypt` produced (such a blob has at least 44 bytes). -/
theorem reachable_truncated_backup :
    emptyDir.files = ∅ ∧
    (((NewEncryptedStorage emptyDir samplePassword).run toyLib
      [.save (healthySave (7 * second)) samplePayload]).SaveData toyLib
        (degradedSave (8 * second)) samplePayload2).2 = .ok () ∧
    ((NewEncryptedStorage emptyDir samplePassword).run toyLib
      truncatedBackupOps).fileManager.files.lookup (.backup "tasks_backup_8.enc") =
        some ⟨[3, 3, 3], 8 * second⟩ ∧
    ¬ IsEncryptBlob toyLib (NewCryptoService samplePassword) [3, 3, 3] :=
  ⟨rfl, rfl, rfl, fun ⟨_, _, _, hE⟩ =>
    absurd (Encrypt_blob_long toyLib_lawful hE) (by decide)⟩

/-- The contract of the library does not make `gcm.Open` reject under another
key: in the toy library, which is lawful, the second password derives another
key than the sample password and still opens what was sealed under it. That
`Decrypt` rejects under another key is the cryptographic strength of AES-GCM,
not a consequence of the steps of the code. -/
theorem lawful_library_accepts_other_key :
    toyLib.Lawful ∧
    (NewCryptoService halfPassword).deriveKey toyLib (slice sampleBlob 0 SaltSize) ≠
      (NewCryptoService samplePassword).deriveKey toyLib (slice sampleBlob 0 SaltSize) ∧
    (NewCryptoService samplePassword).Encrypt toyLib sampleEncryptEnv samplePayload =
      .ok sampleBlob ∧
    (NewCryptoService halfPassword).Decrypt toyLib sampleBlob = .ok samplePayload :=
  ⟨toyLib_lawful, by decide, rfl, rfl⟩

end TaskManage
